import Mathlib

/-!
Verification development for the idf repository (IDF 3.0 decoder/encoder,
src/idf30.rs).  The decoder and encoder logic is translated from
src/idf30.rs.  The pest grammar file idf30.pest referenced by the source is
not part of the sources available here, so the tokenizer layer is modelled
from the specification (sections 4.1 and 6): lines, bare tokens as maximal
runs of non-whitespace non-quote characters, quoted tokens with literal
contents, section headers starting with a dot, and terminators END_NAME
consumed by the grammar.  Machine floats (f32 and f64 in the source) are
modelled as exact rational numbers: decimal literals parse exactly and
fixed-precision formatting rounds the rational to the requested number of
decimal digits.
-/

deriving instance DecidableEq for Except

namespace Idf

/-- Mirror of the pest Rule enumeration as referenced by src/idf30.rs. -/
inductive Rule where
  | idf30
  | EOI
  | section_name
  | record
  | value
  | integer
  | float
  | string
  | string_num_allowed
  | quoted_string
deriving DecidableEq, Repr

/-- Translation of enum Error from src/idf30.rs lines 13 to 37.  Payloads of
ParseInt, ParseFloat and Pest are elided; Malformed keeps its static message. -/
inductive Error where
  | MissingHeader
  | UnsupportedVersion
  | WrongFileType
  | WrongUnit
  | MalformedPlacementSection
  | Malformed (msg : String)
  | ParseInt
  | ParseFloat
  | Pest
  | GrammarExpectedPair
  | GrammarExpectedRule (r : Rule)
deriving DecidableEq, Repr

/-- Modelled from the spec: a leaf token of the missing grammar idf30.pest.
A bare token is a maximal run of non-whitespace, non-quote characters; a
quoted token carries its literal contents without the surrounding quotes
(spec section 4.1). -/
inductive RawTok where
  | bare (s : List Char)
  | quoted (s : List Char)
deriving DecidableEq, Repr

/-- Modelled from the spec: intra-line whitespace characters. -/
def isWs (c : Char) : Bool := c = ' ' || c = '\t' || c = '\r'

/-- Modelled from the spec: state of the line tokenizer, either between
tokens, inside a bare token, or inside a quoted token. -/
inductive TokMode where
  | between
  | inBare (acc : List Char)
  | inQuoted (acc : List Char)

/-- Modelled from the spec: tokenize one line into raw tokens.  An
unterminated quoted token is a grammar error. -/
def tokenizeAux : TokMode → List Char → Except Error (List RawTok)
  | .between, [] => .ok []
  | .between, c :: rest =>
    if isWs c then tokenizeAux .between rest
    else if c = '"' then tokenizeAux (.inQuoted []) rest
    else tokenizeAux (.inBare [c]) rest
  | .inBare acc, [] => .ok [.bare acc]
  | .inBare acc, c :: rest =>
    if isWs c then
      match tokenizeAux .between rest with
      | .ok ts => .ok (.bare acc :: ts)
      | .error e => .error e
    else if c = '"' then
      match tokenizeAux (.inQuoted []) rest with
      | .ok ts => .ok (.bare acc :: ts)
      | .error e => .error e
    else tokenizeAux (.inBare (acc ++ [c])) rest
  | .inQuoted _, [] => .error .Pest
  | .inQuoted acc, c :: rest =>
    if c = '"' then
      match tokenizeAux .between rest with
      | .ok ts => .ok (.quoted acc :: ts)
      | .error e => .error e
    else tokenizeAux (.inQuoted (acc ++ [c])) rest

/-- Modelled from the spec: tokenize a full line. -/
def tokenizeLine (l : List Char) : Except Error (List RawTok) :=
  tokenizeAux .between l

/-- Modelled from the spec: split a document into lines at newline characters. -/
def splitLines : List Char → List (List Char)
  | [] => [[]]
  | c :: rest =>
    if c = '\n' then [] :: splitLines rest
    else
      match splitLines rest with
      | [] => [[c]]
      | l :: ls => (c :: l) :: ls

/-- Modelled from the spec: a top-level section of the parse tree, carrying
the section name (without the leading dot), the header arguments and the
record token lines.  The terminator END_NAME is consumed by the grammar and
is not part of the records (spec section 4.1 and 4.3). -/
structure RawSection where
  name : List Char
  args : List RawTok
  records : List (List RawTok)
deriving DecidableEq, Repr

/-- Modelled from the spec: group token lines into sections.  A line whose
first token is a bare token starting with a dot opens a section or, when the
name is END_ followed by the current section name, closes it; every other
nonempty line inside a section is a record; lines without tokens are
skipped; records outside a section, stray terminators, mismatched
terminators and a missing final terminator are grammar errors. -/
def sectionizeAux (cur : Option (List Char × List RawTok × List (List RawTok)))
    (acc : List RawSection) : List (List RawTok) → Except Error (List RawSection)
  | [] =>
    match cur with
    | none => .ok acc
    | some _ => .error .Pest
  | line :: rest =>
    match line with
    | [] => sectionizeAux cur acc rest
    | .bare ('.' :: nm) :: lineArgs =>
      match cur with
      | none =>
        if ("END_".toList).isPrefixOf nm then .error .Pest
        else sectionizeAux (some (nm, lineArgs, [])) acc rest
      | some (name, args, recs) =>
        if nm = "END_".toList ++ name then
          sectionizeAux none (acc ++ [⟨name, args, recs⟩]) rest
        else .error .Pest
    | _ :: _ =>
      match cur with
      | none => .error .Pest
      | some (name, args, recs) =>
        sectionizeAux (some (name, args, recs ++ [line])) acc rest

/-- Modelled from the spec: the full grammar pass, from document text to the
list of sections handed to the decoders in src/idf30.rs. -/
def docSections (text : List Char) : Except Error (List RawSection) := do
  let tls ← (splitLines text).mapM tokenizeLine
  sectionizeAux none [] tls

/-! ### Numeric tokens

Integer and float token recognition is modelled from spec sections 4.1 and
6 (the grammar file is absent): INTEGER is an optional sign followed by
digits, FLOAT is an optional sign, digits, a dot, digits and an optional
exponent.  The numeric conversions mirror the Rust standard library
conversions used by src/idf30.rs: u32 and i64 string parsing with range
checks, and float parsing modelled over exact rationals. -/

/-- Decimal digit test on characters. -/
def isDigitCh (c : Char) : Bool := 48 ≤ c.toNat && c.toNat ≤ 57

/-- Numeric value of a decimal digit character. -/
def digitVal (c : Char) : Nat := c.toNat - 48

/-- Character of a decimal digit value. -/
def digitChar (d : Nat) : Char := Char.ofNat (48 + d)

/-- Accumulating decimal reader used by the numeric conversions. -/
def parseNatAcc (acc : Nat) : List Char → Nat
  | [] => acc
  | c :: rest => parseNatAcc (10 * acc + digitVal c) rest

/-- Value of a run of decimal digit characters. -/
def parseNatDigits (s : List Char) : Nat := parseNatAcc 0 s

/-- Fueled decimal rendering of a natural number, most significant digit
first.  The fuel argument only serves structural termination. -/
def renderNatAux : Nat → Nat → List Char
  | 0, _ => []
  | fuel + 1, n =>
    if n < 10 then [digitChar n]
    else renderNatAux fuel (n / 10) ++ [digitChar (n % 10)]

/-- Decimal rendering of a natural number, as produced by the Rust Display
formatting of unsigned integers. -/
def renderNat (n : Nat) : List Char := renderNatAux (n + 1) n

/-- Decimal rendering of a signed integer, as produced by the Rust Display
formatting of signed integers. -/
def renderInt (n : Int) : List Char :=
  if n < 0 then '-' :: renderNat n.natAbs else renderNat n.natAbs

/-- Strip one optional leading plus sign. -/
def stripPlus (s : List Char) : List Char :=
  match s with
  | [] => []
  | c :: r => if c = '+' then r else c :: r

/-- Sign carried by one optional leading sign character, as 1 or -1. -/
def signOf (s : List Char) : Int :=
  match s with
  | [] => 1
  | c :: _ => if c = '+' then 1 else if c = '-' then -1 else 1

/-- Remainder of a numeric token after one optional leading sign. -/
def stripSign (s : List Char) : List Char :=
  match s with
  | [] => []
  | c :: r => if c = '+' then r else if c = '-' then r else c :: r

/-- Model of Rust u32 string conversion (FromStr): an optional plus sign,
then decimal digits, value below 2 to the 32.  A minus sign is rejected. -/
def parseU32Opt (s : List Char) : Option Nat :=
  if stripPlus s ≠ [] ∧ (stripPlus s).all isDigitCh then
    if parseNatDigits (stripPlus s) < 2 ^ 32 then some (parseNatDigits (stripPlus s)) else none
  else none

/-- Model of Rust i64 string conversion (FromStr): an optional sign, then
decimal digits, value within the signed 64 bit range. -/
def parseI64Opt (s : List Char) : Option Int :=
  if stripSign s ≠ [] ∧ (stripSign s).all isDigitCh then
    if -(2 ^ 63) ≤ signOf s * parseNatDigits (stripSign s) ∧
        signOf s * parseNatDigits (stripSign s) < 2 ^ 63 then
      some (signOf s * parseNatDigits (stripSign s))
    else none
  else none

/-- Modelled from the spec: recognition of INTEGER tokens, an optional sign
followed by at least one digit. -/
def isIntegerTok (s : List Char) : Bool :=
  stripSign s ≠ [] && (stripSign s).all isDigitCh

/-- Exponent part of a FLOAT token: an optional sign and at least one digit. -/
def parseExpOpt (s : List Char) : Option Int :=
  if stripSign s ≠ [] ∧ (stripSign s).all isDigitCh then
    some (signOf s * parseNatDigits (stripSign s))
  else none

/-- Modelled from the spec: FLOAT tokens are an optional sign, digits, a
dot, digits and an optional exponent; the value is the exact rational the
literal denotes (machine float rounding is not modelled). -/
def parseFloatOpt (s : List Char) : Option ℚ :=
  let sgn : ℚ := (signOf s : ℚ)
  let t := stripSign s
  let ip := t.takeWhile isDigitCh
  let t2 := t.dropWhile isDigitCh
  if ip = [] then none
  else
    match t2 with
    | '.' :: t3 =>
      let fp := t3.takeWhile isDigitCh
      let t4 := t3.dropWhile isDigitCh
      if fp = [] then none
      else
        let base : ℚ := (parseNatDigits ip : ℚ) + (parseNatDigits fp : ℚ) / (10 : ℚ) ^ fp.length
        match t4 with
        | [] => some (sgn * base)
        | 'e' :: t5 => (parseExpOpt t5).map fun e => sgn * base * (10 : ℚ) ^ e
        | 'E' :: t5 => (parseExpOpt t5).map fun e => sgn * base * (10 : ℚ) ^ e
        | _ => none
    | _ => none

/-- Modelled from the spec: recognition of FLOAT tokens. -/
def isFloatTok (s : List Char) : Bool := (parseFloatOpt s).isSome

/-- Left pad a digit run with zeros to the requested width. -/
def padLeftZeros (p : Nat) (s : List Char) : List Char :=
  List.replicate (p - s.length) '0' ++ s

/-- Model of the Rust fixed precision float formatting (for example the
format specifier with precision 4): the value is rounded to p decimal
digits and rendered with a sign, an integer part and exactly p fractional
digits. -/
def fmtFixed (p : Nat) (q : ℚ) : List Char :=
  let n : Int := round (q * (10 : ℚ) ^ p)
  let m := n.natAbs
  (if n < 0 then ['-'] else []) ++
    renderNat (m / 10 ^ p) ++ '.' :: padLeftZeros p (renderNat (m % 10 ^ p))

/-! ### Data model

Translation of the owned document representation of src/idf30.rs.  The
borrowed or owned string duality (Either of a str slice and a String) is
collapsed to plain character lists, which the spec notes is an ownership
mode detail with no observable effect. -/

/-- Translation of enum Unit, src/idf30.rs lines 96 to 100. -/
inductive Unit where
  | SImm
  | Mils
deriving DecidableEq, Repr

/-- Translation of enum IdfValue, src/idf30.rs lines 272 to 277.  Integer
carries an i64 value, Float an f64 value modelled as an exact rational. -/
inductive IdfValue where
  | Integer (x : Int)
  | Float (x : ℚ)
  | String (s : List Char)
deriving DecidableEq, Repr

/-- Translation of struct IdfSection, src/idf30.rs lines 111 to 118. -/
structure IdfSection where
  name : List Char
  args : List (List Char)
  records : List (List IdfValue)
deriving DecidableEq, Repr

/-- Translation of enum ReferenceDesignator, src/idf30.rs lines 208 to 213. -/
inductive ReferenceDesignator where
  | Any (d : List Char)
  | NoRefDes
  | Board
deriving DecidableEq, Repr

/-- Translation of enum BoardSide, src/idf30.rs lines 238 to 242. -/
inductive BoardSide where
  | Top
  | Bottom
deriving DecidableEq, Repr

/-- Translation of enum PlacementStatus, src/idf30.rs lines 253 to 259. -/
inductive PlacementStatus where
  | Placed
  | Unplaced
  | MCad
  | ECad
deriving DecidableEq, Repr

/-- Translation of struct ComponentPlacement, src/idf30.rs lines 135 to 146.
The f32 fields are modelled as exact rationals. -/
structure ComponentPlacement where
  package_name : List Char
  part_number : List Char
  designator : ReferenceDesignator
  x : ℚ
  y : ℚ
  z : ℚ
  rotation : ℚ
  board_side : BoardSide
  placement_status : PlacementStatus
deriving DecidableEq, Repr

/-- Translation of enum LoopLabel, src/idf30.rs lines 202 to 206. -/
inductive LoopLabel where
  | Clockwise
  | CounterClockwise
deriving DecidableEq, Repr

/-- Translation of struct Point, src/idf30.rs lines 194 to 200. -/
structure Point where
  label : LoopLabel
  x : ℚ
  y : ℚ
  angle : ℚ
deriving DecidableEq, Repr

/-- Translation of struct ComponentDefinition, src/idf30.rs lines 166 to 173. -/
structure ComponentDefinition where
  geometry_name : List Char
  part_number : List Char
  units : Unit
  height : ℚ
  points : List Point
deriving DecidableEq, Repr

/-- Translation of enum FileType, src/idf30.rs lines 71 to 84. -/
inductive FileType where
  | BoardFile (board_name : List Char) (units : Unit)
  | PanelFile (board_name : List Char) (units : Unit)
  | LibraryFile (components : List ComponentDefinition)
deriving DecidableEq, Repr

/-- Translation of struct Header, src/idf30.rs lines 46 to 52.  The
board_file_version field is a u32; its range is tracked where needed. -/
structure Header where
  ty : FileType
  source : List Char
  date : List Char
  board_file_version : Nat
deriving DecidableEq, Repr

/-- Translation of struct Idf30, src/idf30.rs lines 39 to 44. -/
structure Idf30 where
  header : Header
  placement : List ComponentPlacement
  other_sections : List IdfSection
deriving DecidableEq, Repr

/-- Translation of ReferenceDesignator::is_test_point, src/idf30.rs lines
225 to 236: a designator is a test point exactly when it is the Any variant
and its string starts with TP. -/
def ReferenceDesignator.is_test_point : ReferenceDesignator → Bool
  | .Any d => ("TP".toList).isPrefixOf d
  | .NoRefDes => false
  | .Board => false

/-! ### Token consumption

Models of the next_str, next_int and next_float macros of src/idf30.rs
lines 317 to 350.  next_str accepts string, string_num_allowed and quoted
string rules and strips the quotes of a quoted token; the grammar is
modelled so that positions read through next_str always carry such rules.
next_int and next_float require the integer and float token shapes and
report the grammar rule of a mismatched token. -/

/-- Model of next_str on one token: the string contents, quotes stripped
for a quoted token (pair.into_inner on Rule quoted_string). -/
def strOf : RawTok → List Char
  | .bare s => s
  | .quoted s => s

/-- Text of a token as returned by as_str on its pair: a quoted token keeps
its surrounding quotes. -/
def rawText : RawTok → List Char
  | .bare s => s
  | .quoted s => '"' :: s ++ ['"']

/-- Model of the next_str macro, src/idf30.rs lines 317 to 328. -/
def nextStr : List RawTok → Except Error (List Char × List RawTok)
  | [] => .error .GrammarExpectedPair
  | t :: r => .ok (strOf t, r)

/-- Model of the next_int macro, src/idf30.rs lines 330 to 339, at u32
target type: a token not shaped as an INTEGER is a grammar rule mismatch,
and an INTEGER that u32 conversion rejects (a minus sign or overflow) is a
ParseInt error. -/
def nextInt : List RawTok → Except Error (Nat × List RawTok)
  | [] => .error .GrammarExpectedPair
  | .bare s :: r =>
    if isIntegerTok s then
      match parseU32Opt s with
      | some n => .ok (n, r)
      | none => .error .ParseInt
    else .error (.GrammarExpectedRule (if isFloatTok s then .float else .string))
  | .quoted _ :: _ => .error (.GrammarExpectedRule .quoted_string)

/-- Model of the next_float macro, src/idf30.rs lines 341 to 350: a token
not shaped as a FLOAT is a grammar rule mismatch; a FLOAT token converts
exactly (Rust float conversion of a grammatical float literal never fails). -/
def nextFloat : List RawTok → Except Error (ℚ × List RawTok)
  | [] => .error .GrammarExpectedPair
  | .bare s :: r =>
    match parseFloatOpt s with
    | some q => .ok (q, r)
    | none => .error (.GrammarExpectedRule (if isIntegerTok s then .integer else .string))
  | .quoted _ :: _ => .error (.GrammarExpectedRule .quoted_string)

/-! ### Decoders -/

/-- Translation of the unit token match duplicated in parse_header (lines
509 to 515) and parse_component_definition (lines 547 to 553): MM and THOU
are the only accepted unit tokens, anything else is WrongUnit. -/
def parseUnit (s : List Char) : Except Error Unit :=
  if s = "MM".toList then .ok .SImm
  else if s = "THOU".toList then .ok .Mils
  else .error .WrongUnit

/-- Translation of the designator match in parse_component_placement,
src/idf30.rs lines 455 to 459. -/
def parseDesignator (d : List Char) : ReferenceDesignator :=
  if d = "NOREFDES".toList then .NoRefDes
  else if d = "BOARD".toList then .Board
  else .Any d

/-- Translation of the tail of parse_header, src/idf30.rs lines 525 to 537:
after the file type token (and for board and panel files the second header
record), read the version token, the source, the date and the u32 board
file version from the remaining record 0 tokens. -/
def finishHeader (ty : FileType) (r0 : List RawTok) : Except Error Header := do
  let (verTok, r0) ← nextStr r0
  if verTok = "3.0".toList then do
    let (source, r0) ← nextStr r0
    let (date, r0) ← nextStr r0
    let (bfvTok, _) ← nextStr r0
    match parseU32Opt bfvTok with
    | some v => .ok { ty := ty, source := source, date := date, board_file_version := v }
    | none => .error .ParseInt
  else .error .UnsupportedVersion

/-- Translation of parse_header, src/idf30.rs lines 499 to 538.  The first
section must be named HEADER, else MissingHeader.  Record 0 starts with the
file type token; BOARD_FILE and PANEL_FILE read a second record with the
board name and the unit token (WrongUnit on a bad unit), LIBRARY_FILE reads
no second record, anything else is WrongFileType.  Only then is the version
token checked. -/
def parse_header (sec : RawSection) : Except Error Header :=
  if sec.name = "HEADER".toList then
    match sec.records with
    | [] => .error .GrammarExpectedPair
    | r0 :: rrecs => do
      let (tyTok, r0) ← nextStr r0
      if tyTok = "BOARD_FILE".toList ∨ tyTok = "PANEL_FILE".toList then
        match rrecs with
        | [] => .error .GrammarExpectedPair
        | r1 :: _ => do
          let (board_name, r1) ← nextStr r1
          let (unitTok, _) ← nextStr r1
          let units ← parseUnit unitTok
          let ty := if tyTok = "BOARD_FILE".toList then FileType.BoardFile board_name units
            else FileType.PanelFile board_name units
          finishHeader ty r0
      else if tyTok = "LIBRARY_FILE".toList then finishHeader (.LibraryFile []) r0
      else .error .WrongFileType
  else .error .MissingHeader

/-- Model of the ok_or step in parse_component_placement, src/idf30.rs
lines 460 to 463: the absence of record B is MalformedPlacementSection. -/
def requireRecB (recB? : Option (List RawTok)) : Except Error (List RawTok) :=
  match recB? with
  | none => .error Error.MalformedPlacementSection
  | some rB => .ok rB

/-- Translation of parse_component_placement, src/idf30.rs lines 448 to
497.  Record A yields the package name, part number and designator; the
absence of record B is MalformedPlacementSection; record B yields the four
floats, the board side (Malformed on a side token outside TOP and BOTTOM)
and the placement status (Malformed on a status token outside the four
literals). -/
def parse_component_placement (recA : List RawTok) (recB? : Option (List RawTok)) :
    Except Error ComponentPlacement := do
  let (package_name, rA) ← nextStr recA
  let (part_number, rA) ← nextStr rA
  let (desTok, _) ← nextStr rA
  let designator := parseDesignator desTok
  let recB ← requireRecB recB?
  let (x, rB) ← nextFloat recB
  let (y, rB) ← nextFloat rB
  let (z, rB) ← nextFloat rB
  let (rotation, rB) ← nextFloat rB
  let (sideTok, rB) ← nextStr rB
  let board_side ← if sideTok = "TOP".toList then .ok BoardSide.Top
    else if sideTok = "BOTTOM".toList then .ok BoardSide.Bottom
    else .error (Error.Malformed "Expected TOP or BOTTOM for side of board")
  let (statusTok, _) ← nextStr rB
  let placement_status ← if statusTok = "PLACED".toList then .ok PlacementStatus.Placed
    else if statusTok = "UNPLACED".toList then .ok PlacementStatus.Unplaced
    else if statusTok = "MCAD".toList then .ok PlacementStatus.MCad
    else if statusTok = "ECAD".toList then .ok PlacementStatus.ECad
    else .error (Error.Malformed "Wrong placement status")
  .ok { package_name := package_name, part_number := part_number, designator := designator,
        x := x, y := y, z := z, rotation := rotation,
        board_side := board_side, placement_status := placement_status }

/-- Translation of the PLACEMENT branch of Idf30::parse, src/idf30.rs lines
367 to 375: records are consumed in pairs by parse_component_placement. -/
def parsePlacementRecords : List (List RawTok) → Except Error (List ComponentPlacement)
  | [] => .ok []
  | [recA] => do
    let _ ← parse_component_placement recA none
    .ok []
  | recA :: recB :: rest => do
    let cp ← parse_component_placement recA (some recB)
    let cps ← parsePlacementRecords rest
    .ok (cp :: cps)

/-- Translation of the outline record loop of parse_component_definition,
src/idf30.rs lines 555 to 577: a record whose first token reads PROP is
skipped; otherwise the u32 loop label (0 is counter clockwise, anything
else clockwise) and the three floats form a point. -/
def parsePoints : List (List RawTok) → Except Error (List Point)
  | [] => .ok []
  | rec :: rest =>
    if (match rec.head? with
        | some t => decide (rawText t = "PROP".toList)
        | none => false) then
      parsePoints rest
    else do
      let (labelN, r) ← nextInt rec
      let label := if labelN = 0 then LoopLabel.CounterClockwise else LoopLabel.Clockwise
      let (x, r) ← nextFloat r
      let (y, r) ← nextFloat r
      let (angle, _) ← nextFloat r
      let pts ← parsePoints rest
      .ok ({ label := label, x := x, y := y, angle := angle } :: pts)

/-- Translation of parse_component_definition, src/idf30.rs lines 540 to
585: the first record yields the geometry name, part number, unit token
(WrongUnit outside MM and THOU) and height; the remaining records yield the
outline points. -/
def parse_component_definition (records : List (List RawTok)) :
    Except Error ComponentDefinition :=
  match records with
  | [] => .error .GrammarExpectedPair
  | r2 :: rest => do
    let (geometry_name, r2) ← nextStr r2
    let (part_number, r2) ← nextStr r2
    let (unitTok, r2) ← nextStr r2
    let units ← parseUnit unitTok
    let (height, _) ← nextFloat r2
    let points ← parsePoints rest
    .ok { geometry_name := geometry_name, part_number := part_number, units := units,
          height := height, points := points }

/-- Translation of the generic value classification in Idf30::parse,
src/idf30.rs lines 390 to 399: integers and floats by their grammar shape
(with the native conversion errors), quoted tokens stored verbatim with
their quotes, everything else a bare string. -/
def classifyValue (t : RawTok) : Except Error IdfValue :=
  match t with
  | .bare s =>
    if isIntegerTok s then
      match parseI64Opt s with
      | some n => .ok (.Integer n)
      | none => .error .ParseInt
    else if isFloatTok s then
      match parseFloatOpt s with
      | some q => .ok (.Float q)
      | none => .error .ParseFloat
    else .ok (.String s)
  | .quoted s => .ok (.String ('"' :: s ++ ['"']))

/-- Translation of the section loop of Idf30::parse, src/idf30.rs lines 360
to 409: PLACEMENT sections accumulate placements, ELECTRICAL sections
accumulate component definitions, every other section is captured
generically with its raw argument texts and classified record values. -/
def dispatch : List RawSection →
    Except Error (List ComponentPlacement × List ComponentDefinition × List IdfSection)
  | [] => .ok ([], [], [])
  | sec :: rest =>
    if sec.name = "PLACEMENT".toList then do
      let ps ← parsePlacementRecords sec.records
      let (ps2, cds, oss) ← dispatch rest
      .ok (ps ++ ps2, cds, oss)
    else if sec.name = "ELECTRICAL".toList then do
      let cd ← parse_component_definition sec.records
      let (ps, cds, oss) ← dispatch rest
      .ok (ps, cd :: cds, oss)
    else do
      let recs ← sec.records.mapM fun r => r.mapM classifyValue
      let (ps, cds, oss) ← dispatch rest
      .ok (ps, cds,
        { name := sec.name, args := sec.args.map rawText, records := recs } :: oss)

/-- Translation of the body of Idf30::parse after the grammar pass,
src/idf30.rs lines 356 to 421: the first section is decoded as the header,
the remaining sections are dispatched, and for a library file the
accumulated component definitions replace the component list of the file
type. -/
def decodeSections : List RawSection → Except Error Idf30
  | [] => .error .GrammarExpectedPair
  | hs :: rest => do
    let header ← parse_header hs
    let (ps, cds, oss) ← dispatch rest
    let header := match header.ty with
      | .LibraryFile _ => { header with ty := .LibraryFile cds }
      | _ => header
    .ok { header := header, placement := ps, other_sections := oss }

/-- Translation of Idf30::parse, src/idf30.rs lines 352 to 422, composed
with the modelled grammar pass. -/
def Idf30.parse (text : List Char) : Except Error Idf30 := do
  let secs ← docSections text
  decodeSections secs

/-! ### Encoder

Translation of the Display implementations and to_string functions of
src/idf30.rs. -/

/-- Translation of escape_string, src/idf30.rs lines 289 to 306: an empty
string renders as a literal pair of double quotes, every other string
renders unchanged. -/
def escape_string (s : List Char) : List Char :=
  if s = [] then "\"\"".toList else s

/-- Translation of the Display instance of Unit, src/idf30.rs lines 102 to
109. -/
def Unit.render : Unit → List Char
  | .SImm => "MM".toList
  | .Mils => "THOU".toList

/-- Translation of the Display instance of BoardSide, src/idf30.rs lines
244 to 251. -/
def BoardSide.render : BoardSide → List Char
  | .Top => "TOP".toList
  | .Bottom => "BOTTOM".toList

/-- Translation of the Display instance of PlacementStatus, src/idf30.rs
lines 261 to 270. -/
def PlacementStatus.render : PlacementStatus → List Char
  | .Placed => "PLACED".toList
  | .Unplaced => "UNPLACED".toList
  | .MCad => "MCAD".toList
  | .ECad => "ECAD".toList

/-- Translation of the Display instance of ReferenceDesignator,
src/idf30.rs lines 215 to 223: the Any string renders unchanged, without
escape_string. -/
def ReferenceDesignator.render : ReferenceDesignator → List Char
  | .Any d => d
  | .NoRefDes => "NOREFDES".toList
  | .Board => "BOARD".toList

/-- Translation of the Display instance of FileType, src/idf30.rs lines 86
to 94. -/
def FileType.lit : FileType → List Char
  | .BoardFile _ _ => "BOARD_FILE".toList
  | .PanelFile _ _ => "PANEL_FILE".toList
  | .LibraryFile _ => "LIBRARY_FILE".toList

/-- Translation of the Display instance of IdfValue, src/idf30.rs lines 279
to 287: integers in plain decimal, floats with four decimal digits, strings
through escape_string. -/
def IdfValue.render : IdfValue → List Char
  | .Integer n => renderInt n
  | .Float q => fmtFixed 4 q
  | .String s => escape_string s

/-- Translation of the Display instance of Header, src/idf30.rs lines 54 to
69: the header section with record 0 and, for board and panel files only, a
second record with the board name and unit. -/
def Header.render (h : Header) : List Char :=
  let record1 : List Char := match h.ty with
    | .BoardFile bn u => bn ++ ' ' :: u.render ++ ['\n']
    | .PanelFile bn u => bn ++ ' ' :: u.render ++ ['\n']
    | .LibraryFile _ => []
  ".HEADER\n".toList ++ h.ty.lit ++ " 3.0 ".toList ++ h.source ++ ' ' :: h.date ++
    ' ' :: renderNat h.board_file_version ++ '\n' :: record1 ++ ".END_HEADER\n".toList

/-- Translation of the Display instance of IdfSection, src/idf30.rs lines
120 to 133: the section header with its raw arguments, each record indented
and each value preceded by a space, and the end marker. -/
def IdfSection.render (s : IdfSection) : List Char :=
  '.' :: s.name ++ (s.args.map fun a => ' ' :: a).flatten ++ '\n' ::
    (s.records.map fun r => ' ' :: (r.map fun v => ' ' :: v.render).flatten ++ ['\n']).flatten ++
    '.' :: "END_".toList ++ s.name ++ ['\n']

/-- Translation of the Display instance of ComponentPlacement, src/idf30.rs
lines 148 to 164: record A with escaped package and part names and the
designator, then record B indented with x, y and z at four decimal digits,
the rotation at three, the board side and the placement status. -/
def ComponentPlacement.render (cp : ComponentPlacement) : List Char :=
  escape_string cp.package_name ++ ' ' :: escape_string cp.part_number ++
    ' ' :: cp.designator.render ++ '\n' :: ' ' :: ' ' ::
    fmtFixed 4 cp.x ++ ' ' :: fmtFixed 4 cp.y ++ ' ' :: fmtFixed 4 cp.z ++
    ' ' :: fmtFixed 3 cp.rotation ++ ' ' :: cp.board_side.render ++
    ' ' :: cp.placement_status.render ++ ['\n']

/-- Translation of the point line of ComponentDefinition::to_string,
src/idf30.rs lines 181 to 188: the loop label as 0 or 1 and the three
coordinates at four decimal digits. -/
def Point.render (p : Point) : List Char :=
  (if p.label = LoopLabel.CounterClockwise then '0' else '1') ::
    ' ' :: fmtFixed 4 p.x ++ ' ' :: fmtFixed 4 p.y ++ ' ' :: fmtFixed 4 p.angle ++ ['\n']

/-- Translation of ComponentDefinition::to_string, src/idf30.rs lines 175
to 192. -/
def ComponentDefinition.to_string (cd : ComponentDefinition) : List Char :=
  ".ELECTRICAL\n".toList ++ cd.geometry_name ++ ' ' :: cd.part_number ++
    ' ' :: cd.units.render ++ ' ' :: fmtFixed 4 cd.height ++ '\n' ::
    (cd.points.map Point.render).flatten ++ ".END_ELECTRICAL\n".toList

/-- Translation of Idf30::to_string, src/idf30.rs lines 424 to 445: the
header, the generic sections, then one PLACEMENT block for a board file,
nothing for a panel file, and the ELECTRICAL blocks for a library file. -/
def Idf30.to_string (m : Idf30) : List Char :=
  m.header.render ++ (m.other_sections.map IdfSection.render).flatten ++
    (match m.header.ty with
     | .BoardFile _ _ =>
       ".PLACEMENT\n".toList ++ (m.placement.map ComponentPlacement.render).flatten ++
         ".END_PLACEMENT\n".toList
     | .PanelFile _ _ => []
     | .LibraryFile comps => (comps.map ComponentDefinition.to_string).flatten)

/-! ### Auxiliary definitions for the statements and proofs

These definitions do not translate source code; they name derived notions
used by the theorems: the number of digits after the final dot of a
rendered number, well-formedness predicates describing decoded documents
whose fields re-tokenize unambiguously, and the token image of the encoder
output. -/

/-- A rational value is exactly representable with p decimal digits. -/
def exactFix (p : Nat) (q : ℚ) : Prop := (q * (10 : ℚ) ^ p).den = 1

/-- Number of characters after the last dot of a rendered token. -/
def decimalsOf (s : List Char) : Nat :=
  (s.reverse.takeWhile fun c => !(c = '.')).length

/-- A character that survives inside a bare token on one line. -/
def goodChar (c : Char) : Bool := !isWs c && !(c = '"') && !(c = '\n')

/-- A nonempty string of bare token characters. -/
def goodBare (s : List Char) : Bool := !s.isEmpty && s.all goodChar

/-- Contents that survive inside a quoted token on one line. -/
def goodQuoted (t : List Char) : Bool := t.all fun c => !(c = '"') && !(c = '\n')

/-- The raw token the encoder output re-tokenizes to for an escaped string
field: empty strings render as an empty quoted token, anything else as a
bare token. -/
def fieldTok (s : List Char) : RawTok := if s = [] then .quoted [] else .bare s

/-- The raw token a stored raw text re-tokenizes to: a stored quoted text
gives back the quoted token, anything else a bare token. -/
def strTok (s : List Char) : RawTok :=
  match s with
  | '"' :: r => .quoted r.dropLast
  | s => .bare s

/-- The raw token of a rendered designator. -/
def desTok : ReferenceDesignator → RawTok
  | .Any d => .bare d
  | .NoRefDes => .bare ("NOREFDES".toList)
  | .Board => .bare ("BOARD".toList)

/-- The raw token of a rendered generic value. -/
def valueTok : IdfValue → RawTok
  | .Integer n => .bare (renderInt n)
  | .Float q => .bare (fmtFixed 4 q)
  | .String s => strTok (escape_string s)

/-- The two token lines of one rendered placement. -/
def cpLines (cp : ComponentPlacement) : List (List RawTok) :=
  [[fieldTok cp.package_name, fieldTok cp.part_number, desTok cp.designator],
   [.bare (fmtFixed 4 cp.x), .bare (fmtFixed 4 cp.y), .bare (fmtFixed 4 cp.z),
    .bare (fmtFixed 3 cp.rotation), .bare cp.board_side.render,
    .bare cp.placement_status.render]]

/-- The section a rendered generic section re-tokenizes to. -/
def secRawOf (s : IdfSection) : RawSection :=
  { name := s.name, args := s.args.map strTok,
    records := s.records.map fun r => r.map valueTok }

/-- The section the rendered header of a board file re-tokenizes to. -/
def hdrRawBoard (h : Header) (bn : List Char) (u : Unit) : RawSection :=
  { name := "HEADER".toList, args := [],
    records := [[.bare ("BOARD_FILE".toList), .bare ("3.0".toList), .bare h.source,
      .bare h.date, .bare (renderNat h.board_file_version)], [.bare bn, .bare u.render]] }

/-- The section list the rendering of a board file document re-tokenizes to. -/
def boardDocRaw (m : Idf30) (bn : List Char) (u : Unit) : List RawSection :=
  hdrRawBoard m.header bn u :: m.other_sections.map secRawOf ++
    [⟨"PLACEMENT".toList, [], (m.placement.map cpLines).flatten⟩]

/-- Join lines with one newline after each line. -/
def unlines (ls : List (List Char)) : List Char := (ls.map fun l => l ++ ['\n']).flatten

/-- Render a token list separated by single spaces. -/
def sepToks : List RawTok → List Char
  | [] => []
  | [t] => rawText t
  | t :: ts => rawText t ++ ' ' :: sepToks ts

/-- Well-formedness of a string stored as a generic String value: either a
bare token text that re-classifies as a string, or a stored quoted text. -/
def GoodValueStr (s : List Char) : Prop :=
  (goodBare s = true ∧ isIntegerTok s = false ∧ isFloatTok s = false) ∨
    ∃ t, s = '"' :: t ++ ['"'] ∧ goodQuoted t = true

/-- Well-formedness of a generic value for the round trip: integers in the
i64 range, floats exactly representable at four digits, strings per
GoodValueStr. -/
def GoodValue : IdfValue → Prop
  | .Integer n => -(2 ^ 63) ≤ n ∧ n < 2 ^ 63
  | .Float q => exactFix 4 q
  | .String s => GoodValueStr s

/-- A value whose rendering cannot open a section header: anything but a
bare string starting with a dot. -/
def notDotLedValue : IdfValue → Prop
  | .String ('.' :: _) => False
  | _ => True

/-- Well-formedness of one generic record: nonempty, good values, and a
first value that does not render dot led. -/
def GoodRecord (r : List IdfValue) : Prop :=
  r ≠ [] ∧ (∀ v ∈ r, GoodValue v) ∧ ∀ v, r.head? = some v → notDotLedValue v

/-- Well-formedness of a stored generic section argument. -/
def GoodArg (a : List Char) : Prop :=
  goodBare a = true ∨ ∃ t, a = '"' :: t ++ ['"'] ∧ goodQuoted t = true

/-- Well-formedness of a generic section for the round trip. -/
def GoodSection (s : IdfSection) : Prop :=
  goodBare s.name = true ∧ ("END_".toList).isPrefixOf s.name = false ∧
    s.name ≠ "PLACEMENT".toList ∧ s.name ≠ "ELECTRICAL".toList ∧
    (∀ a ∈ s.args, GoodArg a) ∧ ∀ r ∈ s.records, GoodRecord r

/-- Well-formedness of a designator for the round trip: a named designator
re-tokenizes as one bare token and is not one of the two reserved words. -/
def GoodDesignator : ReferenceDesignator → Prop
  | .Any d => goodBare d = true ∧ d ≠ "NOREFDES".toList ∧ d ≠ "BOARD".toList
  | .NoRefDes => True
  | .Board => True

/-- Well-formedness of an escaped string field. -/
def GoodStrField (s : List Char) : Prop := s = [] ∨ goodBare s = true

/-- Well-formedness of one placement for the round trip. -/
def GoodPlacement (cp : ComponentPlacement) : Prop :=
  (cp.package_name = [] ∨ (goodBare cp.package_name = true ∧ cp.package_name.head? ≠ some '.')) ∧
    GoodStrField cp.part_number ∧ GoodDesignator cp.designator ∧
    exactFix 4 cp.x ∧ exactFix 4 cp.y ∧ exactFix 4 cp.z ∧ exactFix 3 cp.rotation

/-- Well-formedness of a decoded board file document for the round trip:
the file type is a board file and every stored field re-tokenizes to the
token it was decoded from. -/
def GoodBoardDoc (m : Idf30) : Prop :=
  (∃ bn u, m.header.ty = .BoardFile bn u ∧ goodBare bn = true ∧ bn.head? ≠ some '.') ∧
    goodBare m.header.source = true ∧ goodBare m.header.date = true ∧
    m.header.board_file_version < 2 ^ 32 ∧
    (∀ cp ∈ m.placement, GoodPlacement cp) ∧ ∀ s ∈ m.other_sections, GoodSection s

/-- A raw token carrying a float shaped bare text. -/
def FloatTokP (t : RawTok) : Prop := ∃ s q, t = .bare s ∧ parseFloatOpt s = some q

/-- Shape of a well formed outline record of an ELECTRICAL section: an
integer loop label accepted by the u32 conversion and three float tokens. -/
def OutlineRec (r : List RawTok) : Prop :=
  ∃ ls x y a rest, r = .bare ls :: x :: y :: a :: rest ∧ isIntegerTok ls = true ∧
    (∃ n, parseU32Opt ls = some n) ∧ FloatTokP x ∧ FloatTokP y ∧ FloatTokP a

/-- Well-formedness of a raw token for re-tokenization: a bare token is a
nonempty run of token characters, a quoted token holds no quote and no
newline. -/
def GoodTok : RawTok → Prop
  | .bare s => goodBare s = true
  | .quoted t => goodQuoted t = true

/-- The token lines a rendered section block re-tokenizes to: the header
line with the dotted name and the arguments, the record lines, and the
terminator line. -/
def secTokLines (sec : RawSection) : List (List RawTok) :=
  (.bare ('.' :: sec.name) :: sec.args) :: sec.records ++
    [[.bare ('.' :: ("END_".toList ++ sec.name))]]

/-- A token line the sectionizer stores as a record: nonempty, with a first
token that can neither open nor close a section. -/
def RecLine : List RawTok → Prop
  | [] => False
  | .bare ('.' :: _) :: _ => False
  | _ => True

/-- Character list of a string literal, for concrete statements. -/
def cs (s : String) : List Char := s.toList

/-- The character lines of a rendered generic section. -/
def secCharLines (s : IdfSection) : List (List Char) :=
  sepToks (.bare ('.' :: s.name) :: s.args.map strTok) ::
    (s.records.map fun r => ' ' :: ' ' :: sepToks (r.map valueTok)) ++
    [sepToks [.bare ('.' :: ("END_".toList ++ s.name))]]

/-- The character lines of a rendered placement. -/
def cpCharLines (cp : ComponentPlacement) : List (List Char) :=
  [sepToks [fieldTok cp.package_name, fieldTok cp.part_number, desTok cp.designator],
   ' ' :: ' ' :: sepToks [.bare (fmtFixed 4 cp.x), .bare (fmtFixed 4 cp.y),
     .bare (fmtFixed 4 cp.z), .bare (fmtFixed 3 cp.rotation),
     .bare cp.board_side.render, .bare cp.placement_status.render]]

/-- The character lines of the rendered header of a board file. -/
def hdrCharLines (h : Header) (bn : List Char) (u : Unit) : List (List Char) :=
  [cs ".HEADER",
   sepToks [.bare ("BOARD_FILE".toList), .bare ("3.0".toList), .bare h.source,
     .bare h.date, .bare (renderNat h.board_file_version)],
   sepToks [.bare bn, .bare u.render],
   cs ".END_HEADER"]

/-- The character lines of a rendered board file document. -/
def docCharLines (m : Idf30) (bn : List Char) (u : Unit) : List (List Char) :=
  hdrCharLines m.header bn u ++ (m.other_sections.map secCharLines).flatten ++
    cs ".PLACEMENT" :: (m.placement.map cpCharLines).flatten ++ [cs ".END_PLACEMENT"]

/-- A concrete board file document exercising the header, a generic section
and a placement, for the round trip witness. -/
def c1doc : List Char :=
  cs ".HEADER\nBOARD_FILE 3.0 src d 1\nbn MM\n.END_HEADER\n.NOTES a\n  1 1.5000 x\n.END_NOTES\n.PLACEMENT\npkg part C1\n  1.5000 2.0000 0.0000 90.000 TOP PLACED\n.END_PLACEMENT\n"

/-- The decoded model of c1doc. -/
def c1model : Idf30 :=
  { header := { ty := .BoardFile (cs "bn") .SImm, source := cs "src", date := cs "d",
                board_file_version := 1 },
    placement := [{ package_name := cs "pkg", part_number := cs "part",
                    designator := .Any (cs "C1"), x := 3 / 2, y := 2, z := 0, rotation := 90,
                    board_side := .Top, placement_status := .Placed }],
    other_sections := [{ name := cs "NOTES", args := [cs "a"],
                         records := [[.Integer 1, .Float (3 / 2), .String (cs "x")]] }] }

/-! ### Lemmas about decimal digit rendering and reading -/

theorem digitChar_isDigit : ∀ d, d < 10 → isDigitCh (digitChar d) = true := by
  with_unfolding_all decide

theorem digitChar_val : ∀ d, d < 10 → digitVal (digitChar d) = d := by
  with_unfolding_all decide

theorem parseNatAcc_nil (a : Nat) : parseNatAcc a [] = a := rfl

theorem parseNatAcc_cons (a : Nat) (c : Char) (l : List Char) :
    parseNatAcc a (c :: l) = parseNatAcc (10 * a + digitVal c) l := rfl

theorem parseNatAcc_append (xs ys : List Char) (a : Nat) :
    parseNatAcc a (xs ++ ys) = parseNatAcc (parseNatAcc a xs) ys := by
  induction xs generalizing a with
  | nil => rfl
  | cons c rest ih => rw [List.cons_append, parseNatAcc_cons, parseNatAcc_cons, ih]

theorem parseNatAcc_eq (s : List Char) (a : Nat) :
    parseNatAcc a s = a * 10 ^ s.length + parseNatDigits s := by
  induction s generalizing a with
  | nil => simp [parseNatAcc_nil, parseNatDigits]
  | cons c rest ih =>
    simp only [parseNatDigits, parseNatAcc_cons, List.length_cons]
    rw [ih, ih (10 * 0 + digitVal c)]
    ring

theorem parseNatDigits_snoc (xs : List Char) (c : Char) :
    parseNatDigits (xs ++ [c]) = 10 * parseNatDigits xs + digitVal c := by
  simp only [parseNatDigits, parseNatAcc_append, parseNatAcc_cons, parseNatAcc_nil]

theorem renderNatAux_succ (f n : Nat) :
    renderNatAux (f + 1) n =
      if n < 10 then [digitChar n] else renderNatAux f (n / 10) ++ [digitChar (n % 10)] := rfl

/-- Adequate fuel renders correctly: digits only, at most f of them, at
least one, and reading the digits back gives the number. -/
theorem renderNatAux_spec : ∀ n, ∀ f, n < 10 ^ f → 1 ≤ f →
    (renderNatAux f n).all isDigitCh = true ∧ (renderNatAux f n).length ≤ f ∧
      renderNatAux f n ≠ [] ∧ parseNatDigits (renderNatAux f n) = n := by
  intro n
  induction n using Nat.strong_induction_on with
  | _ n ih =>
    intro f hf h1
    match f, h1 with
    | f + 1, _ =>
      by_cases hn : n < 10
      · refine ⟨?_, ?_, ?_, ?_⟩ <;>
          simp [renderNatAux_succ, hn, parseNatDigits, parseNatAcc_cons, parseNatAcc_nil,
            digitChar_isDigit n hn, digitChar_val n hn]
      · have h10 : 10 ≤ n := Nat.le_of_not_lt hn
        have hf1 : 1 ≤ f := by
          rcases Nat.eq_zero_or_pos f with h | h
          · subst h; simp at hf; omega
          · exact h
        have hdiv : n / 10 < 10 ^ f := by
          rw [Nat.div_lt_iff_lt_mul (by norm_num)]
          calc n < 10 ^ (f + 1) := hf
          _ = 10 ^ f * 10 := by ring
        have hlt : n / 10 < n := Nat.div_lt_self (by omega) (by norm_num)
        obtain ⟨hd, hl, hne, hp⟩ := ih (n / 10) hlt f hdiv hf1
        have hmod : n % 10 < 10 := Nat.mod_lt _ (by norm_num)
        refine ⟨?_, ?_, ?_, ?_⟩
        · simp [renderNatAux_succ, hn, List.all_append, hd, digitChar_isDigit _ hmod]
        · simp only [renderNatAux_succ, hn, if_false, List.length_append, List.length_singleton]
          omega
        · simp [renderNatAux_succ, hn]
        · simp only [renderNatAux_succ, hn, if_false]
          rw [parseNatDigits_snoc, hp, digitChar_val _ hmod]
          omega

theorem renderNatAux_stable : ∀ n f g, n < 10 ^ f → n < 10 ^ g → 1 ≤ f → 1 ≤ g →
    renderNatAux f n = renderNatAux g n := by
  intro n
  induction n using Nat.strong_induction_on with
  | _ n ih =>
    intro f g hf hg h1f h1g
    match f, g, h1f, h1g with
    | f + 1, g + 1, _, _ =>
      by_cases hn : n < 10
      · simp [renderNatAux_succ, hn]
      · have h10 : 10 ≤ n := Nat.le_of_not_lt hn
        have hf1 : 1 ≤ f := by
          rcases Nat.eq_zero_or_pos f with h | h
          · subst h; simp at hf; omega
          · exact h
        have hg1 : 1 ≤ g := by
          rcases Nat.eq_zero_or_pos g with h | h
          · subst h; simp at hg; omega
          · exact h
        have hdivf : n / 10 < 10 ^ f := by
          rw [Nat.div_lt_iff_lt_mul (by norm_num)]
          calc n < 10 ^ (f + 1) := hf
          _ = 10 ^ f * 10 := by ring
        have hdivg : n / 10 < 10 ^ g := by
          rw [Nat.div_lt_iff_lt_mul (by norm_num)]
          calc n < 10 ^ (g + 1) := hg
          _ = 10 ^ g * 10 := by ring
        have hlt : n / 10 < n := Nat.div_lt_self (by omega) (by norm_num)
        simp only [renderNatAux_succ, hn, if_false]
        rw [ih (n / 10) hlt f g hdivf hdivg hf1 hg1]

theorem lt_ten_pow_succ_self (n : Nat) : n < 10 ^ (n + 1) := by
  calc n < n + 1 := Nat.lt_succ_self n
  _ ≤ 10 ^ n * 1 := by
      rw [Nat.mul_one]
      exact Nat.succ_le_of_lt (Nat.lt_pow_self (by norm_num) n)
  _ ≤ 10 ^ n * 10 := Nat.mul_le_mul_left _ (by norm_num)
  _ = 10 ^ (n + 1) := by ring

theorem renderNat_eq_aux (n f : Nat) (hf : n < 10 ^ f) (h1 : 1 ≤ f) :
    renderNat n = renderNatAux f n :=
  renderNatAux_stable n (n + 1) f (lt_ten_pow_succ_self n) hf (by omega) h1

theorem renderNat_spec (n : Nat) :
    (renderNat n).all isDigitCh = true ∧ renderNat n ≠ [] ∧
      parseNatDigits (renderNat n) = n := by
  obtain ⟨h1, _, h3, h4⟩ := renderNatAux_spec n (n + 1) (lt_ten_pow_succ_self n) (by omega)
  exact ⟨h1, h3, h4⟩

theorem renderNat_length_le (n f : Nat) (hf : n < 10 ^ f) (h1 : 1 ≤ f) :
    (renderNat n).length ≤ f := by
  rw [renderNat_eq_aux n f hf h1]
  exact (renderNatAux_spec n f hf h1).2.1

/-- A digit character differs from any non digit character. -/
theorem digit_ne (c x : Char) (h : isDigitCh c = true) (hx : isDigitCh x = false) : c ≠ x := by
  intro he
  rw [he, hx] at h
  cases h

theorem digit_not_plus (c : Char) (h : isDigitCh c = true) : c ≠ '+' :=
  digit_ne c '+' h (by with_unfolding_all decide)

theorem digit_not_minus (c : Char) (h : isDigitCh c = true) : c ≠ '-' :=
  digit_ne c '-' h (by with_unfolding_all decide)

theorem digit_not_dot (c : Char) (h : isDigitCh c = true) : c ≠ '.' :=
  digit_ne c '.' h (by with_unfolding_all decide)

theorem stripPlus_of_digit (c : Char) (r : List Char) (h : isDigitCh c = true) :
    stripPlus (c :: r) = c :: r := by
  simp [stripPlus, digit_not_plus c h]

theorem stripSign_of_digit (c : Char) (r : List Char) (h : isDigitCh c = true) :
    stripSign (c :: r) = c :: r := by
  simp [stripSign, digit_not_plus c h, digit_not_minus c h]

theorem signOf_of_digit (c : Char) (r : List Char) (h : isDigitCh c = true) :
    signOf (c :: r) = 1 := by
  simp [signOf, digit_not_plus c h, digit_not_minus c h]

theorem stripSign_minus (r : List Char) : stripSign ('-' :: r) = r := by
  simp [stripSign]

theorem signOf_minus (r : List Char) : signOf ('-' :: r) = -1 := by
  simp [signOf]

/-- Reading back the decimal rendering of a u32 value through the Rust u32
conversion gives the value. -/
theorem parseU32Opt_renderNat (n : Nat) (h : n < 2 ^ 32) :
    parseU32Opt (renderNat n) = some n := by
  obtain ⟨hd, hne, hp⟩ := renderNat_spec n
  cases hrn : renderNat n with
  | nil => exact absurd hrn hne
  | cons c r =>
    rw [hrn] at hd hp
    have hc : isDigitCh c = true := by
      have hd2 := hd
      simp only [List.all_cons, Bool.and_eq_true] at hd2
      exact hd2.1
    unfold parseU32Opt
    rw [stripPlus_of_digit c r hc]
    rw [if_pos ⟨List.cons_ne_nil c r, hd⟩, hp, if_pos h]

theorem parseI64Opt_digits (s : List Char) (hd : s.all isDigitCh = true) (hne : s ≠ [])
    (hr : (parseNatDigits s : Int) < 2 ^ 63) :
    parseI64Opt s = some ((parseNatDigits s : Int)) := by
  cases s with
  | nil => exact absurd rfl hne
  | cons c r =>
    have hc : isDigitCh c = true := by
      have hd2 := hd
      simp only [List.all_cons, Bool.and_eq_true] at hd2
      exact hd2.1
    have hnn : (0 : Int) ≤ (parseNatDigits (c :: r) : Int) := Int.natCast_nonneg _
    unfold parseI64Opt
    rw [stripSign_of_digit c r hc, signOf_of_digit c r hc]
    rw [if_pos ⟨List.cons_ne_nil c r, hd⟩, if_pos ⟨by omega, by omega⟩, one_mul]

/-- Reading back the decimal rendering of an in range i64 value through the
Rust i64 conversion gives the value. -/
theorem parseI64Opt_renderInt (z : Int) (hlo : -(2 ^ 63) ≤ z) (hhi : z < 2 ^ 63) :
    parseI64Opt (renderInt z) = some z := by
  obtain ⟨hd, hne, hp⟩ := renderNat_spec z.natAbs
  by_cases hz : z < 0
  · have habs : (z.natAbs : Int) = -z := by omega
    unfold renderInt
    rw [if_pos hz]
    unfold parseI64Opt
    rw [stripSign_minus, signOf_minus]
    rw [if_pos ⟨hne, hd⟩, hp]
    rw [if_pos ⟨by omega, by omega⟩]
    congr 1
    omega
  · unfold renderInt
    rw [if_neg hz]
    have habs : (z.natAbs : Int) = z := by omega
    rw [parseI64Opt_digits (renderNat z.natAbs) hd hne (by rw [hp]; omega), hp]
    rw [habs]

/-! ### Fixed precision formatting round trip -/

theorem takeWhile_all_append (l r : List Char) (p : Char → Bool) (h : l.all p = true) :
    (l ++ r).takeWhile p = l ++ r.takeWhile p := by
  induction l with
  | nil => simp
  | cons c t ih =>
    simp only [List.all_cons, Bool.and_eq_true] at h
    simp [List.takeWhile_cons_of_pos h.1, ih h.2]

theorem dropWhile_all_append (l r : List Char) (p : Char → Bool) (h : l.all p = true) :
    (l ++ r).dropWhile p = r.dropWhile p := by
  induction l with
  | nil => simp
  | cons c t ih =>
    simp only [List.all_cons, Bool.and_eq_true] at h
    simp [List.dropWhile_cons_of_pos h.1, ih h.2]

theorem takeWhile_all (l : List Char) (p : Char → Bool) (h : l.all p = true) :
    l.takeWhile p = l := by
  rw [List.takeWhile_eq_self_iff]
  intro x hx
  exact List.all_eq_true.mp h x hx

theorem dropWhile_all (l : List Char) (p : Char → Bool) (h : l.all p = true) :
    l.dropWhile p = [] := by
  rw [List.dropWhile_eq_nil_iff]
  intro x hx
  exact List.all_eq_true.mp h x hx

theorem isDigitCh_dot : isDigitCh '.' = false := by with_unfolding_all decide

theorem parseNatDigits_padLeftZeros (p : Nat) (s : List Char) :
    parseNatDigits (padLeftZeros p s) = parseNatDigits s := by
  unfold padLeftZeros parseNatDigits
  rw [parseNatAcc_append]
  have hz : ∀ j, parseNatAcc 0 (List.replicate j '0') = 0 := by
    intro j
    induction j with
    | zero => rfl
    | succ j ih =>
      rw [List.replicate_succ, parseNatAcc_cons]
      have h0 : digitVal '0' = 0 := by with_unfolding_all decide
      rw [h0]
      simpa using ih
  rw [hz]

theorem padLeftZeros_all (p : Nat) (s : List Char) (h : s.all isDigitCh = true) :
    (padLeftZeros p s).all isDigitCh = true := by
  unfold padLeftZeros
  rw [List.all_append, h]
  have : (List.replicate (p - s.length) '0').all isDigitCh = true := by
    rw [List.all_eq_true]
    intro x hx
    rw [List.eq_of_mem_replicate hx]
    with_unfolding_all decide
  rw [this]
  rfl

theorem padLeftZeros_length (p : Nat) (s : List Char) (h : s.length ≤ p) :
    (padLeftZeros p s).length = p := by
  unfold padLeftZeros
  rw [List.length_append, List.length_replicate]
  omega

theorem padLeftZeros_ne_nil (p : Nat) (s : List Char) (hs : s ≠ []) :
    padLeftZeros p s ≠ [] := by
  unfold padLeftZeros
  intro h
  rcases List.append_eq_nil.mp h with ⟨_, h2⟩
  exact hs h2

/-- Core of the float reading: a token whose unsigned part is a digit run,
a dot and a digit run reads to the signed decimal value. -/
theorem parseFloatOpt_core (s a b : List Char) (hsplit : stripSign s = a ++ '.' :: b)
    (ha : a.all isDigitCh = true) (hane : a ≠ [])
    (hb : b.all isDigitCh = true) (hbne : b ≠ []) :
    parseFloatOpt s =
      some ((signOf s : ℚ) *
        ((parseNatDigits a : ℚ) + (parseNatDigits b : ℚ) / (10 : ℚ) ^ b.length)) := by
  simp only [parseFloatOpt, hsplit]
  rw [takeWhile_all_append _ _ _ ha, dropWhile_all_append _ _ _ ha]
  rw [List.takeWhile_cons_of_neg (by rw [isDigitCh_dot]; exact Bool.false_ne_true),
    List.dropWhile_cons_of_neg (by rw [isDigitCh_dot]; exact Bool.false_ne_true)]
  rw [List.append_nil]
  rw [if_neg hane]
  simp only [takeWhile_all b _ hb, dropWhile_all b _ hb]
  rw [if_neg hbne]

theorem exactFix_num (p : Nat) (q : ℚ) (h : exactFix p q) :
    (((q * (10 : ℚ) ^ p).num : ℚ)) = q * (10 : ℚ) ^ p := by
  have hd := Rat.num_div_den (q * (10 : ℚ) ^ p)
  rw [h] at hd
  simpa using hd

theorem round_exactFix (p : Nat) (q : ℚ) (h : exactFix p q) :
    round (q * (10 : ℚ) ^ p) = (q * (10 : ℚ) ^ p).num := by
  conv_lhs => rw [← exactFix_num p q h]
  exact round_intCast _

/-- Reading a digit run, dot, padded digit run rendering of a scaled
natural number gives its decimal value. -/
theorem parseFloatOpt_render_pos (m p : Nat) (hp : 1 ≤ p) :
    parseFloatOpt (renderNat (m / 10 ^ p) ++ '.' :: padLeftZeros p (renderNat (m % 10 ^ p))) =
      some ((m : ℚ) / (10 : ℚ) ^ p) := by
  obtain ⟨hip_d, hip_ne, hip_v⟩ := renderNat_spec (m / 10 ^ p)
  obtain ⟨hfr_d, hfr_ne, hfr_v⟩ := renderNat_spec (m % 10 ^ p)
  have hmod_lt : m % 10 ^ p < 10 ^ p := Nat.mod_lt _ (Nat.pos_pow_of_pos p (by norm_num))
  have hfr_len : (renderNat (m % 10 ^ p)).length ≤ p := renderNat_length_le _ p hmod_lt hp
  have hfp_d : (padLeftZeros p (renderNat (m % 10 ^ p))).all isDigitCh = true :=
    padLeftZeros_all _ _ hfr_d
  have hfp_len : (padLeftZeros p (renderNat (m % 10 ^ p))).length = p :=
    padLeftZeros_length _ _ hfr_len
  have hfp_ne : padLeftZeros p (renderNat (m % 10 ^ p)) ≠ [] :=
    padLeftZeros_ne_nil _ _ hfr_ne
  have hfp_v : parseNatDigits (padLeftZeros p (renderNat (m % 10 ^ p))) = m % 10 ^ p := by
    rw [parseNatDigits_padLeftZeros, hfr_v]
  cases hig : renderNat (m / 10 ^ p) with
  | nil => exact absurd hig hip_ne
  | cons c t =>
    rw [hig] at hip_d hip_v
    have hc : isDigitCh c = true := by
      have hd2 := hip_d
      simp only [List.all_cons, Bool.and_eq_true] at hd2
      exact hd2.1
    have hsplit : stripSign (c :: t ++ '.' :: padLeftZeros p (renderNat (m % 10 ^ p))) =
        (c :: t) ++ '.' :: padLeftZeros p (renderNat (m % 10 ^ p)) := by
      rw [List.cons_append, stripSign_of_digit _ _ hc]
    rw [parseFloatOpt_core _ _ _ hsplit hip_d (List.cons_ne_nil c t) hfp_d hfp_ne]
    rw [List.cons_append, signOf_of_digit _ _ hc]
    rw [hip_v, hfp_v, hfp_len]
    congr 1
    push_cast
    have hdm : (m : ℚ) = ((m / 10 ^ p : Nat) : ℚ) * (10 : ℚ) ^ p + ((m % 10 ^ p : Nat) : ℚ) := by
      have h1 : m / 10 ^ p * 10 ^ p + m % 10 ^ p = m := by
        rw [mul_comm]
        exact Nat.div_add_mod m (10 ^ p)
      exact_mod_cast h1.symm
    have hten : ((10 : ℚ) ^ p) ≠ 0 := by positivity
    rw [hdm]
    field_simp

/-- The same reading with a leading minus sign gives the negated value. -/
theorem parseFloatOpt_render_neg (m p : Nat) (hp : 1 ≤ p) :
    parseFloatOpt ('-' :: (renderNat (m / 10 ^ p) ++ '.' :: padLeftZeros p (renderNat (m % 10 ^ p)))) =
      some (-((m : ℚ) / (10 : ℚ) ^ p)) := by
  obtain ⟨hip_d, hip_ne, hip_v⟩ := renderNat_spec (m / 10 ^ p)
  obtain ⟨hfr_d, hfr_ne, hfr_v⟩ := renderNat_spec (m % 10 ^ p)
  have hmod_lt : m % 10 ^ p < 10 ^ p := Nat.mod_lt _ (Nat.pos_pow_of_pos p (by norm_num))
  have hfr_len : (renderNat (m % 10 ^ p)).length ≤ p := renderNat_length_le _ p hmod_lt hp
  have hfp_d : (padLeftZeros p (renderNat (m % 10 ^ p))).all isDigitCh = true :=
    padLeftZeros_all _ _ hfr_d
  have hfp_len : (padLeftZeros p (renderNat (m % 10 ^ p))).length = p :=
    padLeftZeros_length _ _ hfr_len
  have hfp_ne : padLeftZeros p (renderNat (m % 10 ^ p)) ≠ [] :=
    padLeftZeros_ne_nil _ _ hfr_ne
  have hfp_v : parseNatDigits (padLeftZeros p (renderNat (m % 10 ^ p))) = m % 10 ^ p := by
    rw [parseNatDigits_padLeftZeros, hfr_v]
  have hsplit : stripSign ('-' :: (renderNat (m / 10 ^ p) ++
      '.' :: padLeftZeros p (renderNat (m % 10 ^ p)))) =
      renderNat (m / 10 ^ p) ++ '.' :: padLeftZeros p (renderNat (m % 10 ^ p)) :=
    stripSign_minus _
  rw [parseFloatOpt_core _ _ _ hsplit hip_d hip_ne hfp_d hfp_ne]
  rw [signOf_minus]
  rw [hip_v, hfp_v, hfp_len]
  congr 1
  push_cast
  have hdm : (m : ℚ) = ((m / 10 ^ p : Nat) : ℚ) * (10 : ℚ) ^ p + ((m % 10 ^ p : Nat) : ℚ) := by
    have h1 : m / 10 ^ p * 10 ^ p + m % 10 ^ p = m := by
      rw [mul_comm]
      exact Nat.div_add_mod m (10 ^ p)
    exact_mod_cast h1.symm
  have hten : ((10 : ℚ) ^ p) ≠ 0 := by positivity
  rw [hdm]
  field_simp

/-- Reading back the fixed precision rendering of an exactly representable
rational gives the value back. -/
theorem parseFloatOpt_fmtFixed (p : Nat) (q : ℚ) (hp : 1 ≤ p) (hq : exactFix p q) :
    parseFloatOpt (fmtFixed p q) = some q := by
  have hN := round_exactFix p q hq
  have hNq : (((q * (10 : ℚ) ^ p).num : ℚ)) = q * (10 : ℚ) ^ p := exactFix_num p q hq
  have hten : ((10 : ℚ) ^ p) ≠ 0 := by positivity
  have hq_eq : q = ((q * (10 : ℚ) ^ p).num : ℚ) / (10 : ℚ) ^ p := by
    rw [hNq]
    field_simp
  simp only [fmtFixed]
  rw [hN]
  by_cases hNneg : (q * (10 : ℚ) ^ p).num < 0
  · rw [if_pos hNneg]
    have hshape : (['-'] ++ renderNat ((q * (10 : ℚ) ^ p).num.natAbs / 10 ^ p) ++
        '.' :: padLeftZeros p (renderNat ((q * (10 : ℚ) ^ p).num.natAbs % 10 ^ p))) =
        '-' :: (renderNat ((q * (10 : ℚ) ^ p).num.natAbs / 10 ^ p) ++
          '.' :: padLeftZeros p (renderNat ((q * (10 : ℚ) ^ p).num.natAbs % 10 ^ p))) := by
      simp
    rw [hshape, parseFloatOpt_render_neg _ p hp]
    congr 1
    have hmQ : (((q * (10 : ℚ) ^ p).num.natAbs : ℚ)) = -(((q * (10 : ℚ) ^ p).num : ℚ)) := by
      rw [Int.cast_natAbs]
      exact_mod_cast abs_of_nonpos hNneg.le
    rw [hmQ, hNq]
    field_simp
  · rw [if_neg hNneg]
    have hshape : ([] ++ renderNat ((q * (10 : ℚ) ^ p).num.natAbs / 10 ^ p) ++
        '.' :: padLeftZeros p (renderNat ((q * (10 : ℚ) ^ p).num.natAbs % 10 ^ p))) =
        (renderNat ((q * (10 : ℚ) ^ p).num.natAbs / 10 ^ p) ++
          '.' :: padLeftZeros p (renderNat ((q * (10 : ℚ) ^ p).num.natAbs % 10 ^ p))) := by
      simp
    rw [hshape, parseFloatOpt_render_pos _ p hp]
    congr 1
    have hmQ : (((q * (10 : ℚ) ^ p).num.natAbs : ℚ)) = (((q * (10 : ℚ) ^ p).num : ℚ)) := by
      rw [Int.cast_natAbs]
      exact_mod_cast abs_of_nonneg (not_lt.mp hNneg)
    rw [hmQ, hNq]
    field_simp


theorem fmtFixed_shape (p : Nat) (q : ℚ) (hp : 1 ≤ p) :
    ∃ sgn ip fp, fmtFixed p q = sgn ++ ip ++ '.' :: fp ∧ (sgn = [] ∨ sgn = ['-']) ∧
      ip.all isDigitCh = true ∧ ip ≠ [] ∧ fp.all isDigitCh = true ∧ fp.length = p := by
  obtain ⟨hip_d, hip_ne, _⟩ := renderNat_spec ((round (q * (10 : ℚ) ^ p)).natAbs / 10 ^ p)
  obtain ⟨hfr_d, hfr_ne, _⟩ := renderNat_spec ((round (q * (10 : ℚ) ^ p)).natAbs % 10 ^ p)
  have hmod_lt : (round (q * (10 : ℚ) ^ p)).natAbs % 10 ^ p < 10 ^ p :=
    Nat.mod_lt _ (Nat.pos_pow_of_pos p (by norm_num))
  refine ⟨if round (q * (10 : ℚ) ^ p) < 0 then ['-'] else [],
    renderNat ((round (q * (10 : ℚ) ^ p)).natAbs / 10 ^ p),
    padLeftZeros p (renderNat ((round (q * (10 : ℚ) ^ p)).natAbs % 10 ^ p)), rfl, ?_,
    hip_d, hip_ne, padLeftZeros_all _ _ hfr_d,
    padLeftZeros_length _ _ (renderNat_length_le _ p hmod_lt hp)⟩
  by_cases hn : round (q * (10 : ℚ) ^ p) < 0
  · right
    rw [if_pos hn]
  · left
    rw [if_neg hn]

theorem decimalsOf_fmtFixed (p : Nat) (q : ℚ) (hp : 1 ≤ p) :
    decimalsOf (fmtFixed p q) = p := by
  obtain ⟨sgn, ip, fp, heq, hsgn, hipd, hipne, hfpd, hfplen⟩ := fmtFixed_shape p q hp
  rw [heq]
  unfold decimalsOf
  have hshape : (sgn ++ ip ++ '.' :: fp).reverse = fp.reverse ++ '.' :: (sgn ++ ip).reverse := by
    rw [List.append_assoc, List.reverse_append]
    simp
  rw [hshape]
  have hfp2 : fp.reverse.all (fun c => !(c = '.')) = true := by
    rw [List.all_eq_true]
    intro c hc
    have hcd : isDigitCh c = true :=
      List.all_eq_true.mp hfpd c (List.mem_reverse.mp hc)
    simpa using digit_not_dot c hcd
  rw [takeWhile_all_append _ _ _ hfp2]
  rw [List.takeWhile_cons_of_neg (by simp)]
  simp [hfplen]

theorem isIntegerTok_fmtFixed (p : Nat) (q : ℚ) (hp : 1 ≤ p) :
    isIntegerTok (fmtFixed p q) = false := by
  obtain ⟨sgn, ip, fp, heq, hsgn, hipd, hipne, hfpd, hfplen⟩ := fmtFixed_shape p q hp
  have hallf : ((ip ++ '.' :: fp).all isDigitCh) = false := by
    rw [Bool.eq_false_iff]
    intro hall
    rw [List.all_eq_true] at hall
    have hdot := hall '.' (by simp)
    rw [isDigitCh_dot] at hdot
    cases hdot
  rw [heq]
  unfold isIntegerTok
  rcases hsgn with h | h <;> subst h
  · cases hig : ip with
    | nil => exact absurd hig hipne
    | cons c t =>
      have hc : isDigitCh c = true := by
        rw [hig] at hipd
        have hd2 := hipd
        simp only [List.all_cons, Bool.and_eq_true] at hd2
        exact hd2.1
      subst hig
      have hsh : ([] : List Char) ++ (c :: t) ++ '.' :: fp = c :: (t ++ '.' :: fp) := by simp
      rw [hsh, stripSign_of_digit _ _ hc]
      have hsh2 : c :: (t ++ '.' :: fp) = (c :: t) ++ '.' :: fp := by simp
      rw [hsh2]
      simp [hallf]
      intro _ _ hdot
      rw [isDigitCh_dot] at hdot
      cases hdot
  · have hsh : (['-'] : List Char) ++ ip ++ '.' :: fp = '-' :: (ip ++ '.' :: fp) := by simp
    rw [hsh, stripSign_minus]
    simp [hallf]

/-- Translation of the designator match in parse_component_placement,
stated as the reusable function parseDesignator: see its definition. -/
theorem parseDesignator_any (d : List Char) (h1 : d ≠ "NOREFDES".toList)
    (h2 : d ≠ "BOARD".toList) : parseDesignator d = .Any d := by
  unfold parseDesignator
  rw [if_neg h1, if_neg h2]


/-! ### Monadic reduction helpers and decoder equations -/

@[simp] theorem exbind_ok {α β : Type} (x : α) (g : α → Except Error β) :
    (do
      let y ← (.ok x : Except Error α)
      g y) = g x := rfl

@[simp] theorem exbind_err {α β : Type} (e : Error) (g : α → Except Error β) :
    (do
      let y ← (.error e : Except Error α)
      g y) = (.error e : Except Error β) := rfl

@[simp] theorem exmap_ok {α β : Type} (f : α → β) (x : α) :
    Except.map f (.ok x : Except Error α) = .ok (f x) := rfl

@[simp] theorem exmap_err {α β : Type} (f : α → β) (e : Error) :
    Except.map f (.error e : Except Error α) = (.error e : Except Error β) := rfl

theorem nextStr_cons (t : RawTok) (r : List RawTok) : nextStr (t :: r) = .ok (strOf t, r) := rfl

theorem nextFloat_ok (s : List Char) (r : List RawTok) (q : ℚ) (h : parseFloatOpt s = some q) :
    nextFloat (.bare s :: r) = .ok (q, r) := by
  simp only [nextFloat, h]

theorem nextFloat_bad (s : List Char) (r : List RawTok) (h : parseFloatOpt s = none) :
    nextFloat (.bare s :: r) =
      .error (.GrammarExpectedRule (if isIntegerTok s then .integer else .string)) := by
  simp only [nextFloat, h]

theorem nextInt_ok (s : List Char) (r : List RawTok) (n : Nat) (h1 : isIntegerTok s = true)
    (h2 : parseU32Opt s = some n) : nextInt (.bare s :: r) = .ok (n, r) := by
  simp only [nextInt, h1, h2, if_true]

theorem nextInt_parse_err (s : List Char) (r : List RawTok) (h1 : isIntegerTok s = true)
    (h2 : parseU32Opt s = none) : nextInt (.bare s :: r) = .error .ParseInt := by
  simp only [nextInt, h1, h2, if_true]

theorem parseUnit_err (s : List Char) (h1 : s ≠ "MM".toList) (h2 : s ≠ "THOU".toList) :
    parseUnit s = .error .WrongUnit := by
  unfold parseUnit
  rw [if_neg h1, if_neg h2]

theorem dispatch_cons_eq (sec : RawSection) (rest : List RawSection) :
    dispatch (sec :: rest) =
      (if sec.name = "PLACEMENT".toList then
        (do
          let ps ← parsePlacementRecords sec.records
          let (ps2, cds, oss) ← dispatch rest
          .ok (ps ++ ps2, cds, oss))
      else if sec.name = "ELECTRICAL".toList then
        (do
          let cd ← parse_component_definition sec.records
          let (ps, cds, oss) ← dispatch rest
          .ok (ps, cd :: cds, oss))
      else
        (do
          let recs ← sec.records.mapM fun r => r.mapM classifyValue
          let (ps, cds, oss) ← dispatch rest
          .ok (ps, cds,
            { name := sec.name, args := sec.args.map rawText, records := recs } :: oss))) := rfl

theorem parsePlacementRecords_cons2_eq (a b : List RawTok) (rest : List (List RawTok)) :
    parsePlacementRecords (a :: b :: rest) =
      (do
        let cp ← parse_component_placement a (some b)
        let cps ← parsePlacementRecords rest
        .ok (cp :: cps)) := rfl

theorem parsePlacementRecords_single_eq (a : List RawTok) :
    parsePlacementRecords [a] =
      (do
        let _ ← parse_component_placement a none
        (.ok [] : Except Error (List ComponentPlacement))) := rfl

theorem parsePoints_cons_eq (rec : List RawTok) (rest : List (List RawTok)) :
    parsePoints (rec :: rest) =
      (if (match rec.head? with
          | some t => decide (rawText t = "PROP".toList)
          | none => false) then parsePoints rest
      else
        (do
          let (labelN, r) ← nextInt rec
          let label := if labelN = 0 then LoopLabel.CounterClockwise else LoopLabel.Clockwise
          let (x, r) ← nextFloat r
          let (y, r) ← nextFloat r
          let (angle, _) ← nextFloat r
          let pts ← parsePoints rest
          .ok ({ label := label, x := x, y := y, angle := angle } :: pts))) := rfl

theorem decodeSections_cons_eq (hs : RawSection) (rest : List RawSection) :
    decodeSections (hs :: rest) =
      (do
        let header ← parse_header hs
        let (ps, cds, oss) ← dispatch rest
        let header := match header.ty with
          | .LibraryFile _ => { header with ty := .LibraryFile cds }
          | _ => header
        .ok { header := header, placement := ps, other_sections := oss }) := rfl

theorem parse_eq (text : List Char) :
    Idf30.parse text =
      (do
        let secs ← docSections text
        decodeSections secs) := rfl

/-- A lone trailing placement record with at least the three identity
tokens fails with MalformedPlacementSection. -/
theorem parsePlacementRecords_last (lastR : List RawTok) (h : 3 ≤ lastR.length) :
    parsePlacementRecords [lastR] = .error .MalformedPlacementSection := by
  match lastR, h with
  | a :: b :: c :: rest, _ => rfl

/-- Successfully decoded placement records split off as pairs: appending
further records decodes the suffix independently. -/
theorem parsePlacementRecords_append (pairs : List (List RawTok))
    (ps : List ComponentPlacement) (tail : List (List RawTok))
    (h : parsePlacementRecords pairs = .ok ps) :
    parsePlacementRecords (pairs ++ tail) =
      (parsePlacementRecords tail).map fun ps2 => ps ++ ps2 := by
  induction pairs using parsePlacementRecords.induct generalizing ps with
  | case1 =>
    rw [show parsePlacementRecords [] = .ok [] from rfl] at h
    cases h
    cases htail : parsePlacementRecords tail <;> simp [htail]
  | case2 recA =>
    rw [parsePlacementRecords_single_eq] at h
    cases hcp : parse_component_placement recA none with
    | ok cp =>
      exfalso
      unfold parse_component_placement at hcp
      cases hA : nextStr recA with
      | error e => rw [hA] at hcp; cases hcp
      | ok p1 =>
        rw [hA] at hcp
        simp only [exbind_ok] at hcp
        cases hA2 : nextStr p1.2 with
        | error e => rw [hA2] at hcp; cases hcp
        | ok p2 =>
          rw [hA2] at hcp
          simp only [exbind_ok] at hcp
          cases hA3 : nextStr p2.2 with
          | error e => rw [hA3] at hcp; cases hcp
          | ok p3 =>
            rw [hA3] at hcp
            simp only [exbind_ok, exbind_err] at hcp
            cases hcp
    | error e =>
      rw [hcp] at h
      simp only [exbind_err] at h
      cases h
  | case3 recA recB rest ih =>
    rw [parsePlacementRecords_cons2_eq] at h
    cases hcp : parse_component_placement recA (some recB) with
    | error e =>
      rw [hcp] at h
      simp only [exbind_err] at h
      cases h
    | ok cp =>
      rw [hcp] at h
      simp only [exbind_ok] at h
      cases hrest : parsePlacementRecords rest with
      | error e =>
        rw [hrest] at h
        simp only [exbind_err] at h
        cases h
      | ok cps =>
        rw [hrest] at h
        simp only [exbind_ok] at h
        cases h
        rw [List.cons_append, List.cons_append, parsePlacementRecords_cons2_eq, hcp]
        simp only [exbind_ok]
        rw [ih cps hrest]
        cases htail : parsePlacementRecords tail <;> simp [htail]

/-- Successfully decoded placement records come in pairs. -/
theorem parsePlacementRecords_even (pairs : List (List RawTok))
    (ps : List ComponentPlacement) (h : parsePlacementRecords pairs = .ok ps) :
    pairs.length % 2 = 0 := by
  induction pairs using parsePlacementRecords.induct generalizing ps with
  | case1 => rfl
  | case2 recA =>
    exfalso
    rw [parsePlacementRecords_single_eq] at h
    cases hcp : parse_component_placement recA none with
    | ok cp =>
      unfold parse_component_placement at hcp
      cases hA : nextStr recA with
      | error e => rw [hA] at hcp; cases hcp
      | ok p1 =>
        rw [hA] at hcp
        simp only [exbind_ok] at hcp
        cases hA2 : nextStr p1.2 with
        | error e => rw [hA2] at hcp; cases hcp
        | ok p2 =>
          rw [hA2] at hcp
          simp only [exbind_ok] at hcp
          cases hA3 : nextStr p2.2 with
          | error e => rw [hA3] at hcp; cases hcp
          | ok p3 =>
            rw [hA3] at hcp
            simp only [exbind_ok, exbind_err] at hcp
            cases hcp
    | error e =>
      rw [hcp] at h
      simp only [exbind_err] at h
      cases h
  | case3 recA recB rest ih =>
    rw [parsePlacementRecords_cons2_eq] at h
    cases hcp : parse_component_placement recA (some recB) with
    | error e =>
      rw [hcp] at h
      simp only [exbind_err] at h
      cases h
    | ok cp =>
      rw [hcp] at h
      simp only [exbind_ok] at h
      cases hrest : parsePlacementRecords rest with
      | error e =>
        rw [hrest] at h
        simp only [exbind_err] at h
        cases h
      | ok cps =>
        have := ih cps hrest
        simp only [List.length_cons]
        omega

/-- Dispatch distributes over an append when the prefix succeeds. -/
theorem dispatch_append (pre rest : List RawSection)
    (pa : List ComponentPlacement) (ca : List ComponentDefinition) (oa : List IdfSection)
    (h : dispatch pre = .ok (pa, ca, oa)) :
    dispatch (pre ++ rest) =
      (dispatch rest).map fun x => (pa ++ x.1, ca ++ x.2.1, oa ++ x.2.2) := by
  induction pre generalizing pa ca oa with
  | nil =>
    rw [show dispatch [] = .ok ([], [], []) from rfl] at h
    cases h
    cases hrest : dispatch rest with
    | error e => simp [hrest]
    | ok x => simp [hrest]
  | cons sec pre ih =>
    rw [dispatch_cons_eq] at h
    rw [List.cons_append, dispatch_cons_eq]
    by_cases h1 : sec.name = "PLACEMENT".toList
    · rw [if_pos h1] at h ⊢
      cases hpp : parsePlacementRecords sec.records with
      | error e =>
        rw [hpp] at h
        simp only [exbind_err] at h
        cases h
      | ok ps =>
        rw [hpp] at h
        simp only [exbind_ok] at h ⊢
        cases hpre : dispatch pre with
        | error e =>
          rw [hpre] at h
          simp only [exbind_err] at h
          cases h
        | ok x =>
          rw [hpre] at h
          obtain ⟨p2, c2, o2⟩ := x
          simp only [exbind_ok] at h
          cases h
          rw [ih _ _ _ hpre]
          cases hrest : dispatch rest with
          | error e => simp [hrest]
          | ok y => simp [hrest, List.append_assoc]
    · rw [if_neg h1] at h ⊢
      by_cases h2 : sec.name = "ELECTRICAL".toList
      · rw [if_pos h2] at h ⊢
        cases hcd : parse_component_definition sec.records with
        | error e =>
          rw [hcd] at h
          simp only [exbind_err] at h
          cases h
        | ok cd =>
          rw [hcd] at h
          simp only [exbind_ok] at h ⊢
          cases hpre : dispatch pre with
          | error e =>
            rw [hpre] at h
            simp only [exbind_err] at h
            cases h
          | ok x =>
            rw [hpre] at h
            obtain ⟨p2, c2, o2⟩ := x
            simp only [exbind_ok] at h
            cases h
            rw [ih _ _ _ hpre]
            cases hrest : dispatch rest with
            | error e => simp [hrest]
            | ok y => simp [hrest]
      · rw [if_neg h2] at h ⊢
        cases hrecs : sec.records.mapM (fun r => r.mapM classifyValue) with
        | error e =>
          rw [hrecs] at h
          simp only [exbind_err] at h
          cases h
        | ok recs =>
          rw [hrecs] at h
          simp only [exbind_ok] at h ⊢
          cases hpre : dispatch pre with
          | error e =>
            rw [hpre] at h
            simp only [exbind_err] at h
            cases h
          | ok x =>
            rw [hpre] at h
            obtain ⟨p2, c2, o2⟩ := x
            simp only [exbind_ok] at h
            cases h
            rw [ih _ _ _ hpre]
            cases hrest : dispatch rest with
            | error e => simp [hrest]
            | ok y => simp [hrest]

/-- parse_header on a section named HEADER with at least one record steps
to the body of the decoder. -/
theorem parse_header_eq (args : List RawTok) (r0 : List RawTok) (rrecs : List (List RawTok)) :
    parse_header ⟨"HEADER".toList, args, r0 :: rrecs⟩ =
      (do
        let (tyTok, r0x) ← nextStr r0
        if tyTok = "BOARD_FILE".toList ∨ tyTok = "PANEL_FILE".toList then
          match rrecs with
          | [] => .error .GrammarExpectedPair
          | r1 :: _ =>
            (do
              let (board_name, r1x) ← nextStr r1
              let (unitTok, _) ← nextStr r1x
              let units ← parseUnit unitTok
              let ty := if tyTok = "BOARD_FILE".toList then FileType.BoardFile board_name units
                else FileType.PanelFile board_name units
              finishHeader ty r0x)
        else if tyTok = "LIBRARY_FILE".toList then finishHeader (.LibraryFile []) r0x
        else .error .WrongFileType) := by
  unfold parse_header
  rw [if_pos rfl]

/-- finishHeader on a version token other than 3.0 fails
UnsupportedVersion. -/
theorem finishHeader_bad_version (ty : FileType) (verTok : RawTok) (r0rest : List RawTok)
    (hver : strOf verTok ≠ "3.0".toList) :
    finishHeader ty (verTok :: r0rest) = .error .UnsupportedVersion := by
  unfold finishHeader
  rw [nextStr_cons]
  simp only [exbind_ok]
  rw [if_neg hver]

/-! ### Claims -/

/-- parse_header with two or more records, stepping into the second record
branch directly. -/
theorem parse_header_eq2 (args : List RawTok) (r0 r1 : List RawTok)
    (rr1 : List (List RawTok)) :
    parse_header ⟨"HEADER".toList, args, r0 :: r1 :: rr1⟩ =
      (do
        let (tyTok, r0x) ← nextStr r0
        if tyTok = "BOARD_FILE".toList ∨ tyTok = "PANEL_FILE".toList then
          (do
            let (board_name, r1x) ← nextStr r1
            let (unitTok, _) ← nextStr r1x
            let units ← parseUnit unitTok
            let ty := if tyTok = "BOARD_FILE".toList then FileType.BoardFile board_name units
              else FileType.PanelFile board_name units
            finishHeader ty r0x)
        else if tyTok = "LIBRARY_FILE".toList then finishHeader (.LibraryFile []) r0x
        else .error .WrongFileType) := by
  unfold parse_header
  rw [if_pos rfl]

theorem parse_component_definition_eq (r2 : List RawTok) (rest : List (List RawTok)) :
    parse_component_definition (r2 :: rest) =
      (do
        let (geometry_name, r2a) ← nextStr r2
        let (part_number, r2b) ← nextStr r2a
        let (unitTok, r2c) ← nextStr r2b
        let units ← parseUnit unitTok
        let (height, _) ← nextFloat r2c
        let points ← parsePoints rest
        .ok { geometry_name := geometry_name, part_number := part_number, units := units,
              height := height, points := points }) := rfl

theorem requireRecB_some (rB : List RawTok) : requireRecB (some rB) = .ok rB := rfl

theorem parse_component_placement_eq (a b c : RawTok) (arest : List RawTok)
    (recB? : Option (List RawTok)) :
    parse_component_placement (a :: b :: c :: arest) recB? =
      (do
        let recB ← requireRecB recB?
        let (x, rB) ← nextFloat recB
        let (y, rB) ← nextFloat rB
        let (z, rB) ← nextFloat rB
        let (rotation, rB) ← nextFloat rB
        let (sideTok, rB2) ← nextStr rB
        let board_side ← if sideTok = "TOP".toList then .ok BoardSide.Top
          else if sideTok = "BOTTOM".toList then .ok BoardSide.Bottom
          else .error (Error.Malformed "Expected TOP or BOTTOM for side of board")
        let (statusTok, _) ← nextStr rB2
        let placement_status ← if statusTok = "PLACED".toList then .ok PlacementStatus.Placed
          else if statusTok = "UNPLACED".toList then .ok PlacementStatus.Unplaced
          else if statusTok = "MCAD".toList then .ok PlacementStatus.MCad
          else if statusTok = "ECAD".toList then .ok PlacementStatus.ECad
          else .error (Error.Malformed "Wrong placement status")
        .ok { package_name := strOf a, part_number := strOf b,
              designator := parseDesignator (strOf c), x := x, y := y, z := z,
              rotation := rotation, board_side := board_side,
              placement_status := placement_status }) := rfl

theorem parseUnit_MM : parseUnit ("MM".toList) = .ok .SImm := by
  with_unfolding_all decide

theorem parseUnit_THOU : parseUnit ("THOU".toList) = .ok .Mils := by
  with_unfolding_all decide

/-! ### Line splitting and joining -/

theorem splitLines_line (l r : List Char) (h : '\n' ∉ l) :
    splitLines (l ++ '\n' :: r) = l :: splitLines r := by
  induction l with
  | nil =>
    show splitLines ('\n' :: r) = [] :: splitLines r
    conv_lhs => rw [splitLines]
    rw [if_pos rfl]
  | cons c l ih =>
    have hc : c ≠ '\n' := fun he => h (by rw [he]; exact List.mem_cons_self _ _)
    have hl : '\n' ∉ l := fun hm => h (List.mem_cons_of_mem _ hm)
    show splitLines (c :: (l ++ '\n' :: r)) = (c :: l) :: splitLines r
    conv_lhs => rw [splitLines]
    rw [if_neg hc, ih hl]

theorem unlines_nil : unlines [] = [] := rfl

theorem unlines_cons (l : List Char) (ls : List (List Char)) :
    unlines (l :: ls) = l ++ '\n' :: unlines ls := by
  show (((l :: ls).map fun x => x ++ ['\n'])).flatten = _
  rw [List.map_cons, List.flatten_cons]
  simp [unlines, List.append_assoc]

theorem unlines_append (xs ys : List (List Char)) :
    unlines (xs ++ ys) = unlines xs ++ unlines ys := by
  simp [unlines, List.map_append, List.flatten_append]

theorem splitLines_unlines (ls : List (List Char)) (h : ∀ l ∈ ls, '\n' ∉ l) :
    splitLines (unlines ls) = ls ++ [[]] := by
  induction ls with
  | nil => rfl
  | cons l ls ih =>
    rw [unlines_cons, splitLines_line l _ (h l (List.mem_cons_self _ _)),
      ih (fun l2 hl2 => h l2 (List.mem_cons_of_mem _ hl2))]
    rfl

/-! ### Character classes of rendered tokens -/

theorem goodChar_not_ws (c : Char) (h : goodChar c = true) : isWs c = false := by
  unfold goodChar at h
  simp only [Bool.and_eq_true, Bool.not_eq_true'] at h
  exact h.1.1

theorem goodChar_not_quote (c : Char) (h : goodChar c = true) : c ≠ '"' := by
  unfold goodChar at h
  simp only [Bool.and_eq_true, Bool.not_eq_true', decide_eq_false_iff_not] at h
  exact h.1.2

theorem goodChar_not_nl (c : Char) (h : goodChar c = true) : c ≠ '\n' := by
  unfold goodChar at h
  simp only [Bool.and_eq_true, Bool.not_eq_true', decide_eq_false_iff_not] at h
  exact h.2

theorem goodChar_of_digit (c : Char) (h : isDigitCh c = true) : goodChar c = true := by
  have h48 : 48 ≤ c.toNat ∧ c.toNat ≤ 57 := by
    unfold isDigitCh at h
    simpa [Bool.and_eq_true] using h
  have hne : ∀ x : Char, x.toNat < 48 → c ≠ x := by
    intro x hx he
    rw [he] at h48
    omega
  unfold goodChar isWs
  have h1 : c ≠ ' ' := hne ' ' (by decide)
  have h2 : c ≠ '\t' := hne '\t' (by decide)
  have h3 : c ≠ '\r' := hne '\r' (by decide)
  have h4 : c ≠ '"' := hne '"' (by decide)
  have h5 : c ≠ '\n' := hne '\n' (by decide)
  simp [h1, h2, h3, h4, h5]

/-! ### Tokenization of rendered lines -/

theorem tokenizeAux_between_cons (c : Char) (r : List Char) :
    tokenizeAux .between (c :: r) =
      if isWs c then tokenizeAux .between r
      else if c = '"' then tokenizeAux (.inQuoted []) r
      else tokenizeAux (.inBare [c]) r := rfl

theorem tokenizeAux_inBare_cons (acc : List Char) (c : Char) (r : List Char) :
    tokenizeAux (.inBare acc) (c :: r) =
      if isWs c then
        match tokenizeAux .between r with
        | .ok ts => .ok (.bare acc :: ts)
        | .error e => .error e
      else if c = '"' then
        match tokenizeAux (.inQuoted []) r with
        | .ok ts => .ok (.bare acc :: ts)
        | .error e => .error e
      else tokenizeAux (.inBare (acc ++ [c])) r := rfl

theorem tokenizeAux_inQuoted_cons (acc : List Char) (c : Char) (r : List Char) :
    tokenizeAux (.inQuoted acc) (c :: r) =
      if c = '"' then
        match tokenizeAux .between r with
        | .ok ts => .ok (.quoted acc :: ts)
        | .error e => .error e
      else tokenizeAux (.inQuoted (acc ++ [c])) r := rfl

theorem tokenizeAux_between_ws (c : Char) (r : List Char) (h : isWs c = true) :
    tokenizeAux .between (c :: r) = tokenizeAux .between r := by
  rw [tokenizeAux_between_cons, if_pos h]

theorem tokenizeAux_inBare_ext (s : List Char) (acc r : List Char)
    (h : s.all goodChar = true) :
    tokenizeAux (.inBare acc) (s ++ r) = tokenizeAux (.inBare (acc ++ s)) r := by
  induction s generalizing acc with
  | nil => simp
  | cons c s ih =>
    rw [List.all_cons, Bool.and_eq_true] at h
    rw [List.cons_append, tokenizeAux_inBare_cons,
      if_neg (by rw [goodChar_not_ws c h.1]; simp),
      if_neg (goodChar_not_quote c h.1), ih _ h.2]
    simp

theorem tokenizeAux_inQuoted_ext (s : List Char) (acc r : List Char)
    (h : goodQuoted s = true) :
    tokenizeAux (.inQuoted acc) (s ++ r) = tokenizeAux (.inQuoted (acc ++ s)) r := by
  induction s generalizing acc with
  | nil => simp
  | cons c s ih =>
    unfold goodQuoted at h
    rw [List.all_cons, Bool.and_eq_true] at h
    have hc : c ≠ '"' := by
      have := h.1
      simp only [Bool.and_eq_true, Bool.not_eq_true', decide_eq_false_iff_not] at this
      exact this.1
    rw [List.cons_append, tokenizeAux_inQuoted_cons, if_neg hc, ih _ h.2]
    simp

theorem tokenize_bare_end (s : List Char) (h : goodBare s = true) :
    tokenizeAux .between s = .ok [.bare s] := by
  unfold goodBare at h
  rw [Bool.and_eq_true] at h
  obtain ⟨hne, hall⟩ := h
  cases s with
  | nil => simp at hne
  | cons c s =>
    rw [List.all_cons, Bool.and_eq_true] at hall
    rw [tokenizeAux_between_cons, if_neg (by rw [goodChar_not_ws c hall.1]; simp),
      if_neg (goodChar_not_quote c hall.1)]
    calc tokenizeAux (.inBare [c]) s
        = tokenizeAux (.inBare [c]) (s ++ []) := by rw [List.append_nil]
      _ = tokenizeAux (.inBare ([c] ++ s)) [] := tokenizeAux_inBare_ext s [c] [] hall.2
      _ = .ok [.bare (c :: s)] := rfl

theorem tokenize_bare_sep (s r : List Char) (ts : List RawTok) (h : goodBare s = true)
    (hr : tokenizeAux .between r = .ok ts) :
    tokenizeAux .between (s ++ ' ' :: r) = .ok (.bare s :: ts) := by
  unfold goodBare at h
  rw [Bool.and_eq_true] at h
  obtain ⟨hne, hall⟩ := h
  cases s with
  | nil => simp at hne
  | cons c s =>
    rw [List.all_cons, Bool.and_eq_true] at hall
    rw [List.cons_append, tokenizeAux_between_cons,
      if_neg (by rw [goodChar_not_ws c hall.1]; simp),
      if_neg (goodChar_not_quote c hall.1),
      tokenizeAux_inBare_ext s [c] (' ' :: r) hall.2, tokenizeAux_inBare_cons,
      if_pos (by with_unfolding_all decide : isWs ' ' = true), hr]
    rfl

theorem tokenize_quoted_sep (t : List Char) (r : List Char) (ts : List RawTok)
    (h : goodQuoted t = true) (hr : tokenizeAux .between r = .ok ts) :
    tokenizeAux .between ('"' :: t ++ '"' :: r) = .ok (.quoted t :: ts) := by
  rw [List.cons_append, tokenizeAux_between_cons,
    if_neg (by with_unfolding_all decide : ¬isWs '"' = true), if_pos rfl,
    tokenizeAux_inQuoted_ext t [] ('"' :: r) h, tokenizeAux_inQuoted_cons, if_pos rfl, hr]
  rfl

theorem sepToks_nil : sepToks [] = [] := rfl

theorem sepToks_single (t : RawTok) : sepToks [t] = rawText t := rfl

theorem sepToks_cons2 (t t2 : RawTok) (ts : List RawTok) :
    sepToks (t :: t2 :: ts) = rawText t ++ ' ' :: sepToks (t2 :: ts) := rfl

theorem tokenize_sepToks (ts : List RawTok) (h : ∀ t ∈ ts, GoodTok t) :
    tokenizeAux .between (sepToks ts) = .ok ts := by
  induction ts with
  | nil => rfl
  | cons t ts ih =>
    cases ts with
    | nil =>
      cases t with
      | bare s => exact tokenize_bare_end s (h _ (List.mem_cons_self _ _))
      | quoted q =>
        have := tokenize_quoted_sep q [] [] (h _ (List.mem_cons_self _ _)) rfl
        simpa using this
    | cons t2 ts2 =>
      have hrest := ih (fun x hx => h x (List.mem_cons_of_mem _ hx))
      rw [sepToks_cons2]
      cases t with
      | bare s => exact tokenize_bare_sep s _ _ (h _ (List.mem_cons_self _ _)) hrest
      | quoted q =>
        have hr2 : tokenizeAux .between (' ' :: sepToks (t2 :: ts2)) = .ok (t2 :: ts2) := by
          rw [tokenizeAux_between_ws _ _ (by with_unfolding_all decide)]
          exact hrest
        have := tokenize_quoted_sep q (' ' :: sepToks (t2 :: ts2)) (t2 :: ts2)
          (h _ (List.mem_cons_self _ _)) hr2
        simpa [rawText, List.append_assoc] using this

theorem tokenizeLine_sepToks (ts : List RawTok) (h : ∀ t ∈ ts, GoodTok t) :
    tokenizeLine (sepToks ts) = .ok ts := tokenize_sepToks ts h

theorem tokenizeLine_sp2 (ts : List RawTok) (h : ∀ t ∈ ts, GoodTok t) :
    tokenizeLine (' ' :: ' ' :: sepToks ts) = .ok ts := by
  unfold tokenizeLine
  rw [tokenizeAux_between_ws _ _ (by with_unfolding_all decide),
    tokenizeAux_between_ws _ _ (by with_unfolding_all decide)]
  exact tokenize_sepToks ts h

theorem tokenizeLine_nil : tokenizeLine [] = .ok [] := rfl

/-! ### Sectionizing of token lines -/

theorem sectionizeAux_nil_none (acc : List RawSection) :
    sectionizeAux none acc [] = .ok acc := rfl

theorem sectionizeAux_empty_line (cur : Option (List Char × List RawTok × List (List RawTok)))
    (acc : List RawSection) (rest : List (List RawTok)) :
    sectionizeAux cur acc ([] :: rest) = sectionizeAux cur acc rest := rfl

theorem sectionizeAux_open_eq (nm : List Char) (lineArgs : List RawTok)
    (acc : List RawSection) (rest : List (List RawTok)) :
    sectionizeAux none acc ((.bare ('.' :: nm) :: lineArgs) :: rest) =
      if ("END_".toList).isPrefixOf nm then .error .Pest
      else sectionizeAux (some (nm, lineArgs, [])) acc rest := rfl

theorem sectionizeAux_close_eq (nm : List Char) (lineArgs : List RawTok) (name : List Char)
    (args : List RawTok) (recs : List (List RawTok)) (acc : List RawSection)
    (rest : List (List RawTok)) :
    sectionizeAux (some (name, args, recs)) acc ((.bare ('.' :: nm) :: lineArgs) :: rest) =
      if nm = "END_".toList ++ name then
        sectionizeAux none (acc ++ [⟨name, args, recs⟩]) rest
      else .error .Pest := rfl

theorem sectionizeAux_rec_quoted (q : List Char) (ts : List RawTok) (name : List Char)
    (args : List RawTok) (recs : List (List RawTok)) (acc : List RawSection)
    (rest : List (List RawTok)) :
    sectionizeAux (some (name, args, recs)) acc ((.quoted q :: ts) :: rest) =
      sectionizeAux (some (name, args, recs ++ [.quoted q :: ts])) acc rest := rfl

theorem sectionizeAux_rec_bare_nil (ts : List RawTok) (name : List Char)
    (args : List RawTok) (recs : List (List RawTok)) (acc : List RawSection)
    (rest : List (List RawTok)) :
    sectionizeAux (some (name, args, recs)) acc ((.bare [] :: ts) :: rest) =
      sectionizeAux (some (name, args, recs ++ [.bare [] :: ts])) acc rest := rfl

theorem sectionizeAux_rec_bare (c : Char) (s2 : List Char) (ts : List RawTok)
    (name : List Char) (args : List RawTok) (recs : List (List RawTok))
    (acc : List RawSection) (rest : List (List RawTok)) (hc : c ≠ '.') :
    sectionizeAux (some (name, args, recs)) acc ((.bare (c :: s2) :: ts) :: rest) =
      sectionizeAux (some (name, args, recs ++ [.bare (c :: s2) :: ts])) acc rest := by
  rw [sectionizeAux.eq_def]
  dsimp only []
  split
  · rename_i heq
    simp at heq
  · rename_i heq
    rw [List.cons.injEq, RawTok.bare.injEq, List.cons.injEq] at heq
    exact absurd heq.1.1 hc
  · rfl

theorem recLine_cases (r : List RawTok) (h : RecLine r) :
    (∃ q ts, r = .quoted q :: ts) ∨ (∃ ts, r = .bare [] :: ts) ∨
      ∃ c s2 ts, r = .bare (c :: s2) :: ts ∧ c ≠ '.' := by
  cases r with
  | nil => exact absurd h (by simp [RecLine])
  | cons t ts =>
    cases t with
    | quoted q => exact Or.inl ⟨q, ts, rfl⟩
    | bare s =>
      cases s with
      | nil => exact Or.inr (Or.inl ⟨ts, rfl⟩)
      | cons c s2 =>
        by_cases hc : c = '.'
        · subst hc
          exact absurd h (by simp [RecLine])
        · exact Or.inr (Or.inr ⟨c, s2, ts, rfl, hc⟩)

theorem sectionizeAux_rec (r : List RawTok) (name : List Char) (args : List RawTok)
    (recs : List (List RawTok)) (acc : List RawSection) (rest : List (List RawTok))
    (h : RecLine r) :
    sectionizeAux (some (name, args, recs)) acc (r :: rest) =
      sectionizeAux (some (name, args, recs ++ [r])) acc rest := by
  rcases recLine_cases r h with ⟨q, ts, rfl⟩ | ⟨ts, rfl⟩ | ⟨c, s2, ts, rfl, hc⟩
  · exact sectionizeAux_rec_quoted q ts name args recs acc rest
  · exact sectionizeAux_rec_bare_nil ts name args recs acc rest
  · exact sectionizeAux_rec_bare c s2 ts name args recs acc rest hc

theorem sectionize_records (recs0 : List (List RawTok)) (name : List Char)
    (args : List RawTok) (done : List (List RawTok)) (acc : List RawSection)
    (rest : List (List RawTok)) (h : ∀ r ∈ recs0, RecLine r) :
    sectionizeAux (some (name, args, done))
        acc (recs0 ++ [.bare ('.' :: ("END_".toList ++ name))] :: rest) =
      sectionizeAux none (acc ++ [⟨name, args, done ++ recs0⟩]) rest := by
  induction recs0 generalizing done with
  | nil =>
    rw [List.nil_append, sectionizeAux_close_eq, if_pos rfl, List.append_nil]
  | cons r recs0 ih =>
    rw [List.cons_append, sectionizeAux_rec r _ _ _ _ _ (h r (List.mem_cons_self _ _)),
      ih (done ++ [r]) (fun r2 hr2 => h r2 (List.mem_cons_of_mem _ hr2))]
    simp

theorem sectionize_block (sec : RawSection) (acc : List RawSection)
    (rest : List (List RawTok))
    (hn : ("END_".toList).isPrefixOf sec.name = false)
    (hrec : ∀ r ∈ sec.records, RecLine r) :
    sectionizeAux none acc (secTokLines sec ++ rest) =
      sectionizeAux none (acc ++ [sec]) rest := by
  obtain ⟨name, args, recs⟩ := sec
  have hsh : secTokLines ⟨name, args, recs⟩ ++ rest =
      (.bare ('.' :: name) :: args) ::
        (recs ++ [.bare ('.' :: ("END_".toList ++ name))] :: rest) := by
    simp [secTokLines]
  rw [hsh, sectionizeAux_open_eq,
    if_neg (by rw [show ("END_".toList.isPrefixOf name) = false from hn]; simp),
    sectionize_records recs name args [] acc rest hrec, List.nil_append]

theorem sectionize_blocks (secs : List RawSection) (acc : List RawSection)
    (h : ∀ sec ∈ secs, ("END_".toList).isPrefixOf sec.name = false ∧
      ∀ r ∈ sec.records, RecLine r) :
    sectionizeAux none acc ((secs.map secTokLines).flatten ++ [[]]) = .ok (acc ++ secs) := by
  induction secs generalizing acc with
  | nil =>
    rw [List.map_nil, List.flatten_nil, List.nil_append, sectionizeAux_empty_line,
      sectionizeAux_nil_none, List.append_nil]
  | cons sec secs ih =>
    rw [List.map_cons, List.flatten_cons, List.append_assoc,
      sectionize_block sec acc _ (h sec (List.mem_cons_self _ _)).1
        (h sec (List.mem_cons_self _ _)).2,
      ih (acc ++ [sec]) (fun s2 hs2 => h s2 (List.mem_cons_of_mem _ hs2))]
    simp

/-! ### Rendered tokens are well formed -/

theorem renderNatAux_all_digit : ∀ f n, (renderNatAux f n).all isDigitCh = true := by
  intro f
  induction f with
  | zero => intro n; rfl
  | succ f ih =>
    intro n
    rw [renderNatAux_succ]
    by_cases h : n < 10
    · rw [if_pos h]
      simp [digitChar_isDigit n h]
    · rw [if_neg h, List.all_append, ih (n / 10)]
      simp [digitChar_isDigit (n % 10) (Nat.mod_lt n (by norm_num))]

theorem renderNat_all_digit (n : Nat) : (renderNat n).all isDigitCh = true :=
  renderNatAux_all_digit (n + 1) n

theorem renderNat_ne_nil (n : Nat) : renderNat n ≠ [] := by
  unfold renderNat
  rw [renderNatAux_succ]
  by_cases h : n < 10 <;> simp [h]

theorem all_goodChar_of_digits (s : List Char) (h : s.all isDigitCh = true) :
    s.all goodChar = true := by
  rw [List.all_eq_true] at h ⊢
  exact fun c hc => goodChar_of_digit c (h c hc)

theorem goodBare_of_digits (s : List Char) (hne : s ≠ []) (h : s.all isDigitCh = true) :
    goodBare s = true := by
  unfold goodBare
  rw [Bool.and_eq_true]
  exact ⟨by simp [hne], all_goodChar_of_digits s h⟩

theorem goodBare_renderNat (n : Nat) : goodBare (renderNat n) = true :=
  goodBare_of_digits _ (renderNat_ne_nil n) (renderNat_all_digit n)

theorem goodBare_cons_all (c : Char) (s : List Char) (hc : goodChar c = true)
    (hs : s.all goodChar = true) : goodBare (c :: s) = true := by
  unfold goodBare
  simp [hc, hs]

theorem goodBare_all (s : List Char) (h : goodBare s = true) : s.all goodChar = true := by
  unfold goodBare at h
  rw [Bool.and_eq_true] at h
  exact h.2

theorem goodBare_renderInt (z : Int) : goodBare (renderInt z) = true := by
  unfold renderInt
  by_cases h : z < 0
  · rw [if_pos h]
    exact goodBare_cons_all '-' _ (by with_unfolding_all decide)
      (all_goodChar_of_digits _ (renderNat_all_digit _))
  · rw [if_neg h]
    exact goodBare_renderNat _

theorem fmtFixed_good (p : Nat) (q : ℚ) : goodBare (fmtFixed p q) = true := by
  unfold fmtFixed
  dsimp only
  have hpad : (padLeftZeros p (renderNat (((round (q * (10 : ℚ) ^ p)).natAbs) % 10 ^ p))).all
      isDigitCh = true := padLeftZeros_all _ _ (renderNat_all_digit _)
  have htail : ('.' :: padLeftZeros p
      (renderNat (((round (q * (10 : ℚ) ^ p)).natAbs) % 10 ^ p))).all goodChar = true := by
    rw [List.all_cons, Bool.and_eq_true]
    exact ⟨by with_unfolding_all decide, all_goodChar_of_digits _ hpad⟩
  have hmid : goodBare (renderNat (((round (q * (10 : ℚ) ^ p)).natAbs) / 10 ^ p) ++
      '.' :: padLeftZeros p
        (renderNat (((round (q * (10 : ℚ) ^ p)).natAbs) % 10 ^ p))) = true := by
    unfold goodBare
    rw [Bool.and_eq_true, List.all_append]
    refine ⟨by simp [renderNat_ne_nil], ?_⟩
    rw [Bool.and_eq_true]
    exact ⟨all_goodChar_of_digits _ (renderNat_all_digit _), htail⟩
  by_cases h : round (q * (10 : ℚ) ^ p) < 0
  · rw [if_pos h, List.singleton_append]
    refine goodBare_cons_all '-' _ (by with_unfolding_all decide) ?_
    exact goodBare_all _ hmid
  · rw [if_neg h, List.nil_append]
    exact hmid

/-! ### Stored texts re-tokenize to their tokens -/

theorem rawText_strTok_quoted (t : List Char) : strTok ('"' :: t ++ ['"']) = .quoted t := by
  have h : strTok ('"' :: t ++ ['"']) = .quoted ((t ++ ['"']).dropLast) := rfl
  rw [h, List.dropLast_concat]

theorem strTok_bare (s : List Char) (h : s.head? ≠ some '"') : strTok s = .bare s := by
  cases s with
  | nil => rfl
  | cons c r =>
    have hc : c ≠ '"' := fun he => h (by rw [he]; rfl)
    rw [strTok.eq_def]
    split
    · rename_i heq
      rw [List.cons.injEq] at heq
      exact absurd heq.1 hc
    · rfl

theorem goodBare_head_ne_quote (s : List Char) (h : goodBare s = true) :
    s.head? ≠ some '"' := by
  cases s with
  | nil => simp
  | cons c r =>
    have hall := goodBare_all _ h
    rw [List.all_cons, Bool.and_eq_true] at hall
    have := goodChar_not_quote c hall.1
    simp [this]

theorem rawText_strTok_arg (a : List Char) (h : GoodArg a) : rawText (strTok a) = a := by
  rcases h with hb | ⟨t, rfl, hq⟩
  · rw [strTok_bare a (goodBare_head_ne_quote a hb)]
    rfl
  · rw [rawText_strTok_quoted]
    rfl

theorem goodArg_of_valueStr (s : List Char) (h : GoodValueStr s) : GoodArg s := by
  rcases h with ⟨hb, _, _⟩ | ⟨t, rfl, hq⟩
  · exact Or.inl hb
  · exact Or.inr ⟨t, rfl, hq⟩

theorem rawText_fieldTok (s : List Char) : rawText (fieldTok s) = escape_string s := by
  unfold fieldTok escape_string
  by_cases h : s = [] <;> simp [h, rawText]

theorem rawText_desTok (d : ReferenceDesignator) : rawText (desTok d) = d.render := by
  cases d <;> rfl

theorem rawText_valueTok (v : IdfValue) (h : GoodValue v) : rawText (valueTok v) = v.render := by
  cases v with
  | Integer n => rfl
  | Float q => rfl
  | String s => exact rawText_strTok_arg (escape_string s) (by
      rcases h with ⟨hb, _, _⟩ | ⟨t, rfl, hq⟩
      · have hne : s ≠ [] := by
          unfold goodBare at hb
          rw [Bool.and_eq_true] at hb
          intro he
          rw [he] at hb
          simp at hb
        rw [show escape_string s = s from by unfold escape_string; rw [if_neg hne]]
        exact Or.inl hb
      · rw [show escape_string ('"' :: t ++ ['"']) = '"' :: t ++ ['"'] from by
          unfold escape_string; rw [if_neg (by simp)]]
        exact Or.inr ⟨t, rfl, hq⟩)

theorem goodTok_strTok (a : List Char) (h : GoodArg a) : GoodTok (strTok a) := by
  rcases h with hb | ⟨t, rfl, hq⟩
  · rw [strTok_bare a (goodBare_head_ne_quote a hb)]
    exact hb
  · rw [rawText_strTok_quoted]
    exact hq

theorem goodTok_fieldTok (s : List Char) (h : GoodStrField s) : GoodTok (fieldTok s) := by
  rcases h with rfl | hb
  · exact (by with_unfolding_all decide : goodQuoted [] = true)
  · have hne : s ≠ [] := by
      unfold goodBare at hb
      rw [Bool.and_eq_true] at hb
      intro he
      rw [he] at hb
      simp at hb
    rw [show fieldTok s = .bare s from by unfold fieldTok; rw [if_neg hne]]
    exact hb

theorem goodTok_desTok (d : ReferenceDesignator) (h : GoodDesignator d) : GoodTok (desTok d) := by
  cases d with
  | Any s => exact h.1
  | NoRefDes => exact (by with_unfolding_all decide : goodBare ("NOREFDES".toList) = true)
  | Board => exact (by with_unfolding_all decide : goodBare ("BOARD".toList) = true)

theorem goodTok_valueTok (v : IdfValue) (h : GoodValue v) : GoodTok (valueTok v) := by
  cases v with
  | Integer n => exact goodBare_renderInt n
  | Float q => exact fmtFixed_good 4 q
  | String s =>
    refine goodTok_strTok (escape_string s) ?_
    rcases h with ⟨hb, _, _⟩ | ⟨t, rfl, hq⟩
    · have hne : s ≠ [] := by
        unfold goodBare at hb
        rw [Bool.and_eq_true] at hb
        intro he
        rw [he] at hb
        simp at hb
      rw [show escape_string s = s from by unfold escape_string; rw [if_neg hne]]
      exact Or.inl hb
    · rw [show escape_string ('"' :: t ++ ['"']) = '"' :: t ++ ['"'] from by
        unfold escape_string; rw [if_neg (by simp)]]
      exact Or.inr ⟨t, rfl, hq⟩

theorem rawText_no_nl (t : RawTok) (h : GoodTok t) : '\n' ∉ rawText t := by
  cases t with
  | bare s =>
    intro hm
    have := (List.all_eq_true.mp (goodBare_all s h)) _ hm
    exact absurd this (by with_unfolding_all decide)
  | quoted q =>
    intro hm
    rcases List.mem_cons.mp hm with he | hm2
    · exact absurd he (by decide)
    rcases List.mem_append.mp hm2 with hq2 | he
    · have hx := (List.all_eq_true.mp h) _ hq2
      simp at hx
    · rw [List.mem_singleton] at he
      exact absurd he (by decide)

theorem sepToks_no_nl (ts : List RawTok) (h : ∀ t ∈ ts, GoodTok t) : '\n' ∉ sepToks ts := by
  induction ts with
  | nil => simp [sepToks_nil]
  | cons t ts ih =>
    cases ts with
    | nil =>
      rw [sepToks_single]
      exact rawText_no_nl t (h _ (List.mem_cons_self _ _))
    | cons t2 ts2 =>
      rw [sepToks_cons2]
      intro hm
      rcases List.mem_append.mp hm with h1 | h2
      · exact rawText_no_nl t (h _ (List.mem_cons_self _ _)) h1
      rcases List.mem_cons.mp h2 with he | h3
      · exact absurd he (by decide)
      · exact ih (fun x hx => h x (List.mem_cons_of_mem _ hx)) h3

/-! ### Renders decompose into lines -/

theorem flat_space_sepToks (g : IdfValue → List Char) (f : IdfValue → RawTok)
    (r : List IdfValue) (hr : r ≠ []) (hv : ∀ v ∈ r, rawText (f v) = g v) :
    (r.map fun v => ' ' :: g v).flatten = ' ' :: sepToks (r.map f) := by
  induction r with
  | nil => cases hr rfl
  | cons v r ih =>
    cases r with
    | nil => simp [sepToks_single, hv v (List.mem_cons_self _ _)]
    | cons v2 r2 =>
      rw [List.map_cons, List.flatten_cons,
        ih (by simp) (fun x hx => hv x (List.mem_cons_of_mem _ hx))]
      rw [show List.map f (v :: v2 :: r2) = f v :: f v2 :: List.map f r2 from rfl,
        sepToks_cons2, hv v (List.mem_cons_self _ _)]
      simp

theorem sepToks_dot_args (t0 : RawTok) (l : List (List Char))
    (hf : ∀ a ∈ l, rawText (strTok a) = a) :
    sepToks (t0 :: l.map strTok) = rawText t0 ++ (l.map fun a => ' ' :: a).flatten := by
  induction l generalizing t0 with
  | nil => simp [sepToks_single]
  | cons a l2 ih =>
    rw [List.map_cons, sepToks_cons2, ih (strTok a) (fun x hx => hf x (List.mem_cons_of_mem _ hx)),
      hf a (List.mem_cons_self _ _), List.map_cons, List.flatten_cons]
    simp

theorem header_render_lines (h : Header) (bn : List Char) (u : Unit)
    (hty : h.ty = .BoardFile bn u) :
    Header.render h = unlines (hdrCharLines h bn u) := by
  unfold Header.render hdrCharLines
  rw [hty]
  dsimp only [FileType.lit]
  have e1 : (".HEADER\n".toList : List Char) = ".HEADER".toList ++ ['\n'] := by decide
  have e2 : (" 3.0 ".toList : List Char) = ' ' :: "3.0".toList ++ [' '] := by decide
  have e3 : (".END_HEADER\n".toList : List Char) = ".END_HEADER".toList ++ ['\n'] := by decide
  rw [e1, e2, e3]
  simp [unlines, cs, sepToks_cons2, sepToks_single, rawText, List.append_assoc]

theorem section_render_lines (s : IdfSection) (hg : GoodSection s) :
    IdfSection.render s = unlines (secCharLines s) := by
  obtain ⟨hn, hpre, hnp, hne, hargs, hrecs⟩ := hg
  unfold IdfSection.render secCharLines
  have hargsline : sepToks (.bare ('.' :: s.name) :: s.args.map strTok) =
      '.' :: s.name ++ (s.args.map fun a => ' ' :: a).flatten := by
    rw [sepToks_dot_args _ _ (fun a ha => rawText_strTok_arg a (hargs a ha))]
    rfl
  have hrecsline : ∀ r ∈ s.records,
      ' ' :: (r.map fun v => ' ' :: v.render).flatten =
        ' ' :: ' ' :: sepToks (r.map valueTok) := by
    intro r hr
    obtain ⟨hrne, hrv, _⟩ := hrecs r hr
    rw [flat_space_sepToks (fun v => v.render) valueTok r hrne
      (fun v hv => rawText_valueTok v (hrv v hv))]
  rw [unlines_append, unlines_cons, hargsline]
  have hmaps : (s.records.map fun r => (' ' :: (r.map fun v => ' ' :: v.render).flatten)
        ++ ['\n']).flatten =
      unlines (s.records.map fun r => ' ' :: ' ' :: sepToks (r.map valueTok)) := by
    unfold unlines
    rw [List.map_map]
    refine congrArg List.flatten (List.map_congr_left ?_)
    intro r hr
    show (' ' :: (r.map fun v => ' ' :: v.render).flatten) ++ ['\n'] = _
    rw [hrecsline r hr]
    rfl
  rw [← hmaps]
  simp [unlines, sepToks_single, rawText, List.append_assoc]

theorem cp_render_lines (cp : ComponentPlacement) :
    ComponentPlacement.render cp = unlines (cpCharLines cp) := by
  unfold ComponentPlacement.render cpCharLines
  rw [unlines_cons, unlines_cons, unlines_nil, sepToks_cons2, sepToks_cons2, sepToks_single,
    rawText_fieldTok, rawText_fieldTok, rawText_desTok, sepToks_cons2, sepToks_cons2,
    sepToks_cons2, sepToks_cons2, sepToks_cons2, sepToks_single]
  simp [rawText, List.append_assoc]

theorem placements_render_lines (ps : List ComponentPlacement) :
    (ps.map ComponentPlacement.render).flatten = unlines ((ps.map cpCharLines).flatten) := by
  induction ps with
  | nil => rfl
  | cons cp ps ih =>
    rw [List.map_cons, List.flatten_cons, ih, cp_render_lines cp, List.map_cons,
      List.flatten_cons, unlines_append]

theorem sections_render_lines (oss : List IdfSection) (h : ∀ s ∈ oss, GoodSection s) :
    (oss.map IdfSection.render).flatten = unlines ((oss.map secCharLines).flatten) := by
  induction oss with
  | nil => rfl
  | cons s oss ih =>
    rw [List.map_cons, List.flatten_cons, ih (fun x hx => h x (List.mem_cons_of_mem _ hx)),
      section_render_lines s (h s (List.mem_cons_self _ _)), List.map_cons,
      List.flatten_cons, unlines_append]

theorem to_string_lines (m : Idf30) (bn : List Char) (u : Unit)
    (hty : m.header.ty = .BoardFile bn u) (hs : ∀ s ∈ m.other_sections, GoodSection s) :
    Idf30.to_string m = unlines (docCharLines m bn u) := by
  unfold Idf30.to_string docCharLines
  rw [hty]
  dsimp only
  have e1 : (".PLACEMENT\n".toList : List Char) = ".PLACEMENT".toList ++ ['\n'] := by decide
  have e2 : (".END_PLACEMENT\n".toList : List Char) =
      ".END_PLACEMENT".toList ++ ['\n'] := by decide
  rw [e1, e2, header_render_lines m.header bn u hty, sections_render_lines _ hs,
    placements_render_lines, unlines_append, unlines_append, unlines_cons, unlines_append]
  simp [unlines, cs, List.append_assoc]

/-! ### mapM over Except -/

theorem mapM_ok_nil {α β : Type} (f : α → Except Error β) :
    ([] : List α).mapM f = .ok [] := rfl

theorem mapM_ok_cons {α β : Type} (f : α → Except Error β) (x : α) (l : List α) (b : β)
    (bs : List β) (hx : f x = .ok b) (hl : l.mapM f = .ok bs) :
    (x :: l).mapM f = .ok (b :: bs) := by
  rw [List.mapM_cons, hx, hl]
  rfl

theorem mapM_ok_append {α β : Type} (f : α → Except Error β) (xs ys : List α)
    (as bs : List β) (hx : xs.mapM f = .ok as) (hy : ys.mapM f = .ok bs) :
    (xs ++ ys).mapM f = .ok (as ++ bs) := by
  induction xs generalizing as with
  | nil =>
    rw [show ([] : List α).mapM f = .ok [] from rfl] at hx
    injection hx with hx2
    subst hx2
    simpa using hy
  | cons x xs ih =>
    rw [List.mapM_cons] at hx
    cases hfx : f x with
    | error e => rw [hfx] at hx; simp at hx
    | ok b =>
      rw [hfx] at hx
      simp only [exbind_ok] at hx
      cases hmx : xs.mapM f with
      | error e => rw [hmx] at hx; simp at hx
      | ok bs2 =>
        rw [hmx] at hx
        simp only [exbind_ok] at hx
        rw [show (pure (b :: bs2) : Except Error (List β)) = .ok (b :: bs2) from rfl] at hx
        injection hx with hx2
        subst hx2
        rw [List.cons_append]
        exact mapM_ok_cons f x (xs ++ ys) b (bs2 ++ bs) hfx (ih bs2 hmx)

theorem mapM_ok_map {α β : Type} (f : α → Except Error β) (g : β → α) (l : List β)
    (h : ∀ x ∈ l, f (g x) = .ok x) : (l.map g).mapM f = .ok l := by
  induction l with
  | nil => rfl
  | cons x l ih =>
    rw [List.map_cons]
    exact mapM_ok_cons f (g x) (l.map g) x l (h x (List.mem_cons_self _ _))
      (ih fun y hy => h y (List.mem_cons_of_mem _ hy))

theorem mapM_ok_flatten {α β γ : Type} (f : α → Except Error β) (g : γ → List α)
    (h2 : γ → List β) (l : List γ) (h : ∀ x ∈ l, (g x).mapM f = .ok (h2 x)) :
    ((l.map g).flatten).mapM f = .ok ((l.map h2).flatten) := by
  induction l with
  | nil => rfl
  | cons x l ih =>
    rw [List.map_cons, List.flatten_cons, List.map_cons, List.flatten_cons]
    exact mapM_ok_append f _ _ _ _ (h x (List.mem_cons_self _ _))
      (ih fun y hy => h y (List.mem_cons_of_mem _ hy))

theorem mapM_ok_map2 {α β γ : Type} (f : α → Except Error β) (g : γ → α) (h2 : γ → β)
    (l : List γ) (h : ∀ x ∈ l, f (g x) = .ok (h2 x)) : (l.map g).mapM f = .ok (l.map h2) := by
  induction l with
  | nil => rfl
  | cons x l ih =>
    rw [List.map_cons, List.map_cons]
    exact mapM_ok_cons f (g x) (l.map g) (h2 x) (l.map h2) (h x (List.mem_cons_self _ _))
      (ih fun y hy => h y (List.mem_cons_of_mem _ hy))

/-! ### First tokens of record lines -/

theorem renderNat_head_digit (n : Nat) :
    ∃ c rest, renderNat n = c :: rest ∧ isDigitCh c = true := by
  cases hc : renderNat n with
  | nil => exact absurd hc (renderNat_ne_nil n)
  | cons c rest =>
    refine ⟨c, rest, rfl, ?_⟩
    have := renderNat_all_digit n
    rw [hc, List.all_cons, Bool.and_eq_true] at this
    exact this.1

theorem renderInt_head_ne_dot (z : Int) : (renderInt z).head? ≠ some '.' := by
  unfold renderInt
  by_cases h : z < 0
  · rw [if_pos h]
    simp
  · rw [if_neg h]
    obtain ⟨c, rest, hc, hd⟩ := renderNat_head_digit z.natAbs
    rw [hc]
    simp [digit_not_dot c hd]

theorem fmtFixed_head_ne_dot (p : Nat) (q : ℚ) : (fmtFixed p q).head? ≠ some '.' := by
  unfold fmtFixed
  dsimp only
  by_cases h : round (q * (10 : ℚ) ^ p) < 0
  · rw [if_pos h]
    simp
  · rw [if_neg h, List.nil_append]
    obtain ⟨c, rest, hc, hd⟩ := renderNat_head_digit ((round (q * (10 : ℚ) ^ p)).natAbs / 10 ^ p)
    rw [hc, List.cons_append]
    simp [digit_not_dot c hd]

theorem recLine_bare (c : Char) (s2 : List Char) (ts : List RawTok) (hc : c ≠ '.') :
    RecLine (.bare (c :: s2) :: ts) := by
  rw [RecLine.eq_def]
  split
  · rename_i heq
    simp at heq
  · rename_i heq
    rw [List.cons.injEq, RawTok.bare.injEq, List.cons.injEq] at heq
    exact absurd heq.1.1 hc
  · trivial

theorem recLine_headtok (t : RawTok) (ts : List RawTok)
    (h : ∀ s, t = .bare s → s.head? ≠ some '.') : RecLine (t :: ts) := by
  cases t with
  | quoted q => trivial
  | bare s =>
    cases s with
    | nil => trivial
    | cons c s2 =>
      have hc : c ≠ '.' := by
        have h2 := h (c :: s2) rfl
        simp only [List.head?_cons, ne_eq, Option.some.injEq] at h2
        exact h2
      exact recLine_bare c s2 ts hc

theorem notDotLed_head (s : List Char) (h : notDotLedValue (.String s)) :
    s.head? ≠ some '.' := by
  cases s with
  | nil => simp
  | cons c r =>
    by_cases hc : c = '.'
    · subst hc
      exact absurd h (by simp [notDotLedValue])
    · simp [hc]

theorem valueTok_head_ne_dot (v : IdfValue) (hv : GoodValue v) (hd : notDotLedValue v) :
    ∀ s, valueTok v = .bare s → s.head? ≠ some '.' := by
  intro s hs
  cases v with
  | Integer n =>
    rw [show valueTok (.Integer n) = .bare (renderInt n) from rfl] at hs
    injection hs with hs2
    rw [← hs2]
    exact renderInt_head_ne_dot n
  | Float q =>
    rw [show valueTok (.Float q) = .bare (fmtFixed 4 q) from rfl] at hs
    injection hs with hs2
    rw [← hs2]
    exact fmtFixed_head_ne_dot 4 q
  | String str =>
    rcases hv with ⟨hb, _, _⟩ | ⟨t, rfl, hq⟩
    · have hne : str ≠ [] := by
        unfold goodBare at hb
        rw [Bool.and_eq_true] at hb
        intro he
        rw [he] at hb
        simp at hb
      rw [show valueTok (.String str) = strTok (escape_string str) from rfl,
        show escape_string str = str from by unfold escape_string; rw [if_neg hne],
        strTok_bare str (goodBare_head_ne_quote str hb)] at hs
      injection hs with hs2
      rw [← hs2]
      exact notDotLed_head str hd
    · rw [show valueTok (.String ('"' :: t ++ ['"'])) =
          strTok (escape_string ('"' :: t ++ ['"'])) from rfl,
        show escape_string ('"' :: t ++ ['"']) = '"' :: t ++ ['"'] from by
          unfold escape_string; rw [if_neg (by simp)],
        rawText_strTok_quoted] at hs
      cases hs

/-! ### Token lines of the rendered document -/

theorem hdr_r0_good (h : Header) (hsrc : goodBare h.source = true)
    (hdate : goodBare h.date = true) :
    ∀ t ∈ [RawTok.bare ("BOARD_FILE".toList), .bare ("3.0".toList), .bare h.source,
      .bare h.date, .bare (renderNat h.board_file_version)], GoodTok t := by
  intro t ht
  simp only [List.mem_cons, List.not_mem_nil, or_false] at ht
  rcases ht with rfl | rfl | rfl | rfl | rfl
  · exact (by with_unfolding_all decide : goodBare ("BOARD_FILE".toList) = true)
  · exact (by with_unfolding_all decide : goodBare ("3.0".toList) = true)
  · exact hsrc
  · exact hdate
  · exact goodBare_renderNat _

theorem hdr_r1_good (bn : List Char) (u : Unit) (hbn : goodBare bn = true) :
    ∀ t ∈ [RawTok.bare bn, .bare u.render], GoodTok t := by
  intro t ht
  simp only [List.mem_cons, List.not_mem_nil, or_false] at ht
  rcases ht with rfl | rfl
  · exact hbn
  · cases u
    · exact (by with_unfolding_all decide : goodBare ("MM".toList) = true)
    · exact (by with_unfolding_all decide : goodBare ("THOU".toList) = true)

theorem secLine0_good (s : IdfSection) (hn : goodBare s.name = true)
    (hargs : ∀ a ∈ s.args, GoodArg a) :
    ∀ t ∈ RawTok.bare ('.' :: s.name) :: s.args.map strTok, GoodTok t := by
  intro t ht
  rcases List.mem_cons.mp ht with rfl | ht2
  · exact goodBare_cons_all '.' s.name (by with_unfolding_all decide) (goodBare_all _ hn)
  · obtain ⟨a, ha, rfl⟩ := List.mem_map.mp ht2
    exact goodTok_strTok a (hargs a ha)

theorem secEnd_good (nm : List Char) (hn : goodBare nm = true) :
    GoodTok (.bare ('.' :: ("END_".toList ++ nm))) := by
  refine goodBare_cons_all '.' _ (by with_unfolding_all decide) ?_
  rw [List.all_append, Bool.and_eq_true]
  exact ⟨by with_unfolding_all decide, goodBare_all _ hn⟩

theorem cpA_good (cp : ComponentPlacement) (h : GoodPlacement cp) :
    ∀ t ∈ [fieldTok cp.package_name, fieldTok cp.part_number, desTok cp.designator],
      GoodTok t := by
  obtain ⟨hpkg, hpart, hdes, _, _, _, _⟩ := h
  intro t ht
  simp only [List.mem_cons, List.not_mem_nil, or_false] at ht
  rcases ht with rfl | rfl | rfl
  · refine goodTok_fieldTok _ ?_
    rcases hpkg with h1 | h1
    · exact Or.inl h1
    · exact Or.inr h1.1
  · exact goodTok_fieldTok _ hpart
  · exact goodTok_desTok _ hdes

theorem cpB_good (cp : ComponentPlacement) :
    ∀ t ∈ [RawTok.bare (fmtFixed 4 cp.x), .bare (fmtFixed 4 cp.y), .bare (fmtFixed 4 cp.z),
      .bare (fmtFixed 3 cp.rotation), .bare cp.board_side.render,
      .bare cp.placement_status.render], GoodTok t := by
  intro t ht
  simp only [List.mem_cons, List.not_mem_nil, or_false] at ht
  rcases ht with rfl | rfl | rfl | rfl | rfl | rfl
  · exact fmtFixed_good 4 cp.x
  · exact fmtFixed_good 4 cp.y
  · exact fmtFixed_good 4 cp.z
  · exact fmtFixed_good 3 cp.rotation
  · cases cp.board_side
    · exact (by with_unfolding_all decide : goodBare ("TOP".toList) = true)
    · exact (by with_unfolding_all decide : goodBare ("BOTTOM".toList) = true)
  · cases cp.placement_status
    · exact (by with_unfolding_all decide : goodBare ("PLACED".toList) = true)
    · exact (by with_unfolding_all decide : goodBare ("UNPLACED".toList) = true)
    · exact (by with_unfolding_all decide : goodBare ("MCAD".toList) = true)
    · exact (by with_unfolding_all decide : goodBare ("ECAD".toList) = true)

theorem mapM_tokenize_hdr (h : Header) (bn : List Char) (u : Unit)
    (hsrc : goodBare h.source = true) (hdate : goodBare h.date = true)
    (hbn : goodBare bn = true) :
    (hdrCharLines h bn u).mapM tokenizeLine = .ok (secTokLines (hdrRawBoard h bn u)) := by
  have h1 : tokenizeLine (cs ".HEADER") = .ok [.bare ('.' :: "HEADER".toList)] := by
    with_unfolding_all decide
  have h4 : tokenizeLine (cs ".END_HEADER") =
      .ok [.bare ('.' :: ("END_".toList ++ "HEADER".toList))] := by
    with_unfolding_all decide
  exact mapM_ok_cons _ _ _ _ _ h1
    (mapM_ok_cons _ _ _ _ _ (tokenizeLine_sepToks _ (hdr_r0_good h hsrc hdate))
      (mapM_ok_cons _ _ _ _ _ (tokenizeLine_sepToks _ (hdr_r1_good bn u hbn))
        (mapM_ok_cons _ _ _ _ _ h4 rfl)))

theorem mapM_tokenize_sec (s : IdfSection) (hg : GoodSection s) :
    (secCharLines s).mapM tokenizeLine = .ok (secTokLines (secRawOf s)) := by
  obtain ⟨hn, hpre, _, _, hargs, hrecs⟩ := hg
  have hrec : ∀ r ∈ s.records, tokenizeLine (' ' :: ' ' :: sepToks (r.map valueTok)) =
      .ok (r.map valueTok) := by
    intro r hr
    apply tokenizeLine_sp2
    intro t ht
    obtain ⟨v, hv, rfl⟩ := List.mem_map.mp ht
    exact goodTok_valueTok v ((hrecs r hr).2.1 v hv)
  show ((sepToks (.bare ('.' :: s.name) :: s.args.map strTok) ::
      s.records.map fun r => ' ' :: ' ' :: sepToks (r.map valueTok)) ++
      [sepToks [.bare ('.' :: ("END_".toList ++ s.name))]]).mapM tokenizeLine = _
  refine mapM_ok_append _ _ _ _ _ ?_ ?_
  · exact mapM_ok_cons _ _ _ _ _ (tokenizeLine_sepToks _ (secLine0_good s hn hargs))
      (mapM_ok_map2 tokenizeLine _ _ s.records hrec)
  · exact mapM_ok_cons _ _ _ _ _
      (tokenizeLine_sepToks _ (fun t ht => by
        rw [List.mem_singleton] at ht
        subst ht
        exact secEnd_good s.name hn)) rfl

theorem mapM_tokenize_cp (cp : ComponentPlacement) (h : GoodPlacement cp) :
    (cpCharLines cp).mapM tokenizeLine = .ok (cpLines cp) := by
  exact mapM_ok_cons _ _ _ _ _ (tokenizeLine_sepToks _ (cpA_good cp h))
    (mapM_ok_cons _ _ _ _ _ (tokenizeLine_sp2 _ (cpB_good cp)) rfl)

/-! ### No newline inside the rendered lines -/

theorem hdrCharLines_no_nl (h : Header) (bn : List Char) (u : Unit)
    (hsrc : goodBare h.source = true) (hdate : goodBare h.date = true)
    (hbn : goodBare bn = true) : ∀ l ∈ hdrCharLines h bn u, '\n' ∉ l := by
  intro l hl
  simp only [hdrCharLines, List.mem_cons, List.not_mem_nil, or_false] at hl
  rcases hl with rfl | rfl | rfl | rfl
  · with_unfolding_all decide
  · exact sepToks_no_nl _ (hdr_r0_good h hsrc hdate)
  · exact sepToks_no_nl _ (hdr_r1_good bn u hbn)
  · with_unfolding_all decide

theorem secCharLines_no_nl (s : IdfSection) (hg : GoodSection s) :
    ∀ l ∈ secCharLines s, '\n' ∉ l := by
  obtain ⟨hn, hpre, _, _, hargs, hrecs⟩ := hg
  intro l hl
  simp only [secCharLines, List.mem_append, List.mem_cons, List.mem_singleton,
    List.not_mem_nil, or_false] at hl
  rcases hl with (rfl | hl2) | rfl
  · exact sepToks_no_nl _ (secLine0_good s hn hargs)
  · obtain ⟨r, hr, rfl⟩ := List.mem_map.mp hl2
    intro hm
    rcases List.mem_cons.mp hm with he | hm2
    · exact absurd he (by decide)
    rcases List.mem_cons.mp hm2 with he | hm3
    · exact absurd he (by decide)
    · exact sepToks_no_nl _ (fun t ht => by
        obtain ⟨v, hv, rfl⟩ := List.mem_map.mp ht
        exact goodTok_valueTok v ((hrecs r hr).2.1 v hv)) hm3
  · exact sepToks_no_nl _ (fun t ht => by
      rw [List.mem_singleton] at ht
      subst ht
      exact secEnd_good s.name hn)

theorem cpCharLines_no_nl (cp : ComponentPlacement) (h : GoodPlacement cp) :
    ∀ l ∈ cpCharLines cp, '\n' ∉ l := by
  intro l hl
  simp only [cpCharLines, List.mem_cons, List.not_mem_nil, or_false] at hl
  rcases hl with rfl | rfl
  · exact sepToks_no_nl _ (cpA_good cp h)
  · intro hm
    rcases List.mem_cons.mp hm with he | hm2
    · exact absurd he (by decide)
    rcases List.mem_cons.mp hm2 with he | hm3
    · exact absurd he (by decide)
    · exact sepToks_no_nl _ (cpB_good cp) hm3

/-! ### The grammar pass over a rendered board document -/

theorem docSections_to_string (m : Idf30) (bn : List Char) (u : Unit)
    (hty : m.header.ty = .BoardFile bn u)
    (hbn : goodBare bn = true) (hbnh : bn.head? ≠ some '.')
    (hsrc : goodBare m.header.source = true) (hdate : goodBare m.header.date = true)
    (hps : ∀ cp ∈ m.placement, GoodPlacement cp)
    (hss : ∀ s ∈ m.other_sections, GoodSection s) :
    docSections (Idf30.to_string m) = .ok (boardDocRaw m bn u) := by
  rw [to_string_lines m bn u hty hss]
  unfold docSections
  have hnl : ∀ l ∈ docCharLines m bn u, '\n' ∉ l := by
    intro l hl
    simp only [docCharLines, List.mem_append, List.mem_cons, List.mem_singleton,
      List.not_mem_nil, or_false] at hl
    rcases hl with ((hl | hl) | (rfl | hl)) | rfl
    · exact hdrCharLines_no_nl m.header bn u hsrc hdate hbn l hl
    · obtain ⟨ls, hls, hl2⟩ := List.mem_flatten.mp hl
      obtain ⟨sec, hsec, rfl⟩ := List.mem_map.mp hls
      exact secCharLines_no_nl sec (hss sec hsec) l hl2
    · with_unfolding_all decide
    · obtain ⟨ls, hls, hl2⟩ := List.mem_flatten.mp hl
      obtain ⟨cp, hcp, rfl⟩ := List.mem_map.mp hls
      exact cpCharLines_no_nl cp (hps cp hcp) l hl2
    · with_unfolding_all decide
  rw [splitLines_unlines _ hnl]
  have hdshape : docCharLines m bn u = hdrCharLines m.header bn u ++
      ((m.other_sections.map secCharLines).flatten ++
        ((cs ".PLACEMENT" :: (m.placement.map cpCharLines).flatten) ++
          [cs ".END_PLACEMENT"])) := by
    simp [docCharLines, List.append_assoc]
  have hshape : ((boardDocRaw m bn u).map secTokLines).flatten =
      secTokLines (hdrRawBoard m.header bn u) ++
        ((m.other_sections.map fun s2 => secTokLines (secRawOf s2)).flatten ++
          secTokLines ⟨"PLACEMENT".toList, [], (m.placement.map cpLines).flatten⟩) := by
    simp [boardDocRaw, List.map_append, List.flatten_append, List.map_map,
      List.append_assoc, Function.comp]
    try rfl
  have htok : (docCharLines m bn u ++ [[]]).mapM tokenizeLine =
      .ok (((boardDocRaw m bn u).map secTokLines).flatten ++ [[]]) := by
    rw [hshape, hdshape]
    refine mapM_ok_append _ _ _ _ _ ?_ (mapM_ok_cons _ _ _ _ _ tokenizeLine_nil rfl)
    refine mapM_ok_append _ _ _ _ _ (mapM_tokenize_hdr m.header bn u hsrc hdate hbn) ?_
    refine mapM_ok_append _ _ _ _ _
      (mapM_ok_flatten tokenizeLine secCharLines (fun s2 => secTokLines (secRawOf s2))
        m.other_sections (fun s2 hs2 => mapM_tokenize_sec s2 (hss s2 hs2))) ?_
    show _ = .ok (((.bare ('.' :: "PLACEMENT".toList) :: []) ::
      (m.placement.map cpLines).flatten) ++
      [[.bare ('.' :: ("END_".toList ++ "PLACEMENT".toList))]])
    refine mapM_ok_append _ _ _ _ _ ?_ ?_
    · exact mapM_ok_cons _ _ _ _ _
        (by with_unfolding_all decide :
          tokenizeLine (cs ".PLACEMENT") = .ok [.bare ('.' :: "PLACEMENT".toList)])
        (mapM_ok_flatten tokenizeLine cpCharLines cpLines m.placement
          (fun cp hcp => mapM_tokenize_cp cp (hps cp hcp)))
    · exact mapM_ok_cons _ _ _ _ _
        (by with_unfolding_all decide :
          tokenizeLine (cs ".END_PLACEMENT") =
            .ok [.bare ('.' :: ("END_".toList ++ "PLACEMENT".toList))]) rfl
  rw [htok]
  simp only [exbind_ok]
  have hgood : ∀ sec ∈ boardDocRaw m bn u,
      ("END_".toList).isPrefixOf sec.name = false ∧ ∀ r ∈ sec.records, RecLine r := by
    intro sec hsec
    simp only [boardDocRaw, List.mem_append, List.mem_cons, List.mem_singleton,
      List.not_mem_nil, or_false] at hsec
    rcases hsec with (rfl | hsec) | rfl
    · refine ⟨(by with_unfolding_all decide :
        ("END_".toList).isPrefixOf ("HEADER".toList) = false), ?_⟩
      intro r hr
      simp only [hdrRawBoard, List.mem_cons, List.not_mem_nil, or_false] at hr
      rcases hr with rfl | rfl
      · exact recLine_headtok _ _ (fun s2 hs2 => by
          injection hs2 with hs3
          rw [← hs3]
          with_unfolding_all decide)
      · exact recLine_headtok _ _ (fun s2 hs2 => by
          injection hs2 with hs3
          rw [← hs3]
          exact hbnh)
    · obtain ⟨sec2, hsec2, rfl⟩ := List.mem_map.mp hsec
      obtain ⟨hn2, hpre2, _, _, _, hrecs2⟩ := hss sec2 hsec2
      refine ⟨hpre2, ?_⟩
      intro r hr
      simp only [secRawOf, List.mem_map] at hr
      obtain ⟨r0, hr0, rfl⟩ := hr
      obtain ⟨hrne, hrv, hrd⟩ := hrecs2 r0 hr0
      cases r0 with
      | nil => cases hrne rfl
      | cons v vs =>
        rw [List.map_cons]
        exact recLine_headtok _ _
          (valueTok_head_ne_dot v (hrv v (List.mem_cons_self _ _)) (hrd v rfl))
    · refine ⟨(by with_unfolding_all decide :
        ("END_".toList).isPrefixOf ("PLACEMENT".toList) = false), ?_⟩
      intro r hr
      obtain ⟨ls, hls, hl2⟩ := List.mem_flatten.mp hr
      obtain ⟨cp, hcp, rfl⟩ := List.mem_map.mp hls
      obtain ⟨hpkg, _, _, _, _, _, _⟩ := hps cp hcp
      simp only [cpLines, List.mem_cons, List.not_mem_nil, or_false] at hl2
      rcases hl2 with rfl | rfl
      · refine recLine_headtok _ _ (fun s2 hs2 => ?_)
        rcases hpkg with h1 | h1
        · rw [show fieldTok cp.package_name = .quoted [] from by
            unfold fieldTok; rw [if_pos h1]] at hs2
          cases hs2
        · rw [show fieldTok cp.package_name = .bare cp.package_name from by
            unfold fieldTok
            rw [if_neg (by
              intro he
              rw [he] at h1
              unfold goodBare at h1
              simp at h1)]] at hs2
          injection hs2 with hs3
          rw [← hs3]
          exact h1.2
      · exact recLine_headtok _ _ (fun s2 hs2 => by
          injection hs2 with hs3
          rw [← hs3]
          exact fmtFixed_head_ne_dot 4 cp.x)
  have := sectionize_blocks (boardDocRaw m bn u) [] hgood
  rw [List.nil_append] at this
  exact this

theorem strOf_bare (s : List Char) : strOf (.bare s) = s := rfl

theorem strOf_quoted (s : List Char) : strOf (.quoted s) = s := rfl

theorem classifyValue_bare_eq (s : List Char) :
    classifyValue (.bare s) =
      (if isIntegerTok s then
        match parseI64Opt s with
        | some n => .ok (.Integer n)
        | none => .error .ParseInt
      else if isFloatTok s then
        match parseFloatOpt s with
        | some q => .ok (.Float q)
        | none => .error .ParseFloat
      else .ok (.String s)) := rfl

theorem isIntegerTok_minus (ds : List Char) (hne : ds ≠ []) (hall : ds.all isDigitCh = true) :
    isIntegerTok ('-' :: ds) = true := by
  unfold isIntegerTok
  rw [stripSign_minus]
  simp [hne, hall]

theorem parseU32Opt_minus (ds : List Char) : parseU32Opt ('-' :: ds) = none := by
  have hsp : stripPlus ('-' :: ds) = '-' :: ds := by
    simp [stripPlus]
  unfold parseU32Opt
  rw [hsp, if_neg]
  intro hcontra
  have hall := hcontra.2
  simp only [List.all_cons, Bool.and_eq_true] at hall
  have hd : isDigitCh '-' = false := by with_unfolding_all decide
  rw [hd] at hall
  cases hall.1

/-! ### Decoding the re-tokenized document -/

theorem parse_header_hdrRaw (h : Header) (bn : List Char) (u : Unit)
    (hty : h.ty = .BoardFile bn u) (hver : h.board_file_version < 2 ^ 32) :
    parse_header (hdrRawBoard h bn u) = .ok h := by
  show parse_header ⟨"HEADER".toList, [],
    [.bare ("BOARD_FILE".toList), .bare ("3.0".toList), .bare h.source, .bare h.date,
      .bare (renderNat h.board_file_version)] :: [.bare bn, .bare u.render] :: []⟩ = .ok h
  rw [parse_header_eq2, nextStr_cons]
  simp only [exbind_ok, strOf_bare]
  rw [if_pos (Or.inl (trivial : True)), nextStr_cons]
  simp only [exbind_ok, strOf_bare]
  rw [nextStr_cons]
  simp only [exbind_ok, strOf_bare]
  have hu : parseUnit u.render = .ok u := by
    cases u
    · exact parseUnit_MM
    · exact parseUnit_THOU
  rw [hu]
  simp only [exbind_ok]
  rw [if_pos (trivial : True)]
  unfold finishHeader
  rw [nextStr_cons]
  simp only [exbind_ok, strOf_bare]
  rw [if_pos (trivial : True), nextStr_cons]
  simp only [exbind_ok, strOf_bare]
  rw [nextStr_cons]
  simp only [exbind_ok, strOf_bare]
  rw [nextStr_cons]
  simp only [exbind_ok, strOf_bare]
  rw [parseU32Opt_renderNat _ hver, ← hty]

theorem isIntegerTok_renderInt (z : Int) : isIntegerTok (renderInt z) = true := by
  unfold renderInt
  by_cases h : z < 0
  · rw [if_pos h]
    exact isIntegerTok_minus _ (renderNat_ne_nil _) (renderNat_all_digit _)
  · rw [if_neg h]
    obtain ⟨c, rest, hc, hd⟩ := renderNat_head_digit z.natAbs
    rw [hc]
    unfold isIntegerTok
    rw [stripSign_of_digit c rest hd]
    have hall := renderNat_all_digit z.natAbs
    rw [hc] at hall
    simp [hall]

theorem classifyValue_valueTok (v : IdfValue) (h : GoodValue v) :
    classifyValue (valueTok v) = .ok v := by
  cases v with
  | Integer n =>
    obtain ⟨hlo, hhi⟩ := h
    show classifyValue (.bare (renderInt n)) = _
    rw [classifyValue_bare_eq, isIntegerTok_renderInt n, if_pos rfl,
      parseI64Opt_renderInt n hlo hhi]
  | Float q =>
    show classifyValue (.bare (fmtFixed 4 q)) = _
    rw [classifyValue_bare_eq, isIntegerTok_fmtFixed 4 q (by norm_num), if_neg (by simp),
      show isFloatTok (fmtFixed 4 q) = true from by
        unfold isFloatTok
        rw [parseFloatOpt_fmtFixed 4 q (by norm_num) h]
        rfl,
      if_pos rfl, parseFloatOpt_fmtFixed 4 q (by norm_num) h]
  | String str =>
    rcases h with ⟨hb, hint, hfl⟩ | ⟨t, rfl, hq⟩
    · have hne : str ≠ [] := by
        unfold goodBare at hb
        rw [Bool.and_eq_true] at hb
        intro he
        rw [he] at hb
        simp at hb
      show classifyValue (strTok (escape_string str)) = _
      rw [show escape_string str = str from by unfold escape_string; rw [if_neg hne],
        strTok_bare str (goodBare_head_ne_quote str hb), classifyValue_bare_eq,
        hint, if_neg (by simp), hfl, if_neg (by simp)]
    · show classifyValue (strTok (escape_string ('"' :: t ++ ['"']))) = _
      rw [show escape_string ('"' :: t ++ ['"']) = '"' :: t ++ ['"'] from by
          unfold escape_string; rw [if_neg (by simp)],
        rawText_strTok_quoted]
      rfl

theorem strOf_fieldTok (s : List Char) : strOf (fieldTok s) = s := by
  unfold fieldTok
  by_cases h : s = [] <;> simp [h, strOf]

theorem parseDesignator_desTok (d : ReferenceDesignator) (h : GoodDesignator d) :
    parseDesignator (strOf (desTok d)) = d := by
  cases d with
  | Any s => exact parseDesignator_any s h.2.1 h.2.2
  | NoRefDes => with_unfolding_all decide
  | Board => with_unfolding_all decide

theorem side_ok (b : BoardSide) :
    (if b.render = "TOP".toList then Except.ok BoardSide.Top
     else if b.render = "BOTTOM".toList then Except.ok BoardSide.Bottom
     else Except.error (Error.Malformed "Expected TOP or BOTTOM for side of board")) =
      .ok b := by
  cases b
  · rw [show BoardSide.Top.render = "TOP".toList from rfl, if_pos rfl]
  · rw [show BoardSide.Bottom.render = "BOTTOM".toList from rfl,
      if_neg (by with_unfolding_all decide), if_pos rfl]

theorem status_ok (p : PlacementStatus) :
    (if p.render = "PLACED".toList then Except.ok PlacementStatus.Placed
     else if p.render = "UNPLACED".toList then Except.ok PlacementStatus.Unplaced
     else if p.render = "MCAD".toList then Except.ok PlacementStatus.MCad
     else if p.render = "ECAD".toList then Except.ok PlacementStatus.ECad
     else Except.error (Error.Malformed "Wrong placement status")) = .ok p := by
  cases p
  · rw [show PlacementStatus.Placed.render = "PLACED".toList from rfl, if_pos rfl]
  · rw [show PlacementStatus.Unplaced.render = "UNPLACED".toList from rfl,
      if_neg (by with_unfolding_all decide), if_pos rfl]
  · rw [show PlacementStatus.MCad.render = "MCAD".toList from rfl,
      if_neg (by with_unfolding_all decide), if_neg (by with_unfolding_all decide),
      if_pos rfl]
  · rw [show PlacementStatus.ECad.render = "ECAD".toList from rfl,
      if_neg (by with_unfolding_all decide), if_neg (by with_unfolding_all decide),
      if_neg (by with_unfolding_all decide), if_pos rfl]

theorem parse_cp (cp : ComponentPlacement) (h : GoodPlacement cp) :
    parse_component_placement
        [fieldTok cp.package_name, fieldTok cp.part_number, desTok cp.designator]
        (some [.bare (fmtFixed 4 cp.x), .bare (fmtFixed 4 cp.y), .bare (fmtFixed 4 cp.z),
          .bare (fmtFixed 3 cp.rotation), .bare cp.board_side.render,
          .bare cp.placement_status.render]) = .ok cp := by
  obtain ⟨hpkg, hpart, hdes, hx, hy, hz, hrot⟩ := h
  rw [parse_component_placement_eq, requireRecB_some]
  simp only [exbind_ok]
  rw [nextFloat_ok _ _ _ (parseFloatOpt_fmtFixed 4 cp.x (by norm_num) hx)]
  simp only [exbind_ok]
  rw [nextFloat_ok _ _ _ (parseFloatOpt_fmtFixed 4 cp.y (by norm_num) hy)]
  simp only [exbind_ok]
  rw [nextFloat_ok _ _ _ (parseFloatOpt_fmtFixed 4 cp.z (by norm_num) hz)]
  simp only [exbind_ok]
  rw [nextFloat_ok _ _ _ (parseFloatOpt_fmtFixed 3 cp.rotation (by norm_num) hrot)]
  simp only [exbind_ok]
  rw [nextStr_cons]
  simp only [exbind_ok, strOf_bare]
  cases hbs : cp.board_side with
  | Top =>
    rw [show BoardSide.Top.render = "TOP".toList from rfl, if_pos rfl, nextStr_cons]
    simp only [exbind_ok, strOf_bare]
    cases hst : cp.placement_status with
    | Placed =>
      rw [show PlacementStatus.Placed.render = "PLACED".toList from rfl, if_pos rfl,
        strOf_fieldTok, strOf_fieldTok, parseDesignator_desTok cp.designator hdes, ← hbs,
        ← hst]
    | Unplaced =>
      rw [show PlacementStatus.Unplaced.render = "UNPLACED".toList from rfl,
        if_neg (by with_unfolding_all decide), if_pos rfl, strOf_fieldTok, strOf_fieldTok,
        parseDesignator_desTok cp.designator hdes, ← hbs, ← hst]
    | MCad =>
      rw [show PlacementStatus.MCad.render = "MCAD".toList from rfl,
        if_neg (by with_unfolding_all decide), if_neg (by with_unfolding_all decide),
        if_pos rfl, strOf_fieldTok, strOf_fieldTok,
        parseDesignator_desTok cp.designator hdes, ← hbs, ← hst]
    | ECad =>
      rw [show PlacementStatus.ECad.render = "ECAD".toList from rfl,
        if_neg (by with_unfolding_all decide), if_neg (by with_unfolding_all decide),
        if_neg (by with_unfolding_all decide), if_pos rfl, strOf_fieldTok, strOf_fieldTok,
        parseDesignator_desTok cp.designator hdes, ← hbs, ← hst]
  | Bottom =>
    rw [show BoardSide.Bottom.render = "BOTTOM".toList from rfl,
      if_neg (by with_unfolding_all decide), if_pos rfl, nextStr_cons]
    simp only [exbind_ok, strOf_bare]
    cases hst : cp.placement_status with
    | Placed =>
      rw [show PlacementStatus.Placed.render = "PLACED".toList from rfl, if_pos rfl,
        strOf_fieldTok, strOf_fieldTok, parseDesignator_desTok cp.designator hdes, ← hbs,
        ← hst]
    | Unplaced =>
      rw [show PlacementStatus.Unplaced.render = "UNPLACED".toList from rfl,
        if_neg (by with_unfolding_all decide), if_pos rfl, strOf_fieldTok, strOf_fieldTok,
        parseDesignator_desTok cp.designator hdes, ← hbs, ← hst]
    | MCad =>
      rw [show PlacementStatus.MCad.render = "MCAD".toList from rfl,
        if_neg (by with_unfolding_all decide), if_neg (by with_unfolding_all decide),
        if_pos rfl, strOf_fieldTok, strOf_fieldTok,
        parseDesignator_desTok cp.designator hdes, ← hbs, ← hst]
    | ECad =>
      rw [show PlacementStatus.ECad.render = "ECAD".toList from rfl,
        if_neg (by with_unfolding_all decide), if_neg (by with_unfolding_all decide),
        if_neg (by with_unfolding_all decide), if_pos rfl, strOf_fieldTok, strOf_fieldTok,
        parseDesignator_desTok cp.designator hdes, ← hbs, ← hst]

theorem parsePlacementRecords_cpLines (ps : List ComponentPlacement)
    (h : ∀ cp ∈ ps, GoodPlacement cp) :
    parsePlacementRecords ((ps.map cpLines).flatten) = .ok ps := by
  induction ps with
  | nil => rfl
  | cons cp ps ih =>
    rw [List.map_cons, List.flatten_cons,
      show cpLines cp ++ ((ps.map cpLines).flatten) =
        [fieldTok cp.package_name, fieldTok cp.part_number, desTok cp.designator] ::
          [RawTok.bare (fmtFixed 4 cp.x), .bare (fmtFixed 4 cp.y), .bare (fmtFixed 4 cp.z),
            .bare (fmtFixed 3 cp.rotation), .bare cp.board_side.render,
            .bare cp.placement_status.render] :: (ps.map cpLines).flatten from rfl,
      parsePlacementRecords_cons2_eq, parse_cp cp (h cp (List.mem_cons_self _ _))]
    simp only [exbind_ok]
    rw [ih (fun cp2 hcp2 => h cp2 (List.mem_cons_of_mem _ hcp2))]
    rfl

theorem dispatch_secRawOf (oss : List IdfSection) (h : ∀ s ∈ oss, GoodSection s) :
    dispatch (oss.map secRawOf) = .ok ([], [], oss) := by
  induction oss with
  | nil => rfl
  | cons s oss ih =>
    obtain ⟨hn, hpre, hnp, hnel, hargs, hrecs⟩ := h s (List.mem_cons_self _ _)
    rw [List.map_cons, dispatch_cons_eq, show (secRawOf s).name = s.name from rfl,
      if_neg hnp, if_neg hnel]
    have hr : (secRawOf s).records.mapM (fun r => r.mapM classifyValue) = .ok s.records := by
      show ((s.records.map (List.map valueTok)).mapM fun r => r.mapM classifyValue) = _
      refine mapM_ok_map _ _ s.records ?_
      intro r hrr
      exact mapM_ok_map classifyValue valueTok r
        (fun v hv => classifyValue_valueTok v ((hrecs r hrr).2.1 v hv))
    rw [hr]
    simp only [exbind_ok]
    rw [ih (fun s2 hs2 => h s2 (List.mem_cons_of_mem _ hs2))]
    simp only [exbind_ok]
    have ha : (secRawOf s).args.map rawText = s.args := by
      show (s.args.map strTok).map rawText = _
      rw [List.map_map]
      have := List.map_congr_left (l := s.args)
        (f := rawText ∘ strTok) (g := id) (fun a ha2 => rawText_strTok_arg a (hargs a ha2))
      rw [this, List.map_id]
    rw [ha]

theorem decode_boardDocRaw (m : Idf30) (bn : List Char) (u : Unit)
    (hty : m.header.ty = .BoardFile bn u) (hver : m.header.board_file_version < 2 ^ 32)
    (hps : ∀ cp ∈ m.placement, GoodPlacement cp)
    (hss : ∀ s ∈ m.other_sections, GoodSection s) :
    decodeSections (boardDocRaw m bn u) = .ok m := by
  show decodeSections ((hdrRawBoard m.header bn u :: m.other_sections.map secRawOf) ++
    [⟨"PLACEMENT".toList, [], (m.placement.map cpLines).flatten⟩]) = _
  rw [List.cons_append, decodeSections_cons_eq, parse_header_hdrRaw m.header bn u hty hver]
  simp only [exbind_ok]
  rw [dispatch_append _ _ _ _ _ (dispatch_secRawOf m.other_sections hss)]
  have hpl : dispatch [(⟨"PLACEMENT".toList, [], (m.placement.map cpLines).flatten⟩ :
      RawSection)] = .ok (m.placement, [], []) := by
    rw [dispatch_cons_eq, if_pos rfl, parsePlacementRecords_cpLines m.placement hps]
    simp only [exbind_ok]
    rw [show dispatch ([] : List RawSection) = .ok ([], [], []) from rfl]
    simp
  rw [hpl]
  simp only [exmap_ok]
  rw [hty]
  simp

theorem to_string_parse_ok (m : Idf30) (hg : GoodBoardDoc m) :
    Idf30.parse (Idf30.to_string m) = .ok m := by
  obtain ⟨⟨bn, u, hty, hbn, hbnh⟩, hsrc, hdate, hver, hps, hss⟩ := hg
  rw [parse_eq, docSections_to_string m bn u hty hbn hbnh hsrc hdate hps hss]
  simp only [exbind_ok]
  exact decode_boardDocRaw m bn u hty hver hps hss

/-- C2: a document whose PLACEMENT section holds an odd number of interior
records, that is complete pairs followed by one lone trailing record (its
identity line present, no geometry line), fails with
MalformedPlacementSection, wherever the PLACEMENT section sits in the
document, in particular also when it is the last section. -/
theorem C2_odd_placement_records (text : List Char) (hdr plSec : RawSection)
    (pre post : List RawSection) (h : Header) (pa : List ComponentPlacement)
    (ca : List ComponentDefinition) (oa : List IdfSection)
    (pairs : List (List RawTok)) (lastR : List RawTok) (ps : List ComponentPlacement)
    (hdoc : docSections text = .ok (hdr :: pre ++ plSec :: post))
    (hhdr : parse_header hdr = .ok h)
    (hpre : dispatch pre = .ok (pa, ca, oa))
    (hname : plSec.name = "PLACEMENT".toList)
    (hsplit : plSec.records = pairs ++ [lastR])
    (hpairs : parsePlacementRecords pairs = .ok ps)
    (hlast : 3 ≤ lastR.length) :
    Idf30.parse text = .error .MalformedPlacementSection ∧ plSec.records.length % 2 = 1 := by
  constructor
  · rw [parse_eq, hdoc]
    simp only [exbind_ok]
    rw [List.cons_append, decodeSections_cons_eq, hhdr]
    simp only [exbind_ok]
    have hds : dispatch (pre ++ plSec :: post) = .error .MalformedPlacementSection := by
      rw [dispatch_append pre _ _ _ _ hpre]
      rw [dispatch_cons_eq, if_pos hname, hsplit]
      rw [parsePlacementRecords_append pairs ps [lastR] hpairs]
      rw [parsePlacementRecords_last lastR hlast]
      rfl
    rw [hds]
    rfl
  · rw [hsplit]
    have heven := parsePlacementRecords_even pairs ps hpairs
    simp only [List.length_append, List.length_singleton]
    omega

/-- Witness for C2 at a concrete document whose PLACEMENT section is last
and holds one lone record. -/
theorem C2_odd_placement_records_witness :
    Idf30.parse (cs ".HEADER\nBOARD_FILE 3.0 src d 1\nboard MM\n.END_HEADER\n.PLACEMENT\npkg part C1\n.END_PLACEMENT\n") =
      .error .MalformedPlacementSection ∧
    (RawSection.records ⟨cs "PLACEMENT", [],
      [[.bare (cs "pkg"), .bare (cs "part"), .bare (cs "C1")]]⟩).length % 2 = 1 :=
  C2_odd_placement_records
    (cs ".HEADER\nBOARD_FILE 3.0 src d 1\nboard MM\n.END_HEADER\n.PLACEMENT\npkg part C1\n.END_PLACEMENT\n")
    ⟨cs "HEADER", [],
      [[.bare (cs "BOARD_FILE"), .bare (cs "3.0"), .bare (cs "src"), .bare (cs "d"),
        .bare (cs "1")], [.bare (cs "board"), .bare (cs "MM")]]⟩
    ⟨cs "PLACEMENT", [], [[.bare (cs "pkg"), .bare (cs "part"), .bare (cs "C1")]]⟩
    [] [] ⟨.BoardFile (cs "board") .SImm, cs "src", cs "d", 1⟩ [] [] []
    [] [.bare (cs "pkg"), .bare (cs "part"), .bare (cs "C1")] []
    (by with_unfolding_all decide) (by with_unfolding_all decide) rfl rfl rfl rfl
    (by with_unfolding_all decide)

/-- C3 counterexample: a board file header with version token 2.0 and unit
token CM fails WrongUnit, not UnsupportedVersion, because the unit of the
second header record is checked before the version token; and a file type
token outside the three literals fails WrongFileType even when the version
token is not 3.0. -/
theorem C3_counterexample :
    Idf30.parse (cs ".HEADER\nBOARD_FILE 2.0 src d 1\nboard CM\n.END_HEADER\n") =
        .error .WrongUnit ∧
      Idf30.parse (cs ".HEADER\nBOARD_FILE 2.0 src d 1\nboard CM\n.END_HEADER\n") ≠
        .error .UnsupportedVersion ∧
      Idf30.parse (cs ".HEADER\nXYZ_FILE 2.0 src d 1\n.END_HEADER\n") =
        .error .WrongFileType ∧
      Idf30.parse (cs ".HEADER\nXYZ_FILE 2.0 src d 1\n.END_HEADER\n") ≠
        .error .UnsupportedVersion := by
  refine ⟨?_, ?_, ?_, ?_⟩ <;> with_unfolding_all decide

/-- C3 amended: when the file type token is one of the three accepted
literals and, for a board or panel file, the second header record is
present with a unit token in MM or THOU, a version token other than 3.0
fails UnsupportedVersion. -/
theorem C3_version_check (text : List Char) (hargs : List RawTok) (tyTok verTok : RawTok)
    (r0rest : List RawTok) (rrecs : List (List RawTok)) (rest : List RawSection)
    (hdoc : docSections text =
      .ok (⟨"HEADER".toList, hargs, (tyTok :: verTok :: r0rest) :: rrecs⟩ :: rest))
    (hver : strOf verTok ≠ "3.0".toList)
    (hbranch : strOf tyTok = "LIBRARY_FILE".toList ∨
      ((strOf tyTok = "BOARD_FILE".toList ∨ strOf tyTok = "PANEL_FILE".toList) ∧
        ∃ bn ut utr rr1, rrecs = (bn :: ut :: utr) :: rr1 ∧
          (strOf ut = "MM".toList ∨ strOf ut = "THOU".toList))) :
    Idf30.parse text = .error .UnsupportedVersion := by
  rw [parse_eq, hdoc]
  simp only [exbind_ok]
  rw [decodeSections_cons_eq]
  have hph : parse_header ⟨"HEADER".toList, hargs, (tyTok :: verTok :: r0rest) :: rrecs⟩ =
      .error .UnsupportedVersion := by
    rcases hbranch with hty | ⟨hty, bn, ut, utr, rr1, hrr, hunit⟩
    · rw [parse_header_eq, nextStr_cons]
      simp only [exbind_ok]
      rw [hty, if_neg (by with_unfolding_all decide), if_pos rfl]
      exact finishHeader_bad_version _ verTok r0rest hver
    · subst hrr
      rw [parse_header_eq2, nextStr_cons]
      simp only [exbind_ok]
      have hif : (strOf tyTok = "BOARD_FILE".toList ∨ strOf tyTok = "PANEL_FILE".toList) := hty
      rw [if_pos hif, nextStr_cons]
      simp only [exbind_ok]
      rw [nextStr_cons]
      simp only [exbind_ok]
      rcases hunit with hu | hu
      · rw [hu, parseUnit_MM]
        simp only [exbind_ok]
        exact finishHeader_bad_version _ verTok r0rest hver
      · rw [hu, parseUnit_THOU]
        simp only [exbind_ok]
        exact finishHeader_bad_version _ verTok r0rest hver
  rw [hph]
  rfl

/-- Witness for the amended C3 at a concrete library file document with
version token 2.0. -/
theorem C3_version_check_witness :
    Idf30.parse (cs ".HEADER\nLIBRARY_FILE 2.0 src d 1\n.END_HEADER\n") =
      .error .UnsupportedVersion :=
  C3_version_check (cs ".HEADER\nLIBRARY_FILE 2.0 src d 1\n.END_HEADER\n") []
    (.bare (cs "LIBRARY_FILE")) (.bare (cs "2.0"))
    [.bare (cs "src"), .bare (cs "d"), .bare (cs "1")] [] []
    (by with_unfolding_all decide) (by with_unfolding_all decide) (Or.inl rfl)

/-- C7: a unit token outside MM and THOU fails WrongUnit, both in the
second header record of a board or panel file and in the header record of
an ELECTRICAL component definition section (wherever that section sits and
whatever the file type). -/
theorem C7_wrong_unit :
    (∀ (text : List Char) (hargs tyTok_r0 : List RawTok) (bn ut : RawTok)
      (utr : List RawTok) (tyTok : RawTok) (rr1 : List (List RawTok)) (rest : List RawSection),
      docSections text = .ok
        (⟨"HEADER".toList, hargs, (tyTok :: tyTok_r0) :: (bn :: ut :: utr) :: rr1⟩ :: rest) →
      (strOf tyTok = "BOARD_FILE".toList ∨ strOf tyTok = "PANEL_FILE".toList) →
      strOf ut ≠ "MM".toList → strOf ut ≠ "THOU".toList →
      Idf30.parse text = .error .WrongUnit) ∧
    (∀ (text : List Char) (hdr elSec : RawSection) (pre post : List RawSection) (h : Header)
      (pa : List ComponentPlacement) (ca : List ComponentDefinition) (oa : List IdfSection)
      (g p ut : RawTok) (r2rest : List RawTok) (erest : List (List RawTok)),
      docSections text = .ok (hdr :: pre ++ elSec :: post) →
      parse_header hdr = .ok h → dispatch pre = .ok (pa, ca, oa) →
      elSec.name = "ELECTRICAL".toList →
      elSec.records = (g :: p :: ut :: r2rest) :: erest →
      strOf ut ≠ "MM".toList → strOf ut ≠ "THOU".toList →
      Idf30.parse text = .error .WrongUnit) := by
  constructor
  · intro text hargs tyTok_r0 bn ut utr tyTok rr1 rest hdoc hty hu1 hu2
    rw [parse_eq, hdoc]
    simp only [exbind_ok]
    rw [decodeSections_cons_eq]
    have hph : parse_header
        ⟨"HEADER".toList, hargs, (tyTok :: tyTok_r0) :: (bn :: ut :: utr) :: rr1⟩ =
        .error .WrongUnit := by
      rw [parse_header_eq2, nextStr_cons]
      simp only [exbind_ok]
      rw [if_pos hty, nextStr_cons]
      simp only [exbind_ok]
      rw [nextStr_cons]
      simp only [exbind_ok]
      rw [parseUnit_err _ hu1 hu2]
      rfl
    rw [hph]
    rfl
  · intro text hdr elSec pre post h pa ca oa g p ut r2rest erest hdoc hhdr hpre hname hrecs
      hu1 hu2
    rw [parse_eq, hdoc]
    simp only [exbind_ok]
    rw [List.cons_append, decodeSections_cons_eq, hhdr]
    simp only [exbind_ok]
    have hds : dispatch (pre ++ elSec :: post) = .error .WrongUnit := by
      rw [dispatch_append pre _ _ _ _ hpre]
      rw [dispatch_cons_eq, if_neg (by rw [hname]; with_unfolding_all decide), if_pos hname]
      rw [hrecs, parse_component_definition_eq, nextStr_cons]
      simp only [exbind_ok]
      rw [nextStr_cons]
      simp only [exbind_ok]
      rw [nextStr_cons]
      simp only [exbind_ok]
      rw [parseUnit_err _ hu1 hu2]
      rfl
    rw [hds]
    rfl

/-- Witness for C7: the unit token CM fails WrongUnit both in a board file
header and in a component definition record of a library file. -/
theorem C7_wrong_unit_witness :
    Idf30.parse (cs ".HEADER\nBOARD_FILE 3.0 src d 1\nboard CM\n.END_HEADER\n") =
        .error .WrongUnit ∧
      Idf30.parse
        (cs ".HEADER\nLIBRARY_FILE 3.0 src d 1\n.END_HEADER\n.ELECTRICAL\ngeo part CM 1.0\n.END_ELECTRICAL\n") =
        .error .WrongUnit :=
  ⟨C7_wrong_unit.1 (cs ".HEADER\nBOARD_FILE 3.0 src d 1\nboard CM\n.END_HEADER\n")
    [] [.bare (cs "3.0"), .bare (cs "src"), .bare (cs "d"), .bare (cs "1")]
    (.bare (cs "board")) (.bare (cs "CM")) [] (.bare (cs "BOARD_FILE")) [] []
    (by with_unfolding_all decide) (Or.inl rfl)
    (by with_unfolding_all decide) (by with_unfolding_all decide),
  C7_wrong_unit.2
    (cs ".HEADER\nLIBRARY_FILE 3.0 src d 1\n.END_HEADER\n.ELECTRICAL\ngeo part CM 1.0\n.END_ELECTRICAL\n")
    ⟨cs "HEADER", [],
      [[.bare (cs "LIBRARY_FILE"), .bare (cs "3.0"), .bare (cs "src"), .bare (cs "d"),
        .bare (cs "1")]]⟩
    ⟨cs "ELECTRICAL", [],
      [[.bare (cs "geo"), .bare (cs "part"), .bare (cs "CM"), .bare (cs "1.0")]]⟩
    [] [] ⟨.LibraryFile [], cs "src", cs "d", 1⟩ [] [] []
    (.bare (cs "geo")) (.bare (cs "part")) (.bare (cs "CM")) [.bare (cs "1.0")] []
    (by with_unfolding_all decide) (by with_unfolding_all decide) rfl rfl rfl
    (by with_unfolding_all decide) (by with_unfolding_all decide)⟩

/-- C6 counterexample: the Error type of the decoder has no WrongSide or
WrongStatus variants; a placement pair with side token LEFT fails with the
Malformed error carrying the side message, and one with status token FOO
fails with the Malformed error carrying the status message. -/
theorem C6_counterexample :
    Idf30.parse (cs ".HEADER\nBOARD_FILE 3.0 src d 1\nboard MM\n.END_HEADER\n.PLACEMENT\npkg part C1\n1.0 2.0 0.0 90.0 LEFT PLACED\n.END_PLACEMENT\n") =
        .error (.Malformed "Expected TOP or BOTTOM for side of board") ∧
      Idf30.parse (cs ".HEADER\nBOARD_FILE 3.0 src d 1\nboard MM\n.END_HEADER\n.PLACEMENT\npkg part C1\n1.0 2.0 0.0 90.0 TOP FOO\n.END_PLACEMENT\n") =
        .error (.Malformed "Wrong placement status") := by
  constructor <;> with_unfolding_all decide

/-- C6 amended: in an otherwise well formed placement pair, a side token
outside TOP and BOTTOM fails with the Malformed error carrying the message
Expected TOP or BOTTOM for side of board, and with a valid side a status
token outside the four literals fails with the Malformed error carrying the
message Wrong placement status. -/
theorem C6_side_status (text : List Char) (hdr plSec : RawSection)
    (pre post : List RawSection) (h : Header) (pa : List ComponentPlacement)
    (ca : List ComponentDefinition) (oa : List IdfSection)
    (pairs : List (List RawTok)) (ps : List ComponentPlacement)
    (a b c : RawTok) (arest : List RawTok) (sx sy sz sr : List Char) (qx qy qz qr : ℚ)
    (sideTok statusTok : RawTok) (rbrest : List RawTok) (more : List (List RawTok))
    (hdoc : docSections text = .ok (hdr :: pre ++ plSec :: post))
    (hhdr : parse_header hdr = .ok h)
    (hpre : dispatch pre = .ok (pa, ca, oa))
    (hname : plSec.name = "PLACEMENT".toList)
    (hsplit : plSec.records = pairs ++ (a :: b :: c :: arest) ::
      (.bare sx :: .bare sy :: .bare sz :: .bare sr :: sideTok :: statusTok :: rbrest) :: more)
    (hpairs : parsePlacementRecords pairs = .ok ps)
    (hqx : parseFloatOpt sx = some qx) (hqy : parseFloatOpt sy = some qy)
    (hqz : parseFloatOpt sz = some qz) (hqr : parseFloatOpt sr = some qr) :
    (strOf sideTok ≠ "TOP".toList → strOf sideTok ≠ "BOTTOM".toList →
      Idf30.parse text = .error (.Malformed "Expected TOP or BOTTOM for side of board")) ∧
    ((strOf sideTok = "TOP".toList ∨ strOf sideTok = "BOTTOM".toList) →
      strOf statusTok ≠ "PLACED".toList → strOf statusTok ≠ "UNPLACED".toList →
      strOf statusTok ≠ "MCAD".toList → strOf statusTok ≠ "ECAD".toList →
      Idf30.parse text = .error (.Malformed "Wrong placement status")) := by
  have finish : ∀ e : Error,
      parse_component_placement (a :: b :: c :: arest)
        (some (.bare sx :: .bare sy :: .bare sz :: .bare sr :: sideTok :: statusTok :: rbrest)) =
        .error e →
      Idf30.parse text = .error e := by
    intro e hpcp
    rw [parse_eq, hdoc]
    simp only [exbind_ok]
    rw [List.cons_append, decodeSections_cons_eq, hhdr]
    simp only [exbind_ok]
    have hds : dispatch (pre ++ plSec :: post) = .error e := by
      rw [dispatch_append pre _ _ _ _ hpre]
      rw [dispatch_cons_eq, if_pos hname, hsplit]
      rw [parsePlacementRecords_append pairs ps _ hpairs]
      rw [parsePlacementRecords_cons2_eq, hpcp]
      rfl
    rw [hds]
    rfl
  constructor
  · intro hs1 hs2
    apply finish
    rw [parse_component_placement_eq, requireRecB_some]
    simp only [exbind_ok]
    rw [nextFloat_ok _ _ _ hqx]
    simp only [exbind_ok]
    rw [nextFloat_ok _ _ _ hqy]
    simp only [exbind_ok]
    rw [nextFloat_ok _ _ _ hqz]
    simp only [exbind_ok]
    rw [nextFloat_ok _ _ _ hqr]
    simp only [exbind_ok]
    rw [nextStr_cons]
    simp only [exbind_ok]
    rw [if_neg hs1, if_neg hs2]
    rfl
  · intro hside ht1 ht2 ht3 ht4
    apply finish
    rw [parse_component_placement_eq, requireRecB_some]
    simp only [exbind_ok]
    rw [nextFloat_ok _ _ _ hqx]
    simp only [exbind_ok]
    rw [nextFloat_ok _ _ _ hqy]
    simp only [exbind_ok]
    rw [nextFloat_ok _ _ _ hqz]
    simp only [exbind_ok]
    rw [nextFloat_ok _ _ _ hqr]
    simp only [exbind_ok]
    rw [nextStr_cons]
    simp only [exbind_ok]
    rcases hside with hs | hs
    · rw [if_pos hs, nextStr_cons]
      simp only [exbind_ok]
      rw [if_neg ht1, if_neg ht2, if_neg ht3, if_neg ht4]
      rfl
    · have hsn : strOf sideTok ≠ "TOP".toList := by
        rw [hs]
        with_unfolding_all decide
      rw [if_neg hsn, if_pos hs, nextStr_cons]
      simp only [exbind_ok]
      rw [if_neg ht1, if_neg ht2, if_neg ht3, if_neg ht4]
      rfl

/-- Witness for the amended C6 at concrete documents with side token LEFT
and status token FOO. -/
theorem C6_side_status_witness :
    Idf30.parse (cs ".HEADER\nBOARD_FILE 3.0 src d 1\nboard MM\n.END_HEADER\n.PLACEMENT\npkg part C1\n1.0 2.0 0.0 90.0 LEFT PLACED\n.END_PLACEMENT\n") =
        .error (.Malformed "Expected TOP or BOTTOM for side of board") ∧
      Idf30.parse (cs ".HEADER\nBOARD_FILE 3.0 src d 1\nboard MM\n.END_HEADER\n.PLACEMENT\npkg part C1\n1.0 2.0 0.0 90.0 TOP FOO\n.END_PLACEMENT\n") =
        .error (.Malformed "Wrong placement status") := by
  constructor
  · exact (C6_side_status
      (cs ".HEADER\nBOARD_FILE 3.0 src d 1\nboard MM\n.END_HEADER\n.PLACEMENT\npkg part C1\n1.0 2.0 0.0 90.0 LEFT PLACED\n.END_PLACEMENT\n")
      ⟨cs "HEADER", [],
        [[.bare (cs "BOARD_FILE"), .bare (cs "3.0"), .bare (cs "src"), .bare (cs "d"),
          .bare (cs "1")], [.bare (cs "board"), .bare (cs "MM")]]⟩
      ⟨cs "PLACEMENT", [],
        [[.bare (cs "pkg"), .bare (cs "part"), .bare (cs "C1")],
         [.bare (cs "1.0"), .bare (cs "2.0"), .bare (cs "0.0"), .bare (cs "90.0"),
          .bare (cs "LEFT"), .bare (cs "PLACED")]]⟩
      [] [] ⟨.BoardFile (cs "board") .SImm, cs "src", cs "d", 1⟩ [] [] [] [] []
      (.bare (cs "pkg")) (.bare (cs "part")) (.bare (cs "C1")) []
      (cs "1.0") (cs "2.0") (cs "0.0") (cs "90.0") 1 2 0 90
      (.bare (cs "LEFT")) (.bare (cs "PLACED")) [] []
      (by with_unfolding_all decide) (by with_unfolding_all decide) rfl rfl rfl rfl
      (by with_unfolding_all decide) (by with_unfolding_all decide)
      (by with_unfolding_all decide) (by with_unfolding_all decide)).1
      (by with_unfolding_all decide) (by with_unfolding_all decide)
  · exact (C6_side_status
      (cs ".HEADER\nBOARD_FILE 3.0 src d 1\nboard MM\n.END_HEADER\n.PLACEMENT\npkg part C1\n1.0 2.0 0.0 90.0 TOP FOO\n.END_PLACEMENT\n")
      ⟨cs "HEADER", [],
        [[.bare (cs "BOARD_FILE"), .bare (cs "3.0"), .bare (cs "src"), .bare (cs "d"),
          .bare (cs "1")], [.bare (cs "board"), .bare (cs "MM")]]⟩
      ⟨cs "PLACEMENT", [],
        [[.bare (cs "pkg"), .bare (cs "part"), .bare (cs "C1")],
         [.bare (cs "1.0"), .bare (cs "2.0"), .bare (cs "0.0"), .bare (cs "90.0"),
          .bare (cs "TOP"), .bare (cs "FOO")]]⟩
      [] [] ⟨.BoardFile (cs "board") .SImm, cs "src", cs "d", 1⟩ [] [] [] [] []
      (.bare (cs "pkg")) (.bare (cs "part")) (.bare (cs "C1")) []
      (cs "1.0") (cs "2.0") (cs "0.0") (cs "90.0") 1 2 0 90
      (.bare (cs "TOP")) (.bare (cs "FOO")) [] []
      (by with_unfolding_all decide) (by with_unfolding_all decide) rfl rfl rfl rfl
      (by with_unfolding_all decide) (by with_unfolding_all decide)
      (by with_unfolding_all decide) (by with_unfolding_all decide)).2
      (Or.inl rfl) (by with_unfolding_all decide) (by with_unfolding_all decide)
      (by with_unfolding_all decide) (by with_unfolding_all decide)

theorem no_prop_head (ls : List Char) (rest : List RawTok)
    (hInt : isIntegerTok ls = true) :
    (match (RawTok.bare ls :: rest).head? with
      | some t => decide (rawText t = "PROP".toList)
      | none => false) = false := by
  have hne : ls ≠ "PROP".toList := by
    intro he
    rw [he] at hInt
    have hf : isIntegerTok ("PROP".toList) = false := by with_unfolding_all decide
    rw [hf] at hInt
    cases hInt
  have hne2 : ls ≠ ['P', 'R', 'O', 'P'] := hne
  simp [rawText, hne2]

/-- One well formed outline record prepends one point. -/
theorem parsePoints_outline (ls fx fy fa : List Char) (orest : List RawTok)
    (rest : List (List RawTok)) (n : Nat) (qx qy qa : ℚ) (pts : List Point)
    (hInt : isIntegerTok ls = true) (hn : parseU32Opt ls = some n)
    (hqx : parseFloatOpt fx = some qx) (hqy : parseFloatOpt fy = some qy)
    (hqa : parseFloatOpt fa = some qa) (hrest : parsePoints rest = .ok pts) :
    parsePoints ((.bare ls :: .bare fx :: .bare fy :: .bare fa :: orest) :: rest) =
      .ok ({ label := if n = 0 then .CounterClockwise else .Clockwise,
             x := qx, y := qy, angle := qa } :: pts) := by
  rw [parsePoints_cons_eq,
    if_neg (by rw [no_prop_head ls (.bare fx :: .bare fy :: .bare fa :: orest) hInt]; simp)]
  rw [nextInt_ok _ _ _ hInt hn]
  simp only [exbind_ok]
  rw [nextFloat_ok _ _ _ hqx]
  simp only [exbind_ok]
  rw [nextFloat_ok _ _ _ hqy]
  simp only [exbind_ok]
  rw [nextFloat_ok _ _ _ hqa]
  simp only [exbind_ok]
  rw [hrest]
  rfl

/-- C10: a negative integer loop label in an ELECTRICAL outline record is
accepted by the token grammar but rejected by the unsigned conversion, so
the whole parse fails with the integer conversion error; and a label the
conversion accepts yields CounterClockwise exactly for the value 0 and
Clockwise for every other value. -/
theorem C10_loop_label :
    (∀ (text : List Char) (hdr elSec : RawSection) (pre post : List RawSection) (h : Header)
      (pa : List ComponentPlacement) (ca : List ComponentDefinition) (oa : List IdfSection)
      (g p u htok : RawTok) (r2rest : List RawTok) (un : Unit) (hq : ℚ) (ds : List Char)
      (orest : List RawTok) (morerecs : List (List RawTok)),
      docSections text = .ok (hdr :: pre ++ elSec :: post) →
      parse_header hdr = .ok h → dispatch pre = .ok (pa, ca, oa) →
      elSec.name = "ELECTRICAL".toList →
      elSec.records = (g :: p :: u :: htok :: r2rest) ::
        (.bare ('-' :: ds) :: orest) :: morerecs →
      parseUnit (strOf u) = .ok un →
      (∃ s, htok = .bare s ∧ parseFloatOpt s = some hq) →
      ds ≠ [] → ds.all isDigitCh = true →
      Idf30.parse text = .error .ParseInt) ∧
    (∀ (ls fx fy fa : List Char) (orest : List RawTok) (rest : List (List RawTok))
      (n : Nat) (qx qy qa : ℚ) (pts : List Point),
      isIntegerTok ls = true → parseU32Opt ls = some n →
      parseFloatOpt fx = some qx → parseFloatOpt fy = some qy → parseFloatOpt fa = some qa →
      parsePoints rest = .ok pts →
      parsePoints ((.bare ls :: .bare fx :: .bare fy :: .bare fa :: orest) :: rest) =
        .ok ({ label := if n = 0 then LoopLabel.CounterClockwise else LoopLabel.Clockwise,
               x := qx, y := qy, angle := qa } :: pts)) := by
  constructor
  · intro text hdr elSec pre post h pa ca oa g p u htok r2rest un hq ds orest morerecs
      hdoc hhdr hpre hname hrecs hpu hht hdsne hdsall
    obtain ⟨hs, hhts, hhtq⟩ := hht
    rw [parse_eq, hdoc]
    simp only [exbind_ok]
    rw [List.cons_append, decodeSections_cons_eq, hhdr]
    simp only [exbind_ok]
    have hds2 : dispatch (pre ++ elSec :: post) = .error .ParseInt := by
      rw [dispatch_append pre _ _ _ _ hpre]
      rw [dispatch_cons_eq, if_neg (by rw [hname]; with_unfolding_all decide), if_pos hname]
      rw [hrecs, parse_component_definition_eq, nextStr_cons]
      simp only [exbind_ok]
      rw [nextStr_cons]
      simp only [exbind_ok]
      rw [nextStr_cons]
      simp only [exbind_ok]
      rw [hpu]
      simp only [exbind_ok]
      rw [hhts, nextFloat_ok _ _ _ hhtq]
      simp only [exbind_ok]
      have hpp : parsePoints ((RawTok.bare ('-' :: ds) :: orest) :: morerecs) =
          .error .ParseInt := by
        rw [parsePoints_cons_eq,
          if_neg (by rw [no_prop_head ('-' :: ds) orest
                           (isIntegerTok_minus ds hdsne hdsall)]; simp)]
        rw [nextInt_parse_err _ _ (isIntegerTok_minus ds hdsne hdsall) (parseU32Opt_minus ds)]
        simp only [exbind_err]
      rw [hpp]
      simp only [exbind_err, exmap_err]
    rw [hds2]
    rfl
  · intro ls fx fy fa orest rest n qx qy qa pts hInt hn hqx hqy hqa hrest
    exact parsePoints_outline ls fx fy fa orest rest n qx qy qa pts hInt hn hqx hqy hqa hrest

theorem C10_loop_label_witness :
    Idf30.parse (cs ".HEADER\nLIBRARY_FILE 3.0 src d 1\n.END_HEADER\n.ELECTRICAL\ngeo part MM 1.0\n-1 0.0 0.0 0.0\n.END_ELECTRICAL\n") =
      .error .ParseInt ∧
    parsePoints
        [[.bare (cs "0"), .bare (cs "1.0"), .bare (cs "2.0"), .bare (cs "0.0")],
         [.bare (cs "2"), .bare (cs "1.0"), .bare (cs "2.0"), .bare (cs "0.0")]] =
      .ok [{ label := .CounterClockwise, x := 1, y := 2, angle := 0 },
           { label := .Clockwise, x := 1, y := 2, angle := 0 }] := by
  constructor
  · exact C10_loop_label.1
      (cs ".HEADER\nLIBRARY_FILE 3.0 src d 1\n.END_HEADER\n.ELECTRICAL\ngeo part MM 1.0\n-1 0.0 0.0 0.0\n.END_ELECTRICAL\n")
      ⟨cs "HEADER", [],
        [[.bare (cs "LIBRARY_FILE"), .bare (cs "3.0"), .bare (cs "src"),
          .bare (cs "d"), .bare (cs "1")]]⟩
      ⟨cs "ELECTRICAL", [],
        [[.bare (cs "geo"), .bare (cs "part"), .bare (cs "MM"), .bare (cs "1.0")],
         [.bare (cs "-1"), .bare (cs "0.0"), .bare (cs "0.0"), .bare (cs "0.0")]]⟩
      [] [] ⟨.LibraryFile [], cs "src", cs "d", 1⟩ [] [] []
      (.bare (cs "geo")) (.bare (cs "part")) (.bare (cs "MM")) (.bare (cs "1.0")) []
      .SImm 1 (cs "1") [.bare (cs "0.0"), .bare (cs "0.0"), .bare (cs "0.0")] []
      (by with_unfolding_all decide) (by with_unfolding_all decide) rfl rfl rfl
      (by with_unfolding_all decide)
      ⟨cs "1.0", rfl, by with_unfolding_all decide⟩
      (by with_unfolding_all decide) (by with_unfolding_all decide)
  · have h2 := C10_loop_label.2 (cs "2") (cs "1.0") (cs "2.0") (cs "0.0") [] []
      2 1 2 0 []
      (by with_unfolding_all decide) (by with_unfolding_all decide)
      (by with_unfolding_all decide) (by with_unfolding_all decide)
      (by with_unfolding_all decide) rfl
    exact C10_loop_label.2 (cs "0") (cs "1.0") (cs "2.0") (cs "0.0") []
      [[.bare (cs "2"), .bare (cs "1.0"), .bare (cs "2.0"), .bare (cs "0.0")]]
      0 1 2 0 [{ label := .Clockwise, x := 1, y := 2, angle := 0 }]
      (by with_unfolding_all decide) (by with_unfolding_all decide)
      (by with_unfolding_all decide) (by with_unfolding_all decide)
      (by with_unfolding_all decide) h2

/-- A list of well formed outline records parses to one point each. -/
theorem parsePoints_length (recs : List (List RawTok)) (h : ∀ r ∈ recs, OutlineRec r) :
    ∃ pts, parsePoints recs = .ok pts ∧ pts.length = recs.length := by
  induction recs with
  | nil => exact ⟨[], rfl, rfl⟩
  | cons r rest ih =>
    obtain ⟨pts, hpp, hlen⟩ := ih (fun r2 hr2 => h r2 (List.mem_cons_of_mem _ hr2))
    obtain ⟨ls, x, y, a, rrest, hre, hInt, ⟨n, hn⟩, ⟨sx, qx, hx, hqx⟩, ⟨sy, qy, hy, hqy⟩,
      ⟨sa, qa, ha, hqa⟩⟩ := h r (List.mem_cons_self r rest)
    subst hre hx hy ha
    exact ⟨_, parsePoints_outline ls sx sy sa rrest rest n qx qy qa pts hInt hn hqx hqy hqa hpp,
      by simp [hlen]⟩

/-- A component definition with a well formed header record decodes from
its parsed fields and points. -/
theorem parse_component_definition_ok (g pn ut ht : RawTok) (r2rest : List RawTok)
    (rest : List (List RawTok)) (un : Unit) (hq : ℚ) (pts : List Point)
    (hpu : parseUnit (strOf ut) = .ok un)
    (hht : ∃ s, ht = .bare s ∧ parseFloatOpt s = some hq)
    (hpts : parsePoints rest = .ok pts) :
    parse_component_definition ((g :: pn :: ut :: ht :: r2rest) :: rest) =
      .ok { geometry_name := strOf g, part_number := strOf pn, units := un,
            height := hq, points := pts } := by
  obtain ⟨hs, hsb, hsq⟩ := hht
  subst hsb
  rw [parse_component_definition_eq, nextStr_cons]
  simp only [exbind_ok]
  rw [nextStr_cons]
  simp only [exbind_ok]
  rw [nextStr_cons]
  simp only [exbind_ok]
  rw [hpu]
  simp only [exbind_ok]
  rw [nextFloat_ok _ _ _ hsq]
  simp only [exbind_ok]
  rw [hpts]
  simp only [exbind_ok]

/-- C4: a library file document whose header is followed by two ELECTRICAL
sections with one and two well formed outline records decodes to a model
whose file type carries exactly two component definitions, in document
order, with one and two points. -/
theorem C4_electrical_accumulate (text : List Char) (hdr e1 e2 : RawSection) (h : Header)
    (cs0 : List ComponentDefinition)
    (g1 p1 u1 t1 : RawTok) (r1rest : List RawTok) (un1 : Unit) (q1 : ℚ) (rec1 : List RawTok)
    (g2 p2 u2 t2 : RawTok) (r2rest : List RawTok) (un2 : Unit) (q2 : ℚ)
    (rec2a rec2b : List RawTok)
    (hdoc : docSections text = .ok [hdr, e1, e2])
    (hhdr : parse_header hdr = .ok h) (hty : h.ty = .LibraryFile cs0)
    (hn1 : e1.name = "ELECTRICAL".toList) (hn2 : e2.name = "ELECTRICAL".toList)
    (hr1 : e1.records = (g1 :: p1 :: u1 :: t1 :: r1rest) :: [rec1])
    (hr2 : e2.records = (g2 :: p2 :: u2 :: t2 :: r2rest) :: [rec2a, rec2b])
    (hpu1 : parseUnit (strOf u1) = .ok un1) (hpu2 : parseUnit (strOf u2) = .ok un2)
    (hht1 : ∃ s, t1 = .bare s ∧ parseFloatOpt s = some q1)
    (hht2 : ∃ s, t2 = .bare s ∧ parseFloatOpt s = some q2)
    (ho1 : OutlineRec rec1) (ho2a : OutlineRec rec2a) (ho2b : OutlineRec rec2b) :
    ∃ cd1 cd2 : ComponentDefinition,
      Idf30.parse text =
        .ok { header := { h with ty := .LibraryFile [cd1, cd2] },
              placement := [], other_sections := [] } ∧
      cd1.points.length = 1 ∧ cd2.points.length = 2 := by
  obtain ⟨pts1, hpp1, hlen1⟩ := parsePoints_length [rec1]
    (by intro r hr; rw [List.mem_singleton] at hr; subst hr; exact ho1)
  obtain ⟨pts2, hpp2, hlen2⟩ := parsePoints_length [rec2a, rec2b]
    (by intro r hr
        rcases List.mem_cons.mp hr with h1 | h1
        · subst h1; exact ho2a
        · rw [List.mem_singleton] at h1; subst h1; exact ho2b)
  refine ⟨⟨strOf g1, strOf p1, un1, q1, pts1⟩, ⟨strOf g2, strOf p2, un2, q2, pts2⟩, ?_,
    hlen1, hlen2⟩
  rw [parse_eq, hdoc]
  simp only [exbind_ok]
  rw [decodeSections_cons_eq, hhdr]
  simp only [exbind_ok]
  have hd2 : dispatch [e1, e2] =
      .ok ([], [⟨strOf g1, strOf p1, un1, q1, pts1⟩, ⟨strOf g2, strOf p2, un2, q2, pts2⟩], []) := by
    rw [dispatch_cons_eq, if_neg (by rw [hn1]; with_unfolding_all decide), if_pos hn1]
    rw [hr1, parse_component_definition_ok g1 p1 u1 t1 r1rest [rec1] un1 q1 pts1 hpu1 hht1 hpp1]
    simp only [exbind_ok]
    rw [dispatch_cons_eq, if_neg (by rw [hn2]; with_unfolding_all decide), if_pos hn2]
    rw [hr2,
      parse_component_definition_ok g2 p2 u2 t2 r2rest [rec2a, rec2b] un2 q2 pts2 hpu2 hht2 hpp2]
    simp only [exbind_ok]
    rfl
  rw [hd2]
  simp only [exbind_ok]
  rw [hty]

theorem C4_electrical_accumulate_witness :
    ∃ cd1 cd2 : ComponentDefinition,
      Idf30.parse (cs ".HEADER\nLIBRARY_FILE 3.0 src d 1\n.END_HEADER\n.ELECTRICAL\ngeo1 part1 MM 1.0\n0 0.0 0.0 0.0\n.END_ELECTRICAL\n.ELECTRICAL\ngeo2 part2 THOU 2.0\n0 0.0 0.0 0.0\n1 1.0 1.0 0.0\n.END_ELECTRICAL\n") =
        .ok { header := { ty := .LibraryFile [cd1, cd2], source := cs "src", date := cs "d",
                          board_file_version := 1 },
              placement := [], other_sections := [] } ∧
      cd1.points.length = 1 ∧ cd2.points.length = 2 :=
  C4_electrical_accumulate
    (cs ".HEADER\nLIBRARY_FILE 3.0 src d 1\n.END_HEADER\n.ELECTRICAL\ngeo1 part1 MM 1.0\n0 0.0 0.0 0.0\n.END_ELECTRICAL\n.ELECTRICAL\ngeo2 part2 THOU 2.0\n0 0.0 0.0 0.0\n1 1.0 1.0 0.0\n.END_ELECTRICAL\n")
    ⟨cs "HEADER", [],
      [[.bare (cs "LIBRARY_FILE"), .bare (cs "3.0"), .bare (cs "src"),
        .bare (cs "d"), .bare (cs "1")]]⟩
    ⟨cs "ELECTRICAL", [],
      [[.bare (cs "geo1"), .bare (cs "part1"), .bare (cs "MM"), .bare (cs "1.0")],
       [.bare (cs "0"), .bare (cs "0.0"), .bare (cs "0.0"), .bare (cs "0.0")]]⟩
    ⟨cs "ELECTRICAL", [],
      [[.bare (cs "geo2"), .bare (cs "part2"), .bare (cs "THOU"), .bare (cs "2.0")],
       [.bare (cs "0"), .bare (cs "0.0"), .bare (cs "0.0"), .bare (cs "0.0")],
       [.bare (cs "1"), .bare (cs "1.0"), .bare (cs "1.0"), .bare (cs "0.0")]]⟩
    ⟨.LibraryFile [], cs "src", cs "d", 1⟩ []
    (.bare (cs "geo1")) (.bare (cs "part1")) (.bare (cs "MM")) (.bare (cs "1.0")) [] .SImm 1
    [.bare (cs "0"), .bare (cs "0.0"), .bare (cs "0.0"), .bare (cs "0.0")]
    (.bare (cs "geo2")) (.bare (cs "part2")) (.bare (cs "THOU")) (.bare (cs "2.0")) [] .Mils 2
    [.bare (cs "0"), .bare (cs "0.0"), .bare (cs "0.0"), .bare (cs "0.0")]
    [.bare (cs "1"), .bare (cs "1.0"), .bare (cs "1.0"), .bare (cs "0.0")]
    (by with_unfolding_all decide) (by with_unfolding_all decide) rfl rfl rfl rfl rfl
    (by with_unfolding_all decide) (by with_unfolding_all decide)
    ⟨cs "1.0", rfl, by with_unfolding_all decide⟩
    ⟨cs "2.0", rfl, by with_unfolding_all decide⟩
    ⟨cs "0", .bare (cs "0.0"), .bare (cs "0.0"), .bare (cs "0.0"), [], rfl,
      by with_unfolding_all decide, ⟨0, by with_unfolding_all decide⟩,
      ⟨cs "0.0", 0, rfl, by with_unfolding_all decide⟩,
      ⟨cs "0.0", 0, rfl, by with_unfolding_all decide⟩,
      ⟨cs "0.0", 0, rfl, by with_unfolding_all decide⟩⟩
    ⟨cs "0", .bare (cs "0.0"), .bare (cs "0.0"), .bare (cs "0.0"), [], rfl,
      by with_unfolding_all decide, ⟨0, by with_unfolding_all decide⟩,
      ⟨cs "0.0", 0, rfl, by with_unfolding_all decide⟩,
      ⟨cs "0.0", 0, rfl, by with_unfolding_all decide⟩,
      ⟨cs "0.0", 0, rfl, by with_unfolding_all decide⟩⟩
    ⟨cs "1", .bare (cs "1.0"), .bare (cs "1.0"), .bare (cs "0.0"), [], rfl,
      by with_unfolding_all decide, ⟨1, by with_unfolding_all decide⟩,
      ⟨cs "1.0", 1, rfl, by with_unfolding_all decide⟩,
      ⟨cs "1.0", 1, rfl, by with_unfolding_all decide⟩,
      ⟨cs "0.0", 0, rfl, by with_unfolding_all decide⟩⟩

/-- C9: a quoted token in a generic section is stored as a String value
keeping its surrounding double quotes (the classification used by the
generic section path), while a quoted token read into a typed field through
next_str is stored with the quotes stripped; and at document level a
generic section record holding one quoted token decodes to a String value
with the quotes kept. -/
theorem C9_quoted_tokens :
    (∀ t : List Char, classifyValue (.quoted t) = .ok (.String ('"' :: t ++ ['"']))) ∧
    (∀ (t : List Char) (r : List RawTok), nextStr (.quoted t :: r) = .ok (t, r)) ∧
    (∀ (text : List Char) (hdr sec : RawSection) (h : Header) (bn : List Char) (u : Unit)
      (t : List Char),
      docSections text = .ok [hdr, sec] → parse_header hdr = .ok h →
      h.ty = .BoardFile bn u →
      sec.name ≠ "PLACEMENT".toList → sec.name ≠ "ELECTRICAL".toList →
      sec.args = [] → sec.records = [[.quoted t]] →
      Idf30.parse text =
        .ok { header := h, placement := [],
              other_sections :=
                [{ name := sec.name, args := [],
                   records := [[.String ('"' :: t ++ ['"'])]] }] }) := by
  refine ⟨fun t => rfl, fun t r => rfl, ?_⟩
  intro text hdr sec h bn u t hdoc hhdr hty hn1 hn2 hargs hrecs
  rw [parse_eq, hdoc]
  simp only [exbind_ok]
  rw [decodeSections_cons_eq, hhdr]
  simp only [exbind_ok]
  have hd1 : dispatch [sec] =
      .ok ([], [], [{ name := sec.name, args := [],
                      records := [[.String ('"' :: t ++ ['"'])]] }]) := by
    rw [dispatch_cons_eq, if_neg hn1, if_neg hn2, hrecs, hargs]
    rfl
  rw [hd1]
  simp only [exbind_ok]
  rw [hty]

theorem C9_quoted_tokens_witness :
    Idf30.parse (cs ".HEADER\nBOARD_FILE 3.0 src d 1\nbn MM\n.END_HEADER\n.NOTES\n\"A B\"\n.END_NOTES\n") =
      .ok { header := { ty := .BoardFile (cs "bn") .SImm, source := cs "src",
                        date := cs "d", board_file_version := 1 },
            placement := [],
            other_sections :=
              [{ name := cs "NOTES", args := [],
                 records := [[.String (cs "\"A B\"")]] }] } :=
  C9_quoted_tokens.2.2
    (cs ".HEADER\nBOARD_FILE 3.0 src d 1\nbn MM\n.END_HEADER\n.NOTES\n\"A B\"\n.END_NOTES\n")
    ⟨cs "HEADER", [],
      [[.bare (cs "BOARD_FILE"), .bare (cs "3.0"), .bare (cs "src"),
        .bare (cs "d"), .bare (cs "1")],
       [.bare (cs "bn"), .bare (cs "MM")]]⟩
    ⟨cs "NOTES", [], [[.quoted (cs "A B")]]⟩
    ⟨.BoardFile (cs "bn") .SImm, cs "src", cs "d", 1⟩ (cs "bn") .SImm (cs "A B")
    (by with_unfolding_all decide) (by with_unfolding_all decide) rfl
    (by with_unfolding_all decide) (by with_unfolding_all decide) rfl rfl

/-- C5: in an encoded placement the x, y and z fields render through the
four digit fixed formatter and the rotation through the three digit one;
every four digit rendering has exactly four digits after the final dot and
every three digit rendering exactly three; in particular rotation 90
renders 90.000 and x equal to 1.5 renders 1.5000. -/
theorem C5_numeric_formatting :
    (∀ cp : ComponentPlacement, ∃ pre mid : List Char,
      cp.render = pre ++ fmtFixed 4 cp.x ++ ' ' :: fmtFixed 4 cp.y ++ ' ' :: fmtFixed 4 cp.z ++
        ' ' :: fmtFixed 3 cp.rotation ++ mid) ∧
    (∀ q : ℚ, decimalsOf (fmtFixed 4 q) = 4) ∧
    (∀ q : ℚ, decimalsOf (fmtFixed 3 q) = 3) ∧
    fmtFixed 3 90 = "90.000".toList ∧ fmtFixed 4 (3 / 2 : ℚ) = "1.5000".toList := by
  refine ⟨?_, fun q => decimalsOf_fmtFixed 4 q (by norm_num),
    fun q => decimalsOf_fmtFixed 3 q (by norm_num),
    by with_unfolding_all decide, by with_unfolding_all decide⟩
  intro cp
  refine ⟨escape_string cp.package_name ++ ' ' :: escape_string cp.part_number ++
    ' ' :: cp.designator.render ++ ['\n', ' ', ' '],
    ' ' :: cp.board_side.render ++ ' ' :: cp.placement_status.render ++ ['\n'], ?_⟩
  simp [ComponentPlacement.render]

/-- C8: a designator is classified a test point exactly when it is a named
designator whose string starts with TP; the token NOREFDES decodes to the
NoRefDes designator which is not a test point, and the token TP3 decodes to
a named designator which is a test point. -/
theorem C8_test_point_classification :
    (∀ d : ReferenceDesignator, d.is_test_point = true ↔
      ∃ s, d = .Any s ∧ ("TP".toList).isPrefixOf s = true) ∧
    parseDesignator ("NOREFDES".toList) = .NoRefDes ∧
    (parseDesignator ("NOREFDES".toList)).is_test_point = false ∧
    parseDesignator ("TP3".toList) = .Any ("TP3".toList) ∧
    (parseDesignator ("TP3".toList)).is_test_point = true := by
  refine ⟨?_, by with_unfolding_all decide, by with_unfolding_all decide,
    by with_unfolding_all decide, by with_unfolding_all decide⟩
  intro d
  cases d with
  | Any s => simp [ReferenceDesignator.is_test_point]
  | NoRefDes => simp [ReferenceDesignator.is_test_point]
  | Board => simp [ReferenceDesignator.is_test_point]

/-- C1 counterexample: a board document whose header source is the quoted
token with a space inside decodes, but its re-encoding prints the source
unescaped as two bare tokens, shifting the header fields so that the board
file version token becomes the letter d, and the re-parse fails with the
integer conversion error instead of returning the same model. -/
theorem C1_counterexample :
    Idf30.parse (cs ".HEADER\nBOARD_FILE 3.0 \"A B\" d 1\nbn MM\n.END_HEADER\n") =
      .ok { header := { ty := .BoardFile (cs "bn") .SImm, source := cs "A B", date := cs "d",
                        board_file_version := 1 },
            placement := [], other_sections := [] } ∧
    Idf30.parse (Idf30.to_string
      { header := { ty := .BoardFile (cs "bn") .SImm, source := cs "A B", date := cs "d",
                    board_file_version := 1 },
        placement := [], other_sections := [] }) = .error .ParseInt := by
  constructor
  · with_unfolding_all decide
  · with_unfolding_all decide

/-- C1 (amended): for every text that decodes to a well formed board file
model, whose stored fields re-tokenize to single tokens (no embedded spaces,
quotes or newlines, no reserved words in named designators, no dot led
first tokens) and whose stored floats are exactly representable at the
encoder precision, re-encoding and re-parsing returns the same model.
Unrestricted idempotence fails, see the counterexample. -/
theorem C1_round_trip (text : List Char) (m : Idf30) (_hparse : Idf30.parse text = .ok m)
    (hgood : GoodBoardDoc m) : Idf30.parse (Idf30.to_string m) = .ok m :=
  to_string_parse_ok m hgood

theorem C1_round_trip_witness :
    Idf30.parse c1doc = .ok c1model ∧ Idf30.parse (Idf30.to_string c1model) = .ok c1model := by
  have hg : GoodBoardDoc c1model := by
    refine ⟨⟨cs "bn", .SImm, rfl, by with_unfolding_all decide,
      by with_unfolding_all decide⟩,
      by with_unfolding_all decide, by with_unfolding_all decide,
      by with_unfolding_all decide, ?_, ?_⟩
    · intro cp hcp
      simp only [c1model, List.mem_singleton] at hcp
      subst hcp
      exact ⟨Or.inr ⟨by with_unfolding_all decide, by with_unfolding_all decide⟩,
        Or.inr (by with_unfolding_all decide),
        ⟨by with_unfolding_all decide, by with_unfolding_all decide,
          by with_unfolding_all decide⟩,
        by unfold exactFix; with_unfolding_all decide,
        by unfold exactFix; with_unfolding_all decide,
        by unfold exactFix; with_unfolding_all decide,
        by unfold exactFix; with_unfolding_all decide⟩
    · intro sec hsec
      simp only [c1model, List.mem_singleton] at hsec
      subst hsec
      refine ⟨by with_unfolding_all decide, by with_unfolding_all decide,
        by with_unfolding_all decide, by with_unfolding_all decide, ?_, ?_⟩
      · intro a ha
        rw [List.mem_singleton] at ha
        subst ha
        exact Or.inl (by with_unfolding_all decide)
      · intro r hr
        rw [List.mem_singleton] at hr
        subst hr
        refine ⟨by simp, ?_, ?_⟩
        · intro v hv
          simp only [List.mem_cons, List.not_mem_nil, or_false] at hv
          rcases hv with rfl | rfl | rfl
          · exact ⟨by norm_num, by norm_num⟩
          · exact (by unfold exactFix; with_unfolding_all decide : exactFix 4 (3 / 2 : ℚ))
          · exact Or.inl ⟨by with_unfolding_all decide, by with_unfolding_all decide,
              by with_unfolding_all decide⟩
        · intro v hv
          injection hv with hv2
          rw [← hv2]
          trivial
  exact ⟨by with_unfolding_all decide,
    C1_round_trip c1doc c1model (by with_unfolding_all decide) hg⟩

end Idf
